import Mathlib

/-!
Actor / component engine: game loop, sprite draw list, renderer frame, AI state machine

A shallow embedding of the game-loop core of the sample engine
(`Chapter06/Game.cpp`, `Chapter07/Game.cpp`, `Chapter06/Renderer.cpp`,
`Chapter04/AIComponent.cpp`, `Chapter04/Enemy.cpp`).

Pointers (`Actor*`, `SpriteComponent*`, `MeshComponent*`, `AIState*`) are natural
numbers: two pointers are equal exactly when the numbers are.  A `std::vector`
is a `List` in index order.  Calls made on other objects are recorded in a log
in program order.
-/

namespace Engine

/-! ## Game: actor lists -/

/-- Lifecycle state of an actor (`Actor::State`). -/
inductive ActorState where
  | EActive
  | EPaused
  | EDead
  deriving DecidableEq, Repr

/-- Calls that `Game::UpdateGame` makes, in program order. -/
inductive GameEvent where
  /-- The call `actor->Update(deltaTime)` of the tick pass. -/
  | update (actor : Nat)
  /-- The call `pending->ComputeWorldTransform()`. -/
  | computeWorldTransform (actor : Nat)
  /-- The call `mActors.emplace_back(pending)` of the pending splice. -/
  | emplaceLive (actor : Nat)
  /-- The statement `delete actor` of the reaping loop. -/
  | destroy (actor : Nat)
  deriving DecidableEq, Repr

/-- The part of `Game` that the actor bookkeeping reads and writes, the lifecycle
state of every actor (`Actor::GetState`), and the log of calls made so far. -/
structure Game where
  mActors : List Nat
  mPendingActors : List Nat
  mUpdatingActors : Bool
  actorState : Nat → ActorState
  log : List GameEvent

/-- The method `Game::AddActor`. -/
def Game.AddActor (g : Game) (actor : Nat) : Game :=
  if g.mUpdatingActors then
    { g with mPendingActors := g.mPendingActors ++ [actor] }
  else
    { g with mActors := g.mActors ++ [actor] }

/-- The call `std::iter_swap(i, j)` on a vector, by index. -/
def iterSwap (v : List Nat) (i j : Nat) : List Nat :=
  match v[i]?, v[j]? with
  | some x, some y => (v.set i y).set j x
  | _, _ => v

/-- The body shared by both halves of `Game::RemoveActor`:
`iter = std::find(v.begin(), v.end(), actor)`; when `iter != v.end()`,
`std::iter_swap(iter, v.end() - 1)` and `v.pop_back()`. -/
def findSwapPop (v : List Nat) (actor : Nat) : List Nat :=
  let iter := v.indexOf actor
  if iter < v.length then (iterSwap v iter (v.length - 1)).dropLast else v

/-- The method `Game::RemoveActor`: first the pending vector, then the live vector. -/
def Game.RemoveActor (g : Game) (actor : Nat) : Game :=
  { g with
    mPendingActors := findSwapPop g.mPendingActors actor
    mActors := findSwapPop g.mActors actor }

/-- One call on the game's actor bookkeeping. -/
inductive ActorCall where
  | add (actor : Nat)
  | remove (actor : Nat)
  deriving DecidableEq, Repr

/-- Perform one call. -/
def Game.call (g : Game) : ActorCall → Game
  | .add a => g.AddActor a
  | .remove a => g.RemoveActor a

/-- Perform a sequence of calls, first to last. -/
def Game.calls (g : Game) (cs : List ActorCall) : Game :=
  cs.foldl Game.call g

/-- One iteration of the splice loop of `UpdateGame`:
`pending->ComputeWorldTransform(); mActors.emplace_back(pending);`. -/
def spliceStep (g : Game) (pending : Nat) : Game :=
  { g with
    log := g.log ++ [.computeWorldTransform pending, .emplaceLive pending]
    mActors := g.mActors ++ [pending] }

/-- The statements of `UpdateGame` from `mUpdatingActors = false` to
`mPendingActors.clear()`. -/
def Game.splicePending (g : Game) : Game :=
  let g1 := { g with mUpdatingActors := false }
  let g2 := g1.mPendingActors.foldl spliceStep g1
  { g2 with mPendingActors := [] }

/-- What an actor's `Update` may do to the game during the tick pass. -/
inductive HookAction where
  /-- The call `Actor::SetState` on some actor. -/
  | setState (actor : Nat) (s : ActorState)
  /-- Construction of a new actor, whose constructor calls `Game::AddActor`. -/
  | addActor (actor : Nat)
  deriving DecidableEq, Repr

/-- Perform one action of an `Update` hook. -/
def Game.act (g : Game) : HookAction → Game
  | .setState a s => { g with actorState := Function.update g.actorState a s }
  | .addActor a => g.AddActor a

/-- Modelled from the spec: `Actor::Update`, whose body is not part of the sources,
is a per-actor hook; `hook actor g` lists what the call `actor->Update(deltaTime)`
does in game state `g`.  A hook that destroys an actor in the middle of the pass
would invalidate the iteration and is outside the model. -/
def Game.updateActor (hook : Nat → Game → List HookAction) (g : Game) (actor : Nat) : Game :=
  (hook actor g).foldl Game.act { g with log := g.log ++ [.update actor] }

/-- The tick pass of `UpdateGame`: `mUpdatingActors = true` and the loop over
`mActors` (which the pass itself never changes, as `AddActor` writes to the
pending vector). -/
def Game.tickPass (hook : Nat → Game → List HookAction) (g : Game) : Game :=
  let g1 := { g with mUpdatingActors := true }
  g1.mActors.foldl (Game.updateActor hook) g1

/-- Modelled from the spec: the destructor of `Actor`, which is not part of the
sources, deregisters the actor from the game by calling `Game::RemoveActor(this)`
(the comments in `UpdateGame` and `UnloadData` say the same).  This is the
statement `delete actor`. -/
def Game.destroy (g : Game) (actor : Nat) : Game :=
  Game.RemoveActor { g with log := g.log ++ [.destroy actor] } actor

/-- The temporary vector `deadActors` of `UpdateGame`. -/
def Game.deadActors (g : Game) : List Nat :=
  g.mActors.filter (fun a => decide (g.actorState a = .EDead))

/-- The reaping part of `UpdateGame`: collect the dead actors, then delete each. -/
def Game.reap (g : Game) : Game :=
  g.deadActors.foldl Game.destroy g

/-- The method `Game::UpdateGame`, from `mUpdatingActors = true` on.  The delta-time
computation before it, and the sphere and audio updates of the Chapter 7 variant,
do not touch the actor lists and are left out. -/
def Game.UpdateGame (hook : Nat → Game → List HookAction) (g : Game) : Game :=
  ((g.tickPass hook).splicePending).reap

/-- Modelled from the spec: `Actor::Update`, whose body is not part of the sources,
invokes the `UpdateActor` hook only when the actor is not Paused.  The hook is
`Enemy::UpdateActor`: an enemy that is near the end tile sets its own state to
`EDead`. -/
def enemyHook (nearEnd : Nat → Bool) (actor : Nat) (g : Game) : List HookAction :=
  if g.actorState actor = .EPaused then []
  else if nearEnd actor then [.setState actor .EDead] else []

/-- A hook in which actor 1 registers actor 5 twice during the pass. -/
def doubleAddHook (actor : Nat) (_g : Game) : List HookAction :=
  if actor = 1 then [.addActor 5, .addActor 5] else []

/-- A hook in which actor 1 registers the live actor 2 again and marks it dead. -/
def readdHook (actor : Nat) (_g : Game) : List HookAction :=
  if actor = 1 then [.addActor 2, .setState 2 .EDead] else []

/-- A hook in which actor 2 registers the new actors 7 and 8. -/
def spawnHook (actor : Nat) (_g : Game) : List HookAction :=
  if actor = 2 then [.addActor 7, .addActor 8] else []

/-- The sample game with actor 1 paused. -/
def pausedGame : Game :=
  ⟨[1, 2, 3], [], false, fun a => if a = 1 then .EPaused else .EActive, []⟩


/-- The game once the calls issued during a tick pass have been made and the
pending actors spliced in: the state of `UpdateGame` just before reaping. -/
def Game.afterPass (g : Game) (cs : List ActorCall) : Game :=
  (Game.calls { g with mUpdatingActors := true } cs).splicePending

/-- Whether actor `a` is expected in the live list after the calls `cs`, given
whether it was there before: an `add` of `a` puts it in, a `remove` of `a` takes
it out, the last such call decides. -/
def expectedLive : List ActorCall → Nat → Bool → Bool
  | [], _, b => b
  | .add x :: cs, a, b => expectedLive cs a (if x = a then true else b)
  | .remove x :: cs, a, b => expectedLive cs a (if x = a then false else b)

/-- Every `add` of the sequence is for an actor that is in neither list at the
time of the call (as for a call made by the constructor of a new actor). -/
def freshAdds (g : Game) : List ActorCall → Bool
  | [] => true
  | .add a :: cs =>
      !(g.mActors.contains a) && !(g.mPendingActors.contains a) && freshAdds (g.AddActor a) cs
  | .remove a :: cs => freshAdds (g.RemoveActor a) cs

/-- The live list after the pass holds exactly the expected actors, each once. -/
def PassContract (g : Game) (cs : List ActorCall) : Prop :=
  (g.afterPass cs).mActors.Nodup ∧
  ∀ a, a ∈ (g.afterPass cs).mActors ↔
    expectedLive cs a (decide (a ∈ g.mActors ∨ a ∈ g.mPendingActors)) = true

/-- The log entries of the pending splice for the pending vector `ps`. -/
def spliceEvents : List Nat → List GameEvent
  | [] => []
  | p :: ps => .computeWorldTransform p :: .emplaceLive p :: spliceEvents ps

/-- List `v2` is `v` with the first `a` removed by swap-with-last-and-pop. -/
def SwapPopped (v v2 : List Nat) (a : Nat) : Prop :=
  a ∉ v2 ∧ v2.length + 1 = v.length ∧ (∀ b, b ≠ a → v2.count b = v.count b) ∧
  ∀ k, k < v2.length → v2[k]? = if k = v.indexOf a then v.getLast? else v[k]?

/-- The removal contract as worded: an actor that is once in one list is
swap-popped from it and the other list stays as it is. -/
def RemoveActorContract (g : Game) (a : Nat) : Prop :=
  (g.mActors.count a = 1 →
    SwapPopped g.mActors (g.RemoveActor a).mActors a ∧
    (g.RemoveActor a).mPendingActors = g.mPendingActors) ∧
  (g.mPendingActors.count a = 1 →
    SwapPopped g.mPendingActors (g.RemoveActor a).mPendingActors a ∧
    (g.RemoveActor a).mActors = g.mActors)

/-- A game with no actors, outside the tick pass. -/
def emptyGame : Game := ⟨[], [], false, fun _ => .EActive, []⟩

/-- A game with three live, active actors, outside the tick pass. -/
def sampleGame : Game := ⟨[1, 2, 3], [], false, fun _ => .EActive, []⟩

/-- A game in which actor 1 is both live and pending. -/
def doubledGame : Game := ⟨[1], [1], false, fun _ => .EActive, []⟩

/-! ## Renderer: the sprite draw list -/

/-- The method `Renderer::AddSprite`: scan for the first sprite with a higher draw order and
insert before it (at the end when the scan reaches `end()`).  `drawOrder` is
`SpriteComponent::GetDrawOrder`. -/
def AddSprite (drawOrder : Nat → Int) (mSprites : List Nat) (sprite : Nat) : List Nat :=
  let myDrawOrder := drawOrder sprite
  let iter := mSprites.findIdx (fun s => decide (myDrawOrder < drawOrder s))
  mSprites.take iter ++ sprite :: mSprites.drop iter

/-- The method `Renderer::RemoveSprite`: `std::find` then `erase`.  When the sprite is not
found the source calls `erase(end())`, which is undefined: `none`. -/
def RemoveSprite (mSprites : List Nat) (sprite : Nat) : Option (List Nat) :=
  let iter := mSprites.indexOf sprite
  if iter < mSprites.length then some (mSprites.eraseIdx iter) else none

/-- The sprite list after registering the sprites of `seq`, first to last, into
an empty list. -/
def registerAll (drawOrder : Nat → Int) (seq : List Nat) : List Nat :=
  seq.foldl (AddSprite drawOrder) []

/-- The list is sorted ascending by draw order. -/
def DrawSorted (drawOrder : Nat → Int) (l : List Nat) : Prop :=
  l.Pairwise (fun a b => drawOrder a ≤ drawOrder b)

/-- Draw orders 5, 1, 3 for the sprites 0, 1, 2 (and 3 for every other sprite). -/
def sampleOrder (s : Nat) : Int :=
  if s = 0 then 5 else if s = 1 then 1 else 3

/-! ## Renderer: one frame -/

/-- The two OpenGL capabilities that `Renderer::Draw` toggles. -/
inductive GLCap where
  | depthTest
  | blend
  deriving DecidableEq, Repr

/-- The calls that `Renderer::Draw` issues.  A call made through `pCurrentShader`
carries the value of that pointer (`none` is `nullptr`). -/
inductive RenderCommand where
  | glClearColor
  | glClear
  | glEnable (cap : GLCap)
  | glDisable (cap : GLCap)
  /-- The call `sh->SetActive()` inside `SetCurrentShader`. -/
  | shaderSetActive (shader : Nat)
  /-- The call `pCurrentShader->SetMatrixUniform("uViewProj", mView * mProjection)`. -/
  | setViewProj (shader : Option Nat)
  /-- The call `SetLightUniforms(pCurrentShader)`. -/
  | setLightUniforms (shader : Option Nat)
  /-- The call `mc->Draw(pCurrentShader)` on a mesh component. -/
  | meshDraw (mesh : Nat) (shader : Option Nat)
  | glBlendEquationSeparate
  | glBlendFuncSeparate
  /-- The call `pSpriteVerts->SetActive()`. -/
  | spriteVertsSetActive
  /-- The call `sprite->Draw(pCurrentShader)` on a sprite component. -/
  | spriteDraw (sprite : Nat) (shader : Option Nat)
  /-- The call `SDL_GL_SwapWindow(pWindow)`. -/
  | swapWindow
  deriving DecidableEq, Repr

/-- The part of `Renderer` that `Draw` reads and writes.  Each `unordered_map` is
the list of its entries in iteration order; `none` is a null pointer. -/
structure Renderer where
  mShaders : List (String × Nat)
  mMeshComps : List (String × List Nat)
  mSprites : List Nat
  pCurrentShader : Option Nat
  commands : List RenderCommand
  pSpriteVerts : Option Nat

/-- Name of the mesh shader in `Renderer::Draw`. -/
def meshShaderName : String := "Mesh"

/-- Name of the sprite shader in `Renderer::Draw`. -/
def spriteShaderName : String := "Sprite"

/-- Record calls, in order. -/
def Renderer.issue (r : Renderer) (cs : List RenderCommand) : Renderer :=
  { r with commands := r.commands ++ cs }

/-- The method `Renderer::SetCurrentShader` (its `bool` result is ignored by `Draw`). -/
def Renderer.SetCurrentShader (r : Renderer) (fileName : String) : Renderer :=
  match r.mShaders.lookup fileName with
  | some sh => Renderer.issue { r with pCurrentShader := some sh } [.shaderSetActive sh]
  | none => r

/-- The body of the loop over `mMeshComps` in `Renderer::Draw`, for one entry. -/
def Renderer.drawPartition (r : Renderer) (mclist : String × List Nat) : Renderer :=
  mclist.2.foldl (fun r1 mc => r1.issue [.meshDraw mc r1.pCurrentShader])
    (r.SetCurrentShader mclist.1)

/-- The calls of `Renderer::Draw` in program order, without the two pointer
dereferences that can fail; `Renderer.Draw` returns this renderer when both
pointers are set. -/
def Renderer.drawCalls (r : Renderer) : Renderer :=
  let r1 := r.issue [.glClearColor, .glClear, .glEnable .depthTest, .glDisable .blend]
  let r2 := r1.SetCurrentShader meshShaderName
  let r3 := r2.issue [.setViewProj r2.pCurrentShader, .setLightUniforms r2.pCurrentShader]
  let r4 := r3.mMeshComps.foldl Renderer.drawPartition r3
  let r5 := r4.issue
    [.glDisable .depthTest, .glEnable .blend, .glBlendEquationSeparate, .glBlendFuncSeparate]
  let r6 := r5.SetCurrentShader spriteShaderName
  let r7 := r6.issue [.spriteVertsSetActive]
  let r8 := r7.mSprites.foldl (fun r9 s => r9.issue [.spriteDraw s r9.pCurrentShader]) r7
  r8.issue [.swapWindow]

/-- The method `Renderer::Draw`.  The result is `none` when a null pointer is
dereferenced: `pCurrentShader->SetMatrixUniform` right after
`SetCurrentShader("Mesh")`, or `pSpriteVerts->SetActive()`. -/
def Renderer.Draw (r : Renderer) : Option Renderer :=
  let r1 := r.issue [.glClearColor, .glClear, .glEnable .depthTest, .glDisable .blend]
  let r2 := r1.SetCurrentShader meshShaderName
  match r2.pCurrentShader with
  | none => none
  | some sh =>
    let r3 := r2.issue [.setViewProj (some sh), .setLightUniforms (some sh)]
    let r4 := r3.mMeshComps.foldl Renderer.drawPartition r3
    let r5 := r4.issue
      [.glDisable .depthTest, .glEnable .blend, .glBlendEquationSeparate, .glBlendFuncSeparate]
    let r6 := r5.SetCurrentShader spriteShaderName
    match r6.pSpriteVerts with
    | none => none
    | some _ =>
      let r7 := r6.issue [.spriteVertsSetActive]
      let r8 := r7.mSprites.foldl (fun r9 s => r9.issue [.spriteDraw s r9.pCurrentShader]) r7
      some (r8.issue [.swapWindow])

/-- Commands allowed in the mesh phase: shader activation, uniform uploads and
mesh draws. -/
def RenderCommand.inMeshPhase : RenderCommand → Bool
  | .shaderSetActive _ => true
  | .setViewProj _ => true
  | .setLightUniforms _ => true
  | .meshDraw _ _ => true
  | _ => false

/-- Commands allowed between the blend set-up and the first sprite draw. -/
def RenderCommand.inSpriteSetup : RenderCommand → Bool
  | .shaderSetActive _ => true
  | .spriteVertsSetActive => true
  | _ => false

/-- The mesh components drawn by a command sequence, in order. -/
def meshesDrawn : List RenderCommand → List Nat
  | [] => []
  | .meshDraw mc _ :: cs => mc :: meshesDrawn cs
  | _ :: cs => meshesDrawn cs

/-- Every mesh component of the mesh map, partition by partition. -/
def allMeshComps : List (String × List Nat) → List Nat
  | [] => []
  | p :: ps => p.2 ++ allMeshComps ps

/-- Whether the depth test is enabled after the commands, given whether it was
before. -/
def depthTestAfter (b : Bool) : List RenderCommand → Bool
  | [] => b
  | .glEnable .depthTest :: cs => depthTestAfter true cs
  | .glDisable .depthTest :: cs => depthTestAfter false cs
  | _ :: cs => depthTestAfter b cs

/-- The sprite components drawn by a command sequence, in order. -/
def spritesDrawn : List RenderCommand → List Nat
  | [] => []
  | .spriteDraw s _ :: cs => s :: spritesDrawn cs
  | _ :: cs => spritesDrawn cs

/-- The commands of one frame, by phase. -/
def framePhases (mesh setup : List RenderCommand) (sprites : List Nat) (sh : Option Nat) :
    List RenderCommand :=
  [.glClearColor, .glClear, .glEnable .depthTest, .glDisable .blend] ++ mesh ++
  [.glDisable .depthTest, .glEnable .blend, .glBlendEquationSeparate, .glBlendFuncSeparate] ++
  setup ++ sprites.map (fun s => RenderCommand.spriteDraw s sh) ++ [.swapWindow]

/-- A renderer with two mesh partitions and three sprites. -/
def sampleRenderer : Renderer :=
  ⟨[("Sprite", 10), ("Mesh", 11)], [("Mesh", [20, 21]), ("Glow", [22])], [1, 2, 0], none, [],
    some 1⟩

/-- A renderer as the constructor leaves it (no shader loaded, no current shader),
with one registered sprite. -/
def unloadedRenderer : Renderer := ⟨[], [], [1], none, [], some 1⟩

/-- The sample renderer with sprite 2 registered twice. -/
def doubledSpriteRenderer : Renderer :=
  ⟨[("Sprite", 10), ("Mesh", 11)], [("Mesh", [20, 21])], [1, 2, 2], none, [], some 1⟩

/-- What a step of `Draw` may change: it appends commands and may switch the
current shader. -/
def Renderer.Extends (r r2 : Renderer) (cs : List RenderCommand) : Prop :=
  r2.commands = r.commands ++ cs ∧ r2.mSprites = r.mSprites ∧
  r2.mMeshComps = r.mMeshComps ∧ r2.mShaders = r.mShaders

/-! ## AIComponent -/

/-- Calls that an `AIComponent` makes on its states, and its diagnostic. -/
inductive AIEvent where
  /-- The call `OnEnter()` on a state. -/
  | onEnter (state : Nat)
  /-- The call `OnExit()` on a state. -/
  | onExit (state : Nat)
  /-- The call `Update(deltaTime)` on a state. -/
  | stateUpdate (state : Nat)
  /-- The `SDL_Log` diagnostic for a name that is not in the state map. -/
  | logNotFound (name : String)
  deriving DecidableEq, Repr

/-- The class `AIComponent`: the state map (an `unordered_map`, as the list of its entries,
one per key), the current state (`none` is `nullptr`) and the calls made so far. -/
structure AIComponent where
  mStateMap : List (String × Nat)
  pCurrentState : Option Nat
  calls : List AIEvent

/-- The component as its constructor leaves it. -/
def AIComponent.new : AIComponent := ⟨[], none, []⟩

/-- The method `AIComponent::Update`. -/
def AIComponent.Update (c : AIComponent) : AIComponent :=
  match c.pCurrentState with
  | some s => { c with calls := c.calls ++ [.stateUpdate s] }
  | none => c

/-- The second half of `AIComponent::ChangeState`: find the new state in the map;
enter it, or log and set the current state to `nullptr`. -/
def AIComponent.enter (c : AIComponent) (name : String) : AIComponent :=
  match c.mStateMap.lookup name with
  | some s => { c with pCurrentState := some s, calls := c.calls ++ [.onEnter s] }
  | none => { c with pCurrentState := none, calls := c.calls ++ [.logNotFound name] }

/-- The method `AIComponent::ChangeState`.  `getName` is `AIState::GetName`. -/
def AIComponent.ChangeState (getName : Nat → String) (c : AIComponent) (name : String) :
    AIComponent :=
  match c.pCurrentState with
  | some cur =>
    if getName cur = name then c
    else AIComponent.enter { c with calls := c.calls ++ [.onExit cur] } name
  | none => c.enter name

/-- The method `AIComponent::RegisterState`: `mStateMap.emplace(state->GetName(), state)`, which
does nothing when the key is already in the map. -/
def AIComponent.RegisterState (getName : Nat → String) (c : AIComponent) (state : Nat) :
    AIComponent :=
  match c.mStateMap.lookup (getName state) with
  | some _ => c
  | none => { c with mStateMap := c.mStateMap ++ [(getName state, state)] }

/-- A call on the public interface of an `AIComponent`. -/
inductive AIOp where
  | update
  | changeState (name : String)
  | registerState (state : Nat)
  deriving DecidableEq, Repr

/-- Perform one call. -/
def AIComponent.step (getName : Nat → String) (c : AIComponent) : AIOp → AIComponent
  | .update => c.Update
  | .changeState name => c.ChangeState getName name
  | .registerState s => c.RegisterState getName s

/-- Perform a sequence of calls, first to last. -/
def AIComponent.run (getName : Nat → String) (c : AIComponent) (ops : List AIOp) :
    AIComponent :=
  ops.foldl (AIComponent.step getName) c

/-- The components that the constructor and the public interface can produce. -/
inductive AIComponent.Reachable (getName : Nat → String) : AIComponent → Prop where
  | new : Reachable getName AIComponent.new
  | step {c : AIComponent} (op : AIOp) :
      Reachable getName c → Reachable getName (c.step getName op)

/-- No `ChangeState` of the sequence names a state that is registered at the time
of the call. -/
def noValidChange (getName : Nat → String) (c : AIComponent) : List AIOp → Bool
  | [] => true
  | .changeState name :: ops =>
      (c.mStateMap.lookup name).isNone && noValidChange getName (c.ChangeState getName name) ops
  | .update :: ops => noValidChange getName c.Update ops
  | .registerState s :: ops => noValidChange getName (c.RegisterState getName s) ops

/-- The `OnExit` call that `ChangeState` makes before the lookup. -/
def exitEvents : Option Nat → List AIEvent
  | some cur => [.onExit cur]
  | none => []

/-- Names of the two states of an enemy: state 1 is "Patrol", every other state is
"Death". -/
def enemyStateName (s : Nat) : String :=
  if s = 1 then "Patrol" else "Death"

/-- The `AIComponent` of an enemy after its constructor: both states registered,
"Patrol" entered. -/
def enemyAI : AIComponent :=
  ((AIComponent.new.RegisterState enemyStateName 1).RegisterState enemyStateName 2).ChangeState
    enemyStateName (enemyStateName 1)

/-- Invariant of the state map and the current state. -/
def AIComponent.WellFormed (getName : Nat → String) (c : AIComponent) : Prop :=
  (∀ p ∈ c.mStateMap, getName p.2 = p.1) ∧
  ∀ cur, c.pCurrentState = some cur → c.mStateMap.lookup (getName cur) = some cur

/-! ## AIComponent: transitions and registration -/

/-- What the lookup half of `ChangeState` logs for `name`: the `OnEnter` of the
state found, or the diagnostic. -/
def lookupEvents (c : AIComponent) (name : String) : List AIEvent :=
  match c.mStateMap.lookup name with
  | some b => [.onEnter b]
  | none => [.logNotFound name]

/-- State names in which a second state, state 3, is also named "Patrol". -/
def enemyStateName3 (s : Nat) : String :=
  if s = 1 ∨ s = 3 then "Patrol" else "Death"

/-! ## Game: delta time -/

/-- The `Uint32` subtraction `SDL_GetTicks() - mTicksCount`: milliseconds elapsed
since the previous frame, modulo 2^32. -/
def elapsedTicks (ticks mTicksCount : Nat) : Nat :=
  (ticks % 2 ^ 32 + 2 ^ 32 - mTicksCount % 2 ^ 32) % 2 ^ 32

/-- The quotient `n / d` rounded to an integer, ties to the even integer. -/
def roundHalfEven (n d : Nat) : Nat :=
  let q := n / d
  let r := n % d
  if 2 * r < d then q
  else if d < 2 * r then q + 1
  else if q % 2 = 0 then q else q + 1

/-- A non-negative value of the type `float` (IEEE 754 binary32): the number
`mant * 2 ^ exp`, with `mant < 2 ^ 24` and `-149 ≤ exp ≤ 104` for a finite value;
`2 ^ 23 * 2 ^ 105` stands for infinity. -/
structure F32 where
  mant : Nat
  exp : Int
  deriving DecidableEq, Repr

/-- The number that a `float` value denotes. -/
def F32.toRat (x : F32) : ℚ := x.mant * 2 ^ x.exp

/-- The `float` nearest to the quotient `n / d`, ties to even (the rounding of
every `float` operation): the exponent is the least one, from -149 on, that
leaves a significand below `2 ^ 24`; above the largest exponent the result is
infinity. -/
def F32.round (n d : Nat) : F32 :=
  match (List.range 254).find?
      (fun k => decide (n * 2 ^ (149 - k) < 2 ^ 24 * (d * 2 ^ (k - 149)))) with
  | none => ⟨2 ^ 23, 105⟩
  | some k =>
    let m := roundHalfEven (n * 2 ^ (149 - k)) (d * 2 ^ (k - 149))
    if m = 2 ^ 24 then ⟨2 ^ 23, (k : Int) - 148⟩ else ⟨m, (k : Int) - 149⟩

/-- The conversion of a `Uint32` to `float`. -/
def F32.ofUInt32 (n : Nat) : F32 := F32.round n 1

/-- The `float` division `a / b`, for `b` other than zero: the exact quotient of
the two values, rounded once. -/
def F32.div (a b : F32) : F32 :=
  let m := min a.exp b.exp
  F32.round (a.mant * 2 ^ (a.exp - m).toNat) (b.mant * 2 ^ (b.exp - m).toNat)

/-- The `float` comparison `a > b`. -/
def F32.gt (a b : F32) : Bool :=
  let m := min a.exp b.exp
  decide (b.mant * 2 ^ (b.exp - m).toNat < a.mant * 2 ^ (a.exp - m).toNat)

/-- The literal `1000.0f`. -/
def float1000 : F32 := F32.round 1000 1

/-- The literal `0.05f`: the `float` nearest to 1/20. -/
def float005 : F32 := F32.round 1 20

/-- The delta-time computation of `UpdateGame`, after the frame-pacing wait:
`ticks` is what `SDL_GetTicks()` returns.  The `Uint32` difference is converted to
`float`, divided by `1000.0f` and clamped to `0.05f`; every operation is rounded
to `float` (round to nearest, ties to even), `float` expressions being evaluated
in `float` precision. -/
def computeDeltaTime (ticks mTicksCount : Nat) : F32 :=
  let deltaTime := (F32.ofUInt32 (elapsedTicks ticks mTicksCount)).div float1000
  if deltaTime.gt float005 then float005 else deltaTime

/-- The method `Game::UpdateGame` with its delta time: `update deltaTime actor g`
lists what the call `actor->Update(deltaTime)` does in the game `g`, and every
call of the tick pass receives the delta time computed at the start. -/
def Game.UpdateGameAt (update : F32 → Nat → Game → List HookAction)
    (ticks mTicksCount : Nat) (g : Game) : Game :=
  let deltaTime := computeDeltaTime ticks mTicksCount
  g.UpdateGame (update deltaTime)

/-- An `Update` in which every actor that receives a delta time other than `0.05f`
registers the actor whose number is the significand of that delta time. -/
def probeUpdate (deltaTime : F32) (_actor : Nat) (_g : Game) : List HookAction :=
  if deltaTime = float005 then [] else [.addActor deltaTime.mant]

/-! ## Renderer: resource caches -/

/-- The body shared by `Renderer::GetTexture` and `Renderer::GetMesh`, on the map
it works on: the handle returned (`none` is `nullptr`), the map afterwards, and
the file names passed to the loader.
Modelled from the spec: `Texture::Load` and `Mesh::Load` are not part of the
sources; `load fileName` is `some h` when the new object `h` loads the file and
`none` when loading fails. -/
def getOrLoad (load : String → Option Nat) (cache : List (String × Nat)) (fileName : String) :
    Option Nat × List (String × Nat) × List String :=
  match cache.lookup fileName with
  | some h => (some h, cache, [])
  | none =>
    match load fileName with
    | some h => (some h, cache ++ [(fileName, h)], [fileName])
    | none => (none, cache, [fileName])

/-- A call of a resource loader. -/
inductive LoadCall where
  | texture (fileName : String)
  | mesh (fileName : String)
  deriving DecidableEq, Repr

/-- The resource maps of `Renderer` and the log of loader calls. -/
structure ResourceCaches where
  mTextures : List (String × Nat)
  mMeshes : List (String × Nat)
  loads : List LoadCall

/-- The method `Renderer::GetTexture`. -/
def ResourceCaches.GetTexture (load : String → Option Nat) (c : ResourceCaches)
    (fileName : String) : Option Nat × ResourceCaches :=
  ((getOrLoad load c.mTextures fileName).1,
   { c with
     mTextures := (getOrLoad load c.mTextures fileName).2.1
     loads := c.loads ++ (getOrLoad load c.mTextures fileName).2.2.map LoadCall.texture })

/-- The method `Renderer::GetMesh`. -/
def ResourceCaches.GetMesh (load : String → Option Nat) (c : ResourceCaches)
    (fileName : String) : Option Nat × ResourceCaches :=
  ((getOrLoad load c.mMeshes fileName).1,
   { c with
     mMeshes := (getOrLoad load c.mMeshes fileName).2.1
     loads := c.loads ++ (getOrLoad load c.mMeshes fileName).2.2.map LoadCall.mesh })

/-- A loader that finds every file except "Missing.png", with handle 7. -/
def sampleLoad (fileName : String) : Option Nat :=
  if fileName = "Missing.png" then none else some 7

/-- Caches holding one texture. -/
def sampleCaches : ResourceCaches := ⟨[("Assets/Radar.png", 3)], [], []⟩

/-! ## Renderer: mesh components -/

/-- The statement `iter->second.emplace_back(mesh)` for the entry found under
`name`: the mesh goes to the end of that entry, the other entries stay. -/
def appendToPartition (name : String) (mesh : Nat) :
    List (String × List Nat) → List (String × List Nat)
  | [] => []
  | p :: ps =>
    if p.1 = name then (p.1, p.2 ++ [mesh]) :: ps else p :: appendToPartition name mesh ps

/-- The method `Renderer::AddMeshComp`.  `shaderName` is
`MeshComponent::GetShaderName`.  A new entry is put last; where an
`unordered_map` puts it in its iteration order is unspecified. -/
def Renderer.AddMeshComp (shaderName : Nat → String) (r : Renderer) (mesh : Nat) : Renderer :=
  match r.mMeshComps.lookup (shaderName mesh) with
  | some _ => { r with mMeshComps := appendToPartition (shaderName mesh) mesh r.mMeshComps }
  | none => { r with mMeshComps := r.mMeshComps ++ [(shaderName mesh, [mesh])] }

/-- How a removal from a renderer list can go wrong. -/
inductive RemoveError where
  /-- The exception `std::out_of_range` thrown by `unordered_map::at`. -/
  | outOfRange
  /-- The call `erase(end())`, which is undefined. -/
  | eraseEnd
  deriving DecidableEq, Repr

/-- The method `Renderer::RemoveMeshComp`.  The source copies the vector found by
`at` into the local `mcvec` and erases from that copy, which is dropped when the
function returns; the renderer is not written. -/
def Renderer.RemoveMeshComp (shaderName : Nat → String) (r : Renderer) (mesh : Nat) :
    Except RemoveError Renderer :=
  match r.mMeshComps.lookup (shaderName mesh) with
  | none => .error .outOfRange
  | some mcvec =>
    let iter := mcvec.indexOf mesh
    if iter < mcvec.length then
      let _mcvec := mcvec.eraseIdx iter
      .ok r
    else .error .eraseEnd

/-- The shader that is current after `SetCurrentShader(name)`. -/
def shaderAfter (shaders : List (String × Nat)) (cur : Option Nat) (name : String) :
    Option Nat :=
  match shaders.lookup name with
  | some sh => some sh
  | none => cur

/-- The shader activation that `SetCurrentShader(name)` logs. -/
def activation (shaders : List (String × Nat)) (name : String) : List RenderCommand :=
  match shaders.lookup name with
  | some sh => [.shaderSetActive sh]
  | none => []

/-- The commands of the loop over the mesh map, entry by entry. -/
def partitionsCommands (shaders : List (String × Nat)) (cur : Option Nat) :
    List (String × List Nat) → List RenderCommand
  | [] => []
  | p :: ps =>
    activation shaders p.1 ++
    p.2.map (fun mc => RenderCommand.meshDraw mc (shaderAfter shaders cur p.1)) ++
    partitionsCommands shaders (shaderAfter shaders cur p.1) ps

/-- The shader that is current after the loop over the mesh map. -/
def shaderAfterPartitions (shaders : List (String × Nat)) (cur : Option Nat) :
    List (String × List Nat) → Option Nat
  | [] => cur
  | p :: ps => shaderAfterPartitions shaders (shaderAfter shaders cur p.1) ps

/-- The commands of an entry whose shader is loaded: the activation of that shader,
then one draw per component with that shader. -/
def partitionWithOwnShader (shaders : List (String × Nat)) (p : String × List Nat) :
    List RenderCommand :=
  match shaders.lookup p.1 with
  | some sh => .shaderSetActive sh :: p.2.map (fun mc => RenderCommand.meshDraw mc (some sh))
  | none => []

/-- The commands of a mesh map all of whose shaders are loaded. -/
def partitionsWithOwnShader (shaders : List (String × Nat)) :
    List (String × List Nat) → List RenderCommand
  | [] => []
  | p :: ps => partitionWithOwnShader shaders p ++ partitionsWithOwnShader shaders ps

/-- The mesh draws of a command sequence, with the shader each receives. -/
def meshCalls : List RenderCommand → List (Nat × Option Nat)
  | [] => []
  | .meshDraw mc sh :: cs => (mc, sh) :: meshCalls cs
  | _ :: cs => meshCalls cs

/-- Shader names of the sample mesh components: 22 uses "Glow", the others "Mesh". -/
def sampleShaderName (mesh : Nat) : String :=
  if mesh = 22 then "Glow" else "Mesh"

/-- The sample renderer without the partition whose shader is not loaded. -/
def loadedRenderer : Renderer :=
  ⟨[("Sprite", 10), ("Mesh", 11)], [("Mesh", [20, 21])], [1, 2, 0], none, [], some 1⟩

/-- A renderer whose only shader and only partition are "Glow", with no current
shader. -/
def glowOnlyRenderer : Renderer := ⟨[("Glow", 12)], [("Glow", [22])], [], none, [], some 1⟩

/-! ## MoveComponent and NavComponent (2D) -/

/-- The class `Vector2`, over a number type `F` standing for `float`. -/
structure Vector2 (F : Type) where
  x : F
  y : F
  deriving DecidableEq, Repr

/-- The operator `Vector2 + Vector2`. -/
def Vector2.add {F : Type} [Add F] (a b : Vector2 F) : Vector2 F := ⟨a.x + b.x, a.y + b.y⟩

/-- The operator `Vector2 - Vector2`. -/
def Vector2.sub {F : Type} [Sub F] (a b : Vector2 F) : Vector2 F := ⟨a.x - b.x, a.y - b.y⟩

/-- The operator `Vector2 * float`. -/
def Vector2.scale {F : Type} [Mul F] (a : Vector2 F) (s : F) : Vector2 F := ⟨a.x * s, a.y * s⟩

/-- The pose of the owning actor that the components read and write. -/
structure Actor2D (F : Type) where
  mPosition : Vector2 F
  mRotation : F
  deriving DecidableEq, Repr

/-- The class `MoveComponent` with its owner. -/
structure MoveComponent (F : Type) where
  owner : Actor2D F
  mAngularSpeed : F
  mForwardSpeed : F
  deriving DecidableEq, Repr

/-- The class `NavComponent`: a `MoveComponent` with the next waypoint (`none` is
`nullptr`). -/
structure NavComponent (F : Type) extends MoveComponent F where
  pNextNode : Option Nat
  deriving DecidableEq, Repr

/-- The method `MoveComponent::Update` of Chapter 4.  `nearZero` is `Math::NearZero`
with its default epsilon and `getForward` is `Actor::GetForward`, both outside the
sources. -/
def MoveComponent.Update {F : Type} [Add F] [Mul F] (nearZero : F → Bool)
    (getForward : Actor2D F → Vector2 F) (m : MoveComponent F) (deltaTime : F) :
    MoveComponent F :=
  let owner1 : Actor2D F :=
    if nearZero m.mAngularSpeed then m.owner
    else { m.owner with mRotation := m.owner.mRotation + m.mAngularSpeed * deltaTime }
  let owner2 : Actor2D F :=
    if nearZero m.mForwardSpeed then owner1
    else { owner1 with
      mPosition := owner1.mPosition.add
        (((getForward owner1).scale m.mForwardSpeed).scale deltaTime) }
  { m with owner := owner2 }

/-- The method `NavComponent::TurnTo`.  `atan2` is `Math::Atan2`. -/
def NavComponent.TurnTo {F : Type} [Sub F] [Neg F] (atan2 : F → F → F) (n : NavComponent F)
    (pos : Vector2 F) : NavComponent F :=
  let dir := pos.sub n.owner.mPosition
  let angle := atan2 (-dir.y) dir.x
  { n with owner := { n.owner with mRotation := angle } }

/-- The method `NavComponent::StartPath`.  `getParent` and `getPosition` are
`Tile::GetParent` and `Tile::GetPosition`.  When the start tile has no parent the
source calls `GetPosition` through a null pointer: `none`. -/
def NavComponent.StartPath {F : Type} [Sub F] [Neg F] (atan2 : F → F → F)
    (getParent : Nat → Option Nat) (getPosition : Nat → Vector2 F) (n : NavComponent F)
    (start : Nat) : Option (NavComponent F) :=
  match getParent start with
  | some next =>
    some (NavComponent.TurnTo atan2 { n with pNextNode := some next } (getPosition next))
  | none => none

/-- A stand-in for `atan2` on integers, for evaluation only. -/
def sampleAtan2 (y x : Int) : Int := 100 * y + x

/-- A path of tiles: the parent of tile `k + 1` is tile `k`, tile 0 has none. -/
def sampleParent : Nat → Option Nat
  | 0 => none
  | k + 1 => some k

/-- Tile `k` stands at `(10 k, 3)`. -/
def samplePosition (k : Nat) : Vector2 Int := ⟨10 * k, 3⟩

/-- A component at `(1, 1)` with rotation 0, angular speed 2, forward speed 3. -/
def sampleNav : NavComponent Int := ⟨⟨⟨⟨1, 1⟩, 0⟩, 2, 3⟩, none⟩

/-- A forward vector that depends on the rotation, for evaluation only. -/
def sampleForward (a : Actor2D Int) : Vector2 Int := ⟨a.mRotation, 1⟩

/-! ## NavComponent: following the path -/

/-- The call `MoveComponent::Update(deltaTime)` at the end of
`NavComponent::Update`. -/
def NavComponent.baseUpdate {F : Type} [Add F] [Mul F] (nearZero : F → Bool)
    (getForward : Actor2D F → Vector2 F) (n : NavComponent F) (deltaTime : F) :
    NavComponent F :=
  { n with toMoveComponent := n.toMoveComponent.Update nearZero getForward deltaTime }

/-- The test `Math::NearZero(diff.Length(), 2.0f)` of `NavComponent::Update` for the
node `node`: `length` is `Vector2::Length` and `nearTwo v` is
`Math::NearZero(v, 2.0f)`, both outside the sources. -/
def NavComponent.atNode {F : Type} [Sub F] (length : Vector2 F → F) (nearTwo : F → Bool)
    (getPosition : Nat → Vector2 F) (n : NavComponent F) (node : Nat) : Bool :=
  nearTwo (length (n.owner.mPosition.sub (getPosition node)))

/-- The method `NavComponent::Update`.  When the next node is reached and has no
parent, the source calls `GetPosition` through the null pointer it has just
stored in `pNextNode`: `none`. -/
def NavComponent.Update {F : Type} [Add F] [Mul F] [Sub F] [Neg F] (atan2 : F → F → F)
    (length : Vector2 F → F) (nearTwo : F → Bool) (getParent : Nat → Option Nat)
    (getPosition : Nat → Vector2 F) (nearZero : F → Bool)
    (getForward : Actor2D F → Vector2 F) (n : NavComponent F) (deltaTime : F) :
    Option (NavComponent F) :=
  match n.pNextNode with
  | none => some (n.baseUpdate nearZero getForward deltaTime)
  | some node =>
    if n.atNode length nearTwo getPosition node then
      match getParent node with
      | some parent =>
        some ((NavComponent.TurnTo atan2 { n with pNextNode := some parent }
          (getPosition parent)).baseUpdate nearZero getForward deltaTime)
      | none => none
    else some (n.baseUpdate nearZero getForward deltaTime)

/-- A stand-in for `Vector2::Length` on integers, for evaluation only. -/
def sampleLength (v : Vector2 Int) : Int := v.x.natAbs + v.y.natAbs

/-- The test `Math::NearZero(v, 2.0f)` on integers. -/
def sampleNearTwo (v : Int) : Bool := decide (v.natAbs ≤ 2)

/-- A component at `(1, 3)` heading for tile 0, which stands at `(0, 3)` and has no
parent. -/
def navAtEnd : NavComponent Int := ⟨⟨⟨⟨1, 3⟩, 0⟩, 0, 3⟩, some 0⟩

/-- A component at `(11, 2)` heading for tile 1, which stands at `(10, 3)` and has
the parent tile 0. -/
def navAtOne : NavComponent Int := ⟨⟨⟨⟨11, 2⟩, 0⟩, 0, 3⟩, some 1⟩

/-! ## Game (Chapter 7): the bouncing sphere -/

/-- The class `Vector3`, over a number type `F` standing for `float`. -/
structure Vector3 (F : Type) where
  x : F
  y : F
  z : F
  deriving DecidableEq, Repr

/-- The members `mDirection` and the position of `pSphereActor` of the Chapter 7
`Game`. -/
structure SphereState (F : Type) where
  mDirection : Bool
  pos : Vector3 F
  deriving DecidableEq, Repr

/-- The sphere update at the head of the tick pass of the Chapter 7 `UpdateGame`:
read the position, move down or up by 5 or flip the direction, write the
position back. -/
def sphereStep {F : Type} [LinearOrderedRing F] (s : SphereState F) : SphereState F :=
  if s.mDirection && decide (s.pos.y ≥ -1000) then
    { s with pos := { s.pos with y := s.pos.y - 5 } }
  else if !s.mDirection && decide (s.pos.y ≤ 1000) then
    { s with pos := { s.pos with y := s.pos.y + 5 } }
  else
    { s with mDirection := !s.mDirection }

/-- The sphere after `n` frames. -/
def sphereRun {F : Type} [LinearOrderedRing F] (n : Nat) (s : SphereState F) : SphereState F :=
  Nat.iterate sphereStep n s

/-- The sphere as `LoadData` places it, moving down. -/
def sampleSphere : SphereState Int := ⟨true, ⟨500, -75, 0⟩⟩

/-- A sphere at the lower turning point, moving down. -/
def edgeSphere : SphereState Int := ⟨true, ⟨500, -1000, 0⟩⟩

/-! ## Lemmas on swap-and-pop removal -/

theorem findSwapPop_of_not_mem {v : List Nat} {a : Nat} (h : a ∉ v) : findSwapPop v a = v := by
  have : ¬ v.indexOf a < v.length := by
    rw [List.indexOf_lt_length]; exact h
  simp [findSwapPop, this]

theorem findSwapPop_last (xs : List Nat) (a : Nat) (h : a ∉ xs) :
    findSwapPop (xs ++ [a]) a = xs := by
  have hi : (xs ++ [a]).indexOf a = xs.length := by
    rw [List.indexOf_append_of_not_mem h]; simp
  simp [findSwapPop, hi, iterSwap]

theorem findSwapPop_mid (xs zs : List Nat) (a z : Nat) (h : a ∉ xs) :
    findSwapPop (xs ++ a :: (zs ++ [z])) a = xs ++ z :: zs := by
  have hi : (xs ++ a :: (zs ++ [z])).indexOf a = xs.length := by
    rw [List.indexOf_append_of_not_mem h]; simp
  have hlen : (xs ++ a :: (zs ++ [z])).length - 1 = xs.length + (zs.length + 1) := by
    simp
  have h1 : (xs ++ a :: (zs ++ [z]))[xs.length]? = some a := by
    rw [List.getElem?_append_right (Nat.le_refl _)]
    simp
  have h2 : (xs ++ a :: (zs ++ [z]))[xs.length + (zs.length + 1)]? = some z := by
    rw [List.getElem?_append_right (by omega)]
    simp
  unfold findSwapPop
  simp only [hi, hlen, iterSwap, h1, h2]
  simp
  exact @List.dropLast_concat Nat (z :: zs) a

/-- Every list holding `a` splits at the first `a`; what follows is empty or ends in
some `z`. -/
theorem split_at_first {v : List Nat} {a : Nat} (h : a ∈ v) :
    (∃ xs, a ∉ xs ∧ v = xs ++ [a]) ∨
    (∃ xs zs z, a ∉ xs ∧ v = xs ++ a :: (zs ++ [z])) := by
  obtain ⟨xs, ys, rfl, hx⟩ := List.eq_append_cons_of_mem h
  rcases List.eq_nil_or_concat ys with rfl | ⟨zs, z, rfl⟩
  · exact Or.inl ⟨xs, hx, rfl⟩
  · exact Or.inr ⟨xs, zs, z, hx, by simp⟩

theorem findSwapPop_perm_erase (v : List Nat) (a : Nat) :
    (findSwapPop v a).Perm (v.erase a) := by
  by_cases h : a ∈ v
  · rcases split_at_first h with ⟨xs, hx, rfl⟩ | ⟨xs, zs, z, hx, rfl⟩
    · rw [findSwapPop_last xs a hx, List.erase_append_right _ hx]
      simp
    · rw [findSwapPop_mid xs zs a z hx, List.erase_append_right _ hx]
      simp only [List.erase_cons_head]
      exact List.Perm.append_left xs (List.perm_append_singleton z zs).symm
  · rw [findSwapPop_of_not_mem h, List.erase_of_not_mem h]

theorem findSwapPop_nodup {v : List Nat} (a : Nat) (h : v.Nodup) : (findSwapPop v a).Nodup :=
  (findSwapPop_perm_erase v a).nodup_iff.mpr (h.erase a)

theorem mem_findSwapPop {v : List Nat} (h : v.Nodup) (a b : Nat) :
    b ∈ findSwapPop v a ↔ b ≠ a ∧ b ∈ v := by
  rw [(findSwapPop_perm_erase v a).mem_iff, h.mem_erase_iff]

theorem count_findSwapPop_of_ne (v : List Nat) {a b : Nat} (h : b ≠ a) :
    (findSwapPop v a).count b = v.count b := by
  rw [(findSwapPop_perm_erase v a).count_eq, List.count_erase_of_ne h]

theorem count_findSwapPop_self (v : List Nat) (a : Nat) :
    (findSwapPop v a).count a = v.count a - 1 := by
  rw [(findSwapPop_perm_erase v a).count_eq, List.count_erase_self]

theorem length_findSwapPop {v : List Nat} {a : Nat} (h : a ∈ v) :
    (findSwapPop v a).length + 1 = v.length := by
  rw [(findSwapPop_perm_erase v a).length_eq, List.length_erase_of_mem h]
  have := List.length_pos_of_mem h
  omega

/-- Positions after a swap-and-pop: the slot of the first `a` holds the former last
element, every other remaining slot is as before. -/
theorem getElem?_findSwapPop {v : List Nat} {a : Nat} (h : a ∈ v) (k : Nat)
    (hk : k < (findSwapPop v a).length) :
    (findSwapPop v a)[k]? = if k = v.indexOf a then v.getLast? else v[k]? := by
  rcases split_at_first h with ⟨xs, hx, rfl⟩ | ⟨xs, zs, z, hx, rfl⟩
  · rw [findSwapPop_last xs a hx] at hk ⊢
    have hi : (xs ++ [a]).indexOf a = xs.length := by
      rw [List.indexOf_append_of_not_mem hx]; simp
    rw [hi, if_neg (by omega), List.getElem?_append_left hk]
  · rw [findSwapPop_mid xs zs a z hx] at hk ⊢
    have hi : (xs ++ a :: (zs ++ [z])).indexOf a = xs.length := by
      rw [List.indexOf_append_of_not_mem hx]; simp
    rw [hi]
    have hl : (xs ++ a :: (zs ++ [z])).getLast? = some z := by
      have : xs ++ a :: (zs ++ [z]) = (xs ++ a :: zs) ++ [z] := by simp
      rw [this, List.getLast?_append]; simp
    simp only [List.length_append, List.length_cons] at hk
    by_cases h1 : k = xs.length
    · subst h1
      rw [if_pos rfl, hl, List.getElem?_append_right (Nat.le_refl _)]
      simp
    · rw [if_neg h1]
      by_cases h2 : k < xs.length
      · rw [List.getElem?_append_left h2, List.getElem?_append_left h2]
      · have h3 : xs.length ≤ k := by omega
        rw [List.getElem?_append_right h3, List.getElem?_append_right h3]
        obtain ⟨j, hj⟩ : ∃ j, k - xs.length = j + 1 := ⟨k - xs.length - 1, by omega⟩
        rw [hj]
        simp only [List.getElem?_cons_succ]
        rw [List.getElem?_append_left (by omega)]

/-! ## Lemmas on the phases of `UpdateGame` -/

theorem foldl_spliceStep (ps : List Nat) (g : Game) :
    (ps.foldl spliceStep g).mActors = g.mActors ++ ps ∧
    (ps.foldl spliceStep g).log = g.log ++ spliceEvents ps ∧
    (ps.foldl spliceStep g).mPendingActors = g.mPendingActors ∧
    (ps.foldl spliceStep g).actorState = g.actorState ∧
    (ps.foldl spliceStep g).mUpdatingActors = g.mUpdatingActors := by
  induction ps generalizing g with
  | nil => simp [spliceEvents]
  | cons p ps ih =>
    obtain ⟨h1, h2, h3, h4, h5⟩ := ih (spliceStep g p)
    simp only [List.foldl_cons]
    refine ⟨?_, ?_, ?_, ?_, ?_⟩
    · rw [h1]; simp [spliceStep]
    · rw [h2]; simp [spliceStep, spliceEvents]
    · rw [h3]; rfl
    · rw [h4]; rfl
    · rw [h5]; rfl

theorem splicePending_mActors (g : Game) :
    g.splicePending.mActors = g.mActors ++ g.mPendingActors := by
  simp [Game.splicePending, foldl_spliceStep]

theorem splicePending_log (g : Game) :
    g.splicePending.log = g.log ++ spliceEvents g.mPendingActors := by
  simp [Game.splicePending, foldl_spliceStep]

theorem splicePending_pending (g : Game) : g.splicePending.mPendingActors = [] := rfl

theorem splicePending_actorState (g : Game) : g.splicePending.actorState = g.actorState := by
  simp [Game.splicePending, foldl_spliceStep]

theorem splicePending_flag (g : Game) : g.splicePending.mUpdatingActors = false := by
  simp [Game.splicePending, foldl_spliceStep]

theorem foldl_act (acts : List HookAction) (g : Game) (hg : g.mUpdatingActors = true) :
    (acts.foldl Game.act g).mActors = g.mActors ∧
    (acts.foldl Game.act g).log = g.log ∧
    (acts.foldl Game.act g).mUpdatingActors = true := by
  induction acts generalizing g with
  | nil => simp [hg]
  | cons c acts ih =>
    have hstep : (g.act c).mActors = g.mActors ∧ (g.act c).log = g.log ∧
        (g.act c).mUpdatingActors = true := by
      cases c <;> simp [Game.act, Game.AddActor, hg]
    obtain ⟨h1, h2, h3⟩ := ih (g.act c) hstep.2.2
    simp only [List.foldl_cons]
    exact ⟨h1.trans hstep.1, h2.trans hstep.2.1, h3⟩

theorem foldl_updateActor (hook : Nat → Game → List HookAction) (as : List Nat) (g : Game)
    (hg : g.mUpdatingActors = true) :
    (as.foldl (Game.updateActor hook) g).mActors = g.mActors ∧
    (as.foldl (Game.updateActor hook) g).log = g.log ++ as.map GameEvent.update ∧
    (as.foldl (Game.updateActor hook) g).mUpdatingActors = true := by
  induction as generalizing g with
  | nil => simp [hg]
  | cons a as ih =>
    obtain ⟨s1, s2, s3⟩ := foldl_act (hook a g) { g with log := g.log ++ [.update a] } hg
    obtain ⟨h1, h2, h3⟩ := ih (Game.updateActor hook g a) s3
    simp only [List.foldl_cons]
    refine ⟨?_, ?_, h3⟩
    · rw [h1]; exact s1
    · rw [h2, Game.updateActor, s2]; simp

theorem tickPass_mActors (hook : Nat → Game → List HookAction) (g : Game) :
    (g.tickPass hook).mActors = g.mActors :=
  (foldl_updateActor hook g.mActors { g with mUpdatingActors := true } rfl).1

theorem tickPass_log (hook : Nat → Game → List HookAction) (g : Game) :
    (g.tickPass hook).log = g.log ++ g.mActors.map GameEvent.update :=
  (foldl_updateActor hook g.mActors { g with mUpdatingActors := true } rfl).2.1

theorem foldl_destroy (ds : List Nat) (g : Game) :
    (ds.foldl Game.destroy g).log = g.log ++ ds.map GameEvent.destroy ∧
    (ds.foldl Game.destroy g).actorState = g.actorState ∧
    (g.mPendingActors = [] → (ds.foldl Game.destroy g).mPendingActors = []) := by
  induction ds generalizing g with
  | nil => simp
  | cons d ds ih =>
    obtain ⟨h3, h4, h5⟩ := ih (g.destroy d)
    simp only [List.foldl_cons]
    refine ⟨?_, ?_, ?_⟩
    · rw [h3]; simp [Game.destroy, Game.RemoveActor]
    · rw [h4]; rfl
    · intro hp
      apply h5
      show findSwapPop g.mPendingActors d = []
      rw [hp]; rfl

theorem foldl_destroy_mem (ds : List Nat) (g : Game) (hnd : g.mActors.Nodup) :
    (ds.foldl Game.destroy g).mActors.Nodup ∧
    ∀ b, b ∈ (ds.foldl Game.destroy g).mActors ↔ b ∈ g.mActors ∧ b ∉ ds := by
  induction ds generalizing g with
  | nil => simp [hnd]
  | cons d ds ih =>
    have hnd1 : (g.destroy d).mActors.Nodup := findSwapPop_nodup d hnd
    obtain ⟨h1, h2⟩ := ih (g.destroy d) hnd1
    simp only [List.foldl_cons]
    refine ⟨h1, fun b => ?_⟩
    rw [h2 b]
    have : b ∈ (g.destroy d).mActors ↔ b ≠ d ∧ b ∈ g.mActors := mem_findSwapPop hnd d b
    rw [this]
    simp only [List.mem_cons, not_or]
    tauto

theorem destroy_not_mem_spliceEvents (a : Nat) (ps : List Nat) :
    GameEvent.destroy a ∉ spliceEvents ps := by
  induction ps with
  | nil => simp [spliceEvents]
  | cons p ps ih => simp [spliceEvents, ih]

theorem update_not_mem_spliceEvents (a : Nat) (ps : List Nat) :
    GameEvent.update a ∉ spliceEvents ps := by
  induction ps with
  | nil => simp [spliceEvents]
  | cons p ps ih => simp [spliceEvents, ih]

theorem count_spliceEvents (p : Nat) (ps : List Nat) :
    (spliceEvents ps).count (GameEvent.computeWorldTransform p) = ps.count p := by
  induction ps with
  | nil => simp [spliceEvents]
  | cons q ps ih =>
    by_cases h : q = p
    · subst h; simp [spliceEvents, ih]
    · simp [spliceEvents, ih, List.count_cons, h]

theorem UpdateGame_log (hook : Nat → Game → List HookAction) (g : Game) :
    (g.UpdateGame hook).log =
      g.log ++ g.mActors.map GameEvent.update ++ spliceEvents (g.tickPass hook).mPendingActors ++
        ((g.tickPass hook).splicePending.deadActors).map GameEvent.destroy := by
  unfold Game.UpdateGame Game.reap
  rw [(foldl_destroy _ _).1, splicePending_log, tickPass_log]

theorem updateActor_enemy (nearEnd : Nat → Bool) (g : Game) (x : Nat) :
    (Game.updateActor (enemyHook nearEnd) g x).mPendingActors = g.mPendingActors ∧
    ∀ a, (Game.updateActor (enemyHook nearEnd) g x).actorState a =
      if a = x ∧ nearEnd a = true ∧ g.actorState a ≠ .EPaused then ActorState.EDead
      else g.actorState a := by
  unfold Game.updateActor enemyHook
  by_cases hp : g.actorState x = .EPaused
  · refine ⟨by simp [hp], fun a => ?_⟩
    by_cases hax : a = x
    · subst hax; simp [hp]
    · simp [hp, hax]
  · by_cases hx : nearEnd x = true
    · refine ⟨by simp [hp, hx, Game.act], fun a => ?_⟩
      by_cases hax : a = x
      · subst hax; simp [hp, hx, Game.act]
      · simp [hp, hx, Game.act, Function.update, hax]
    · refine ⟨by simp [hp, hx], fun a => ?_⟩
      by_cases hax : a = x
      · subst hax; simp [hp, hx]
      · simp [hp, hx, hax]

theorem foldl_enemy (nearEnd : Nat → Bool) (as : List Nat) (g : Game) :
    (as.foldl (Game.updateActor (enemyHook nearEnd)) g).mPendingActors = g.mPendingActors ∧
    ∀ a, (as.foldl (Game.updateActor (enemyHook nearEnd)) g).actorState a =
      if a ∈ as ∧ nearEnd a = true ∧ g.actorState a ≠ .EPaused then ActorState.EDead
      else g.actorState a := by
  induction as generalizing g with
  | nil => simp
  | cons x as ih =>
    obtain ⟨h1, h2⟩ := ih (Game.updateActor (enemyHook nearEnd) g x)
    obtain ⟨hp, hs⟩ := updateActor_enemy nearEnd g x
    simp only [List.foldl_cons]
    refine ⟨h1.trans hp, fun a => ?_⟩
    rw [h2 a, hs a]
    by_cases hc : a = x ∧ nearEnd a = true ∧ g.actorState a ≠ .EPaused
    · have hmem : a ∈ x :: as := by rw [hc.1]; exact List.mem_cons_self _ _
      have hr : (if a ∈ x :: as ∧ nearEnd a = true ∧ g.actorState a ≠ .EPaused
          then ActorState.EDead else g.actorState a) = ActorState.EDead :=
        if_pos ⟨hmem, hc.2.1, hc.2.2⟩
      rw [hr, if_pos hc]
      split_ifs <;> rfl
    · rw [if_neg hc]
      by_cases hm : a ∈ as ∧ nearEnd a = true ∧ g.actorState a ≠ .EPaused
      · have hr : (if a ∈ x :: as ∧ nearEnd a = true ∧ g.actorState a ≠ .EPaused
            then ActorState.EDead else g.actorState a) = ActorState.EDead :=
          if_pos ⟨List.mem_cons_of_mem _ hm.1, hm.2.1, hm.2.2⟩
        rw [hr, if_pos hm]
      · have hr : (if a ∈ x :: as ∧ nearEnd a = true ∧ g.actorState a ≠ .EPaused
            then ActorState.EDead else g.actorState a) = g.actorState a := by
          apply if_neg
          rintro ⟨hin, hn, hq⟩
          rcases List.mem_cons.mp hin with hax | hin2
          · exact hc ⟨hax, hn, hq⟩
          · exact hm ⟨hin2, hn, hq⟩
        rw [hr, if_neg hm]

theorem foldl_act_pending (acts : List HookAction) (g : Game)
    (hg : g.mUpdatingActors = true) :
    ∃ added, (acts.foldl Game.act g).mPendingActors = g.mPendingActors ++ added := by
  induction acts generalizing g with
  | nil => exact ⟨[], by simp⟩
  | cons c acts ih =>
    have hstep : (∃ one, (g.act c).mPendingActors = g.mPendingActors ++ one) ∧
        (g.act c).mUpdatingActors = true := by
      cases c with
      | setState a st => exact ⟨⟨[], by simp [Game.act]⟩, hg⟩
      | addActor a => exact ⟨⟨[a], by simp [Game.act, Game.AddActor, hg]⟩,
          by simp [Game.act, Game.AddActor, hg]⟩
    obtain ⟨⟨one, h1⟩, h2⟩ := hstep
    obtain ⟨rest, h3⟩ := ih (g.act c) h2
    exact ⟨one ++ rest, by simp only [List.foldl_cons]; rw [h3, h1, List.append_assoc]⟩

theorem foldl_updateActor_pending (hook : Nat → Game → List HookAction) (as : List Nat)
    (g : Game) (hg : g.mUpdatingActors = true) :
    ∃ added, (as.foldl (Game.updateActor hook) g).mPendingActors
      = g.mPendingActors ++ added := by
  induction as generalizing g with
  | nil => exact ⟨[], by simp⟩
  | cons a as ih =>
    obtain ⟨one, h1⟩ := foldl_act_pending (hook a g) { g with log := g.log ++ [.update a] } hg
    have h2 := (foldl_act (hook a g) { g with log := g.log ++ [.update a] } hg).2.2
    obtain ⟨rest, h3⟩ := ih (Game.updateActor hook g a) h2
    refine ⟨one ++ rest, ?_⟩
    simp only [List.foldl_cons]
    rw [h3]
    show (List.foldl Game.act _ (hook a g)).mPendingActors ++ rest = _
    rw [h1, List.append_assoc]

/-- The pending list at the end of the tick pass is the pending list at entry
followed by the actors added during the pass. -/
theorem tickPass_pending (hook : Nat → Game → List HookAction) (g : Game) :
    ∃ added, (g.tickPass hook).mPendingActors = g.mPendingActors ++ added :=
  foldl_updateActor_pending hook g.mActors { g with mUpdatingActors := true } rfl

theorem calls_invariant (cs : List ActorCall) (g : Game) (hg : g.mUpdatingActors = true)
    (hnd : (g.mActors ++ g.mPendingActors).Nodup) (hf : freshAdds g cs = true) :
    ((g.calls cs).mActors ++ (g.calls cs).mPendingActors).Nodup ∧
    ∀ a, a ∈ (g.calls cs).mActors ++ (g.calls cs).mPendingActors ↔
      expectedLive cs a (decide (a ∈ g.mActors ∨ a ∈ g.mPendingActors)) = true := by
  induction cs generalizing g with
  | nil => simp [Game.calls, expectedLive, hnd]
  | cons c cs ih =>
    cases c with
    | add x =>
      have hx1 : x ∉ g.mActors := by
        intro h
        simp [freshAdds, h] at hf
      have hx2 : x ∉ g.mPendingActors := by
        intro h
        simp [freshAdds, h] at hf
      have hf2 : freshAdds (g.AddActor x) cs = true := by
        simp only [freshAdds, Bool.and_eq_true] at hf
        exact hf.2
      have e1 : (g.AddActor x).mActors = g.mActors := by simp [Game.AddActor, hg]
      have e2 : (g.AddActor x).mPendingActors = g.mPendingActors ++ [x] := by
        simp [Game.AddActor, hg]
      have e3 : (g.AddActor x).mUpdatingActors = true := by simp [Game.AddActor, hg]
      have hnd2 : ((g.AddActor x).mActors ++ (g.AddActor x).mPendingActors).Nodup := by
        rw [e1, e2, ← List.append_assoc]
        apply List.Nodup.append hnd (List.nodup_singleton x)
        simp [hx1, hx2]
      obtain ⟨i1, i2⟩ := ih (g.AddActor x) e3 hnd2 hf2
      refine ⟨i1, fun a => ?_⟩
      have hb : decide (a ∈ (g.AddActor x).mActors ∨ a ∈ (g.AddActor x).mPendingActors) =
          (if x = a then true else decide (a ∈ g.mActors ∨ a ∈ g.mPendingActors)) := by
        rw [e1, e2]
        by_cases hxa : x = a
        · subst hxa; simp
        · have hax : ¬ a = x := fun h => hxa h.symm
          simp [hxa, hax]
      have := i2 a
      rw [hb] at this
      exact this
    | remove x =>
      simp only [freshAdds] at hf
      have hl : g.mActors.Nodup := (List.nodup_append.mp hnd).1
      have hp : g.mPendingActors.Nodup := (List.nodup_append.mp hnd).2.1
      have e3 : (g.RemoveActor x).mUpdatingActors = true := hg
      have hnd2 : ((g.RemoveActor x).mActors ++ (g.RemoveActor x).mPendingActors).Nodup := by
        have hperm : (findSwapPop g.mActors x ++ findSwapPop g.mPendingActors x).Perm
            (g.mActors.erase x ++ g.mPendingActors.erase x) :=
          (findSwapPop_perm_erase _ x).append (findSwapPop_perm_erase _ x)
        have hsub : (g.mActors.erase x ++ g.mPendingActors.erase x).Sublist
            (g.mActors ++ g.mPendingActors) :=
          (List.erase_sublist x _).append (List.erase_sublist x _)
        exact hperm.nodup_iff.mpr (hnd.sublist hsub)
      obtain ⟨i1, i2⟩ := ih (g.RemoveActor x) e3 hnd2 hf
      refine ⟨i1, fun a => ?_⟩
      have m1 : a ∈ (g.RemoveActor x).mActors ↔ a ≠ x ∧ a ∈ g.mActors := mem_findSwapPop hl x a
      have m2 : a ∈ (g.RemoveActor x).mPendingActors ↔ a ≠ x ∧ a ∈ g.mPendingActors :=
        mem_findSwapPop hp x a
      have hb : decide (a ∈ (g.RemoveActor x).mActors ∨ a ∈ (g.RemoveActor x).mPendingActors) =
          (if x = a then false else decide (a ∈ g.mActors ∨ a ∈ g.mPendingActors)) := by
        by_cases hxa : x = a
        · subst hxa; simp [m1, m2]
        · have hax : a ≠ x := fun h => hxa h.symm
          simp [m1, m2, hxa, hax]
      have := i2 a
      rw [hb] at this
      exact this

/-! ## Game loop: the claims -/

/-- C1, as worded, fails: with no actor in either list, two `AddActor` calls for
actor 5 during the pass leave actor 5 twice in the live list after the splice. -/
theorem afterPass_double_add :
    (emptyGame.mActors ++ emptyGame.mPendingActors).Nodup ∧
    (emptyGame.afterPass [.add 5, .add 5]).mActors = [5, 5] ∧
    ¬ PassContract emptyGame [.add 5, .add 5] := by
  refine ⟨by decide, by decide, fun h => ?_⟩
  have h1 := h.1
  revert h1
  decide

/-- C1, amended: when no actor occurs twice across the live and pending lists and
every `AddActor` call made during the pass is for an actor that is in neither list
at that time, the live list after the pass and the splice holds each actor at most
once, and holds exactly the actors whose last call was an `add`, together with the
actors present before that were never the subject of a call. -/
theorem afterPass_live_exact (g : Game) (cs : List ActorCall)
    (hnd : (g.mActors ++ g.mPendingActors).Nodup)
    (hf : freshAdds { g with mUpdatingActors := true } cs = true) :
    PassContract g cs := by
  have h := calls_invariant cs { g with mUpdatingActors := true } rfl hnd hf
  unfold PassContract Game.afterPass
  rw [splicePending_mActors]
  exact h

theorem afterPass_live_exact_witness :
    (sampleGame.mActors ++ sampleGame.mPendingActors).Nodup ∧
    freshAdds { sampleGame with mUpdatingActors := true }
      [.add 4, .remove 2, .add 5, .remove 4, .remove 9, .add 2] = true ∧
    (sampleGame.afterPass [.add 4, .remove 2, .add 5, .remove 4, .remove 9, .add 2]).mActors
      = [1, 3, 5, 2] ∧
    PassContract sampleGame [.add 4, .remove 2, .add 5, .remove 4, .remove 9, .add 2] :=
  ⟨by decide, by decide, by decide,
    afterPass_live_exact sampleGame _ (by decide) (by decide)⟩

theorem count_cwt_update_map (p : Nat) (as : List Nat) :
    (as.map GameEvent.update).count (GameEvent.computeWorldTransform p) = 0 := by
  induction as with
  | nil => simp
  | cons a as ih => simp [List.count_cons, ih]

theorem count_cwt_destroy_map (p : Nat) (ds : List Nat) :
    (ds.map GameEvent.destroy).count (GameEvent.computeWorldTransform p) = 0 := by
  induction ds with
  | nil => simp
  | cons d ds ih => simp [List.count_cons, ih]

/-- C2, as worded, fails: in the sample game actor 1 registers actor 5 twice
during the pass (`AddActor` has no duplicate check); actor 5 is then pending twice
at the end of the pass, `UpdateGame` calls `ComputeWorldTransform` on it twice
and appends it to the live list twice. -/
theorem UpdateGame_pending_twice :
    (sampleGame.tickPass doubleAddHook).mPendingActors = [5, 5] ∧
    (sampleGame.UpdateGame doubleAddHook).log
      = [.update 1, .update 2, .update 3, .computeWorldTransform 5, .emplaceLive 5,
         .computeWorldTransform 5, .emplaceLive 5] ∧
    (sampleGame.UpdateGame doubleAddHook).log.count (GameEvent.computeWorldTransform 5) = 2 ∧
    (sampleGame.UpdateGame doubleAddHook).mActors = [1, 2, 3, 5, 5] := by
  decide

/-- C2, amended: while the tick pass is in progress `AddActor` appends to the
pending list and leaves the live list alone; when `UpdateGame` returns the pending
list is empty; the splice appends the actors pending at the end of the pass to the
live list in pending order, and logs for each pending entry one
`ComputeWorldTransform` immediately before its `emplace_back`, so the number of
`ComputeWorldTransform` calls that one run of `UpdateGame` makes on an actor is the
number of its pending entries at the end of the pass: exactly one for every pending
actor when no actor is pending twice. -/
theorem UpdateGame_pending_splice (hook : Nat → Game → List HookAction) (g : Game) (a : Nat) :
    (g.mUpdatingActors = true →
      (g.AddActor a).mPendingActors = g.mPendingActors ++ [a] ∧
      (g.AddActor a).mActors = g.mActors) ∧
    (g.UpdateGame hook).mPendingActors = [] ∧
    (g.tickPass hook).splicePending.mActors
      = g.mActors ++ (g.tickPass hook).mPendingActors ∧
    (g.tickPass hook).splicePending.log
      = (g.tickPass hook).log ++ spliceEvents (g.tickPass hook).mPendingActors ∧
    (g.UpdateGame hook).log
      = (g.tickPass hook).splicePending.log ++
        ((g.tickPass hook).splicePending.deadActors).map GameEvent.destroy ∧
    (∀ p, (spliceEvents (g.tickPass hook).mPendingActors).count
        (GameEvent.computeWorldTransform p) = (g.tickPass hook).mPendingActors.count p) ∧
    (∀ p, (g.UpdateGame hook).log.count (GameEvent.computeWorldTransform p)
      = g.log.count (GameEvent.computeWorldTransform p)
        + (g.tickPass hook).mPendingActors.count p) ∧
    ((g.tickPass hook).mPendingActors.Nodup → ∀ p ∈ (g.tickPass hook).mPendingActors,
      (spliceEvents (g.tickPass hook).mPendingActors).count
        (GameEvent.computeWorldTransform p) = 1 ∧
      (g.UpdateGame hook).log.count (GameEvent.computeWorldTransform p)
        = g.log.count (GameEvent.computeWorldTransform p) + 1) := by
  have hcount : ∀ p, (g.UpdateGame hook).log.count (GameEvent.computeWorldTransform p)
      = g.log.count (GameEvent.computeWorldTransform p)
        + (g.tickPass hook).mPendingActors.count p := by
    intro p
    rw [UpdateGame_log, List.count_append, List.count_append, List.count_append,
      count_cwt_update_map, count_cwt_destroy_map, count_spliceEvents]
    omega
  refine ⟨?_, ?_, ?_, ?_, ?_, ?_, hcount, ?_⟩
  · intro hg
    simp [Game.AddActor, hg]
  · unfold Game.UpdateGame Game.reap
    exact (foldl_destroy _ _).2.2 (splicePending_pending _)
  · rw [splicePending_mActors, tickPass_mActors]
  · rw [splicePending_log]
  · unfold Game.UpdateGame Game.reap
    exact (foldl_destroy _ _).1
  · intro p
    exact count_spliceEvents p _
  · intro hnd p hp
    have h1 : (g.tickPass hook).mPendingActors.count p = 1 := List.count_eq_one_of_mem hnd hp
    refine ⟨?_, ?_⟩
    · rw [count_spliceEvents]
      exact h1
    · rw [hcount p, h1]

theorem UpdateGame_pending_splice_witness :
    ({ sampleGame with mUpdatingActors := true } : Game).mUpdatingActors = true ∧
    (Game.AddActor { sampleGame with mUpdatingActors := true } 7).mPendingActors = [7] ∧
    (Game.AddActor { sampleGame with mUpdatingActors := true } 7).mActors = [1, 2, 3] ∧
    (sampleGame.UpdateGame spawnHook).mPendingActors = [] ∧
    (sampleGame.tickPass spawnHook).mPendingActors = [7, 8] ∧
    (sampleGame.tickPass spawnHook).mPendingActors.Nodup ∧
    8 ∈ (sampleGame.tickPass spawnHook).mPendingActors ∧
    (sampleGame.UpdateGame spawnHook).log.count (GameEvent.computeWorldTransform 8) = 1 :=
  ⟨rfl,
   ((UpdateGame_pending_splice (fun _ _ => []) { sampleGame with mUpdatingActors := true } 7).1
      rfl).1.trans (by decide),
   ((UpdateGame_pending_splice (fun _ _ => []) { sampleGame with mUpdatingActors := true } 7).1
      rfl).2.trans (by decide),
   (UpdateGame_pending_splice spawnHook sampleGame 0).2.1,
   by decide, by decide, by decide,
   ((UpdateGame_pending_splice spawnHook sampleGame 0).2.2.2.2.2.2.2
      (by decide) 8 (by decide)).2⟩

/-- C3, as worded, fails: actor 1 occurs once in the live list and once in the
pending list; `RemoveActor` takes it out of both, so the other list is not left
unchanged. -/
theorem RemoveActor_both_lists :
    doubledGame.mActors.count 1 = 1 ∧
    (doubledGame.RemoveActor 1).mPendingActors = [] ∧
    doubledGame.mPendingActors = [1] ∧
    ¬ RemoveActorContract doubledGame 1 := by
  refine ⟨by decide, by decide, by decide, fun h => ?_⟩
  have h1 := (h.1 (by decide)).2
  revert h1
  decide

theorem swapPopped_findSwapPop {v : List Nat} {a : Nat} (h : v.count a = 1) :
    SwapPopped v (findSwapPop v a) a := by
  have hm : a ∈ v := List.count_pos_iff.mp (by omega)
  refine ⟨?_, length_findSwapPop hm, fun b hb => count_findSwapPop_of_ne v hb,
    fun k hk => getElem?_findSwapPop hm k hk⟩
  have hc := count_findSwapPop_self v a
  rw [h] at hc
  exact List.count_eq_zero.mp hc

/-- C3, amended: an actor that occurs exactly once in the live list (respectively
the pending list) is removed from it by swap-with-last-and-pop: that list no longer
holds the actor, is one shorter, holds every other actor as often as before, has
the former last element in the removed slot and every other slot as before; and
the other list is unchanged when the actor is not in it. -/
theorem RemoveActor_swap_pop (g : Game) (a : Nat) :
    (g.mActors.count a = 1 →
      SwapPopped g.mActors (g.RemoveActor a).mActors a ∧
      (a ∉ g.mPendingActors → (g.RemoveActor a).mPendingActors = g.mPendingActors)) ∧
    (g.mPendingActors.count a = 1 →
      SwapPopped g.mPendingActors (g.RemoveActor a).mPendingActors a ∧
      (a ∉ g.mActors → (g.RemoveActor a).mActors = g.mActors)) :=
  ⟨fun h => ⟨swapPopped_findSwapPop h, fun hn => findSwapPop_of_not_mem hn⟩,
   fun h => ⟨swapPopped_findSwapPop h, fun hn => findSwapPop_of_not_mem hn⟩⟩

theorem RemoveActor_swap_pop_witness :
    sampleGame.mActors.count 1 = 1 ∧ 1 ∉ sampleGame.mPendingActors ∧
    (sampleGame.RemoveActor 1).mActors = [3, 2] ∧
    SwapPopped sampleGame.mActors (sampleGame.RemoveActor 1).mActors 1 ∧
    (sampleGame.RemoveActor 1).mPendingActors = sampleGame.mPendingActors :=
  ⟨by decide, by decide, by decide,
   ((RemoveActor_swap_pop sampleGame 1).1 (by decide)).1,
   ((RemoveActor_swap_pop sampleGame 1).1 (by decide)).2 (by decide)⟩

/-- C4: `RemoveActor` of an actor that is in neither the live nor the pending list
returns the game unchanged (both lists element for element). -/
theorem RemoveActor_absent (g : Game) (a : Nat) (h1 : a ∉ g.mActors)
    (h2 : a ∉ g.mPendingActors) : g.RemoveActor a = g := by
  unfold Game.RemoveActor
  rw [findSwapPop_of_not_mem h1, findSwapPop_of_not_mem h2]

theorem RemoveActor_absent_witness :
    9 ∉ sampleGame.mActors ∧ 9 ∉ sampleGame.mPendingActors ∧
    sampleGame.RemoveActor 9 = sampleGame :=
  ⟨by decide, by decide, RemoveActor_absent sampleGame 9 (by decide) (by decide)⟩

theorem deadActors_nodup {g : Game} (h : g.mActors.Nodup) : g.deadActors.Nodup :=
  h.sublist (List.filter_sublist _)

theorem mem_deadActors (g : Game) (a : Nat) :
    a ∈ g.deadActors ↔ a ∈ g.mActors ∧ g.actorState a = .EDead := by
  simp [Game.deadActors]

theorem count_destroy_map (a : Nat) (ds : List Nat) :
    (ds.map GameEvent.destroy).count (GameEvent.destroy a) = ds.count a := by
  induction ds with
  | nil => simp
  | cons d ds ih =>
    by_cases h : d = a
    · subst h; simp [ih]
    · simp [ih, List.count_cons, h]

theorem reap_spec (g : Game) (hnd : g.mActors.Nodup) :
    (∀ a, (g.deadActors.map GameEvent.destroy).count (GameEvent.destroy a) =
      if a ∈ g.mActors ∧ g.actorState a = .EDead then 1 else 0) ∧
    (∀ a, a ∈ g.reap.mActors ↔ a ∈ g.mActors ∧ g.actorState a ≠ .EDead) ∧
    g.reap.mActors.Nodup ∧
    g.reap.actorState = g.actorState := by
  refine ⟨fun a => ?_, fun a => ?_, ?_, ?_⟩
  · rw [count_destroy_map]
    by_cases h : a ∈ g.mActors ∧ g.actorState a = .EDead
    · rw [if_pos h]
      exact List.count_eq_one_of_mem (deadActors_nodup hnd) ((mem_deadActors g a).mpr h)
    · rw [if_neg h]
      exact List.count_eq_zero.mpr (fun hm => h ((mem_deadActors g a).mp hm))
  · unfold Game.reap
    rw [(foldl_destroy_mem _ g hnd).2 a, mem_deadActors]
    tauto
  · exact (foldl_destroy_mem _ g hnd).1
  · exact (foldl_destroy _ g).2.1

/-- C5, as worded, fails: the sample game has no duplicated actor at entry; during
the pass actor 1 registers the live actor 2 again and marks it dead, so actor 2 is
in the spliced live list twice and is destroyed twice. -/
theorem UpdateGame_destroys_twice :
    (sampleGame.mActors ++ sampleGame.mPendingActors).Nodup ∧
    (sampleGame.tickPass readdHook).splicePending.mActors = [1, 2, 3, 2] ∧
    (sampleGame.UpdateGame readdHook).log
      = [.update 1, .update 2, .update 3, .computeWorldTransform 2, .emplaceLive 2,
         .destroy 2, .destroy 2] ∧
    (sampleGame.UpdateGame readdHook).log.count (GameEvent.destroy 2) = 2 := by
  decide

/-- C5, amended: when no actor is duplicated across the live and pending lists at
the end of the tick pass (which implies the same at entry), one run of `UpdateGame`
logs the `Update` calls of the pass, then the splice, then the destructions; the
actors destroyed are exactly the actors of the spliced live list whose state is
`EDead`, each once; no destruction is logged before the last `Update`; the live
list that `UpdateGame` returns has no duplicate and holds exactly the spliced live
actors that are not `EDead`.  In particular an enemy of a duplicate-free game whose
update runs (it is not Paused) and sets it `EDead` is destroyed once, after the
pass, and is gone from the live list; a Paused enemy keeps its state and stays. -/
theorem UpdateGame_reaps_dead (hook : Nat → Game → List HookAction) (g : Game)
    (hnd : (g.mActors ++ (g.tickPass hook).mPendingActors).Nodup) :
    (g.mActors ++ g.mPendingActors).Nodup ∧
    (g.UpdateGame hook).log =
      g.log ++ g.mActors.map GameEvent.update ++
        spliceEvents (g.tickPass hook).mPendingActors ++
        ((g.tickPass hook).splicePending.deadActors).map GameEvent.destroy ∧
    (∀ a, GameEvent.destroy a ∉
      g.mActors.map GameEvent.update ++ spliceEvents (g.tickPass hook).mPendingActors) ∧
    (∀ a, GameEvent.update a ∉
      ((g.tickPass hook).splicePending.deadActors).map GameEvent.destroy) ∧
    (∀ a, (((g.tickPass hook).splicePending.deadActors).map GameEvent.destroy).count
        (GameEvent.destroy a) =
      if a ∈ (g.tickPass hook).splicePending.mActors ∧
          (g.tickPass hook).splicePending.actorState a = .EDead then 1 else 0) ∧
    (∀ a, (g.UpdateGame hook).log.count (GameEvent.destroy a) =
      g.log.count (GameEvent.destroy a) +
      if a ∈ (g.tickPass hook).splicePending.mActors ∧
          (g.tickPass hook).splicePending.actorState a = .EDead then 1 else 0) ∧
    (∀ a, a ∈ (g.UpdateGame hook).mActors ↔
      a ∈ (g.tickPass hook).splicePending.mActors ∧
        (g.tickPass hook).splicePending.actorState a ≠ .EDead) ∧
    (g.UpdateGame hook).mActors.Nodup ∧
    (∀ a ∈ (g.UpdateGame hook).mActors, (g.UpdateGame hook).actorState a ≠ .EDead) ∧
    (∀ (nearEnd : Nat → Bool) (g2 : Game) (e : Nat),
      (g2.mActors ++ g2.mPendingActors).Nodup → e ∈ g2.mActors → nearEnd e = true →
      g2.actorState e ≠ .EPaused →
      (((g2.tickPass (enemyHook nearEnd)).splicePending.deadActors).map
        GameEvent.destroy).count (GameEvent.destroy e) = 1 ∧
      e ∉ (g2.UpdateGame (enemyHook nearEnd)).mActors) ∧
    (∀ (nearEnd : Nat → Bool) (g2 : Game) (e : Nat),
      (g2.mActors ++ g2.mPendingActors).Nodup → e ∈ g2.mActors →
      g2.actorState e = .EPaused →
      (g2.UpdateGame (enemyHook nearEnd)).actorState e = .EPaused ∧
      GameEvent.destroy e ∉
        ((g2.tickPass (enemyHook nearEnd)).splicePending.deadActors).map GameEvent.destroy ∧
      e ∈ (g2.UpdateGame (enemyHook nearEnd)).mActors) := by
  have key : ∀ (hk : Nat → Game → List HookAction) (g1 : Game),
      (g1.mActors ++ (g1.tickPass hk).mPendingActors).Nodup →
      (g1.tickPass hk).splicePending.mActors.Nodup := by
    intro hk g1 h
    rw [splicePending_mActors, tickPass_mActors]
    exact h
  obtain ⟨r1, r2, r3, r4⟩ := reap_spec _ (key hook g hnd)
  have hentry : (g.mActors ++ g.mPendingActors).Nodup := by
    obtain ⟨added, hadd⟩ := tickPass_pending hook g
    rw [hadd, ← List.append_assoc] at hnd
    exact (List.nodup_append.mp hnd).1
  have hcount : ∀ a, (g.UpdateGame hook).log.count (GameEvent.destroy a) =
      g.log.count (GameEvent.destroy a) +
      if a ∈ (g.tickPass hook).splicePending.mActors ∧
          (g.tickPass hook).splicePending.actorState a = .EDead then 1 else 0 := by
    intro a
    rw [UpdateGame_log, List.count_append, List.count_append, List.count_append, r1 a]
    have h1 : (g.mActors.map GameEvent.update).count (GameEvent.destroy a) = 0 :=
      List.count_eq_zero.mpr (by simp)
    have h2 : (spliceEvents (g.tickPass hook).mPendingActors).count (GameEvent.destroy a) = 0 :=
      List.count_eq_zero.mpr (destroy_not_mem_spliceEvents a _)
    rw [h1, h2]
    omega
  refine ⟨hentry, UpdateGame_log hook g, ?_, ?_, r1, hcount, r2, r3, ?_, ?_, ?_⟩
  · intro a
    simp [destroy_not_mem_spliceEvents]
  · intro a
    simp
  · intro a ha
    have h2 := (r2 a).mp ha
    show ((g.tickPass hook).splicePending.reap).actorState a ≠ .EDead
    rw [r4]
    exact h2.2
  · intro nearEnd g2 e hnd2 he hne hnp
    obtain ⟨p1, p2⟩ := foldl_enemy nearEnd g2.mActors { g2 with mUpdatingActors := true }
    have hp : (g2.tickPass (enemyHook nearEnd)).mPendingActors = g2.mPendingActors := p1
    have hs : (g2.tickPass (enemyHook nearEnd)).actorState e = .EDead := by
      have := p2 e
      rw [if_pos ⟨he, hne, hnp⟩] at this
      exact this
    have hnd3 : (g2.mActors ++ (g2.tickPass (enemyHook nearEnd)).mPendingActors).Nodup := by
      rw [hp]; exact hnd2
    obtain ⟨q1, q2, _, _⟩ := reap_spec _ (key (enemyHook nearEnd) g2 hnd3)
    have hmem : e ∈ (g2.tickPass (enemyHook nearEnd)).splicePending.mActors := by
      rw [splicePending_mActors, tickPass_mActors]
      exact List.mem_append_left _ he
    have hdead : (g2.tickPass (enemyHook nearEnd)).splicePending.actorState e = .EDead := by
      rw [splicePending_actorState]; exact hs
    refine ⟨?_, ?_⟩
    · rw [q1 e, if_pos ⟨hmem, hdead⟩]
    · intro hin
      exact ((q2 e).mp hin).2 hdead
  · intro nearEnd g2 e hnd2 he hpa
    obtain ⟨p1, p2⟩ := foldl_enemy nearEnd g2.mActors { g2 with mUpdatingActors := true }
    have hp : (g2.tickPass (enemyHook nearEnd)).mPendingActors = g2.mPendingActors := p1
    have hs : (g2.tickPass (enemyHook nearEnd)).actorState e = .EPaused := by
      have := p2 e
      rw [if_neg (fun h => h.2.2 hpa)] at this
      exact this.trans hpa
    have hnd3 : (g2.mActors ++ (g2.tickPass (enemyHook nearEnd)).mPendingActors).Nodup := by
      rw [hp]; exact hnd2
    obtain ⟨q1, q2, _, q4⟩ := reap_spec _ (key (enemyHook nearEnd) g2 hnd3)
    have hmem : e ∈ (g2.tickPass (enemyHook nearEnd)).splicePending.mActors := by
      rw [splicePending_mActors, tickPass_mActors]
      exact List.mem_append_left _ he
    have hst : (g2.tickPass (enemyHook nearEnd)).splicePending.actorState e = .EPaused := by
      rw [splicePending_actorState]; exact hs
    have hnd : (g2.tickPass (enemyHook nearEnd)).splicePending.actorState e ≠ .EDead := by
      rw [hst]; decide
    refine ⟨?_, ?_, ?_⟩
    · show ((g2.tickPass (enemyHook nearEnd)).splicePending.reap).actorState e = .EPaused
      rw [q4]; exact hst
    · intro hin
      have := q1 e
      rw [if_neg (fun h => hnd h.2)] at this
      exact List.count_eq_zero.mp this hin
    · exact (q2 e).mpr ⟨hmem, hnd⟩

theorem UpdateGame_reaps_dead_witness :
    (sampleGame.mActors ++
      (sampleGame.tickPass (enemyHook (fun x => x == 1))).mPendingActors).Nodup ∧
    (sampleGame.UpdateGame (enemyHook (fun x => x == 1))).log
      = [.update 1, .update 2, .update 3, .destroy 1] ∧
    (sampleGame.UpdateGame (enemyHook (fun x => x == 1))).mActors = [3, 2] ∧
    (sampleGame.UpdateGame (enemyHook (fun x => x == 1))).mActors.Nodup ∧
    (pausedGame.UpdateGame (enemyHook (fun x => x == 1))).log
      = [.update 1, .update 2, .update 3] ∧
    1 ∈ (pausedGame.UpdateGame (enemyHook (fun x => x == 1))).mActors :=
  ⟨by decide, by decide, by decide,
   (UpdateGame_reaps_dead (enemyHook (fun x => x == 1)) sampleGame (by decide)).2.2.2.2.2.2.2.1,
   by decide,
   ((UpdateGame_reaps_dead (enemyHook (fun x => x == 1)) sampleGame
      (by decide)).2.2.2.2.2.2.2.2.2.2 (fun x => x == 1) pausedGame 1
      (by decide) (by decide) (by decide)).2.2⟩

/-! ## Lemmas on the sprite draw list -/

theorem AddSprite_nil (d : Nat → Int) (x : Nat) : AddSprite d [] x = [x] := rfl

theorem AddSprite_cons (d : Nat → Int) (s : Nat) (l : List Nat) (x : Nat) :
    AddSprite d (s :: l) x = if d x < d s then x :: s :: l else s :: AddSprite d l x := by
  unfold AddSprite
  by_cases h : d x < d s
  · simp [List.findIdx_cons, h]
  · simp [List.findIdx_cons, h]

theorem AddSprite_perm (d : Nat → Int) (l : List Nat) (x : Nat) :
    (AddSprite d l x).Perm (x :: l) := by
  unfold AddSprite
  refine List.perm_middle.trans (List.Perm.cons x ?_)
  rw [List.take_append_drop]

theorem AddSprite_sorted (d : Nat → Int) (l : List Nat) (x : Nat) (h : DrawSorted d l) :
    DrawSorted d (AddSprite d l x) := by
  induction l with
  | nil => simp [AddSprite_nil, DrawSorted]
  | cons s l ih =>
    rw [AddSprite_cons]
    unfold DrawSorted at h ih ⊢
    rw [List.pairwise_cons] at h
    by_cases hx : d x < d s
    · rw [if_pos hx]
      refine List.pairwise_cons.mpr ⟨?_, List.pairwise_cons.mpr h⟩
      intro b hb
      rcases List.mem_cons.mp hb with rfl | hb
      · exact le_of_lt hx
      · exact le_trans (le_of_lt hx) (h.1 b hb)
    · rw [if_neg hx]
      refine List.pairwise_cons.mpr ⟨?_, ih h.2⟩
      intro b hb
      rcases List.mem_cons.mp ((AddSprite_perm d l x).mem_iff.mp hb) with rfl | hb
      · exact not_lt.mp hx
      · exact h.1 b hb

theorem RemoveSprite_of_mem {l : List Nat} {s : Nat} (h : s ∈ l) :
    RemoveSprite l s = some (l.eraseIdx (l.indexOf s)) := by
  unfold RemoveSprite
  simp [List.indexOf_lt_length.mpr h]

theorem registerAll_snoc (d : Nat → Int) (seq : List Nat) (x : Nat) :
    registerAll d (seq ++ [x]) = AddSprite d (registerAll d seq) x := by
  simp [registerAll, List.foldl_append]

theorem registerAll_sorted (d : Nat → Int) (seq : List Nat) : DrawSorted d (registerAll d seq) := by
  induction seq using List.reverseRecOn with
  | nil => simp [registerAll, DrawSorted]
  | append_singleton seq x ih =>
    rw [registerAll_snoc]
    exact AddSprite_sorted d _ x ih

theorem registerAll_perm (d : Nat → Int) (seq : List Nat) : (registerAll d seq).Perm seq := by
  induction seq using List.reverseRecOn with
  | nil => simp [registerAll]
  | append_singleton seq x ih =>
    rw [registerAll_snoc]
    exact (AddSprite_perm d _ x).trans
      ((List.Perm.cons x ih).trans (List.perm_append_singleton x seq).symm)

/-- The insertion point: everything before it has a draw order not above the new
sprite, the entry right after the new sprite (if any) is strictly above. -/
theorem AddSprite_split (d : Nat → Int) (l : List Nat) (x : Nat) :
    ∃ pre post, l = pre ++ post ∧ AddSprite d l x = pre ++ x :: post ∧
      (∀ s ∈ pre, d s ≤ d x) ∧ (∀ s, post.head? = some s → d x < d s) := by
  induction l with
  | nil => exact ⟨[], [], rfl, rfl, by simp, by simp⟩
  | cons s l ih =>
    rw [AddSprite_cons]
    by_cases hx : d x < d s
    · rw [if_pos hx]
      exact ⟨[], s :: l, rfl, rfl, by simp, by simpa using hx⟩
    · rw [if_neg hx]
      obtain ⟨pre, post, h1, h2, h3, h4⟩ := ih
      refine ⟨s :: pre, post, by rw [h1]; rfl, by rw [h2]; rfl, ?_, h4⟩
      intro b hb
      rcases List.mem_cons.mp hb with rfl | hb
      · exact not_lt.mp hx
      · exact h3 b hb

/-- In a sorted list the new sprite lands after every sprite of its own draw order. -/
theorem filter_AddSprite (d : Nat → Int) (l : List Nat) (x : Nat) (k : Int)
    (h : DrawSorted d l) :
    (AddSprite d l x).filter (fun s => decide (d s = k)) =
      l.filter (fun s => decide (d s = k)) ++ (if d x = k then [x] else []) := by
  induction l with
  | nil =>
    rw [AddSprite_nil]
    by_cases hk : d x = k <;> simp [hk]
  | cons s l ih =>
    unfold DrawSorted at h ih
    rw [List.pairwise_cons] at h
    rw [AddSprite_cons]
    by_cases hx : d x < d s
    · rw [if_pos hx]
      by_cases hk : d x = k
      · have hnone : ∀ b ∈ s :: l, ¬ d b = k := by
          intro b hb hbk
          rcases List.mem_cons.mp hb with rfl | hb
          · omega
          · have := h.1 b hb
            omega
        have hf : (s :: l).filter (fun s => decide (d s = k)) = [] := by
          rw [List.filter_eq_nil_iff]
          intro b hb
          simpa using hnone b hb
        rw [List.filter_cons, hf]
        simp [hk]
      · simp [List.filter_cons, hk]
    · rw [if_neg hx, List.filter_cons, List.filter_cons, ih h.2]
      by_cases hs : d s = k <;> simp [hs]

theorem filter_registerAll (d : Nat → Int) (seq : List Nat) (k : Int) :
    (registerAll d seq).filter (fun s => decide (d s = k)) =
      seq.filter (fun s => decide (d s = k)) := by
  induction seq using List.reverseRecOn with
  | nil => simp [registerAll]
  | append_singleton seq x ih =>
    rw [registerAll_snoc, filter_AddSprite d _ x k (registerAll_sorted d seq), ih,
      List.filter_append]
    by_cases hk : d x = k <;> simp [hk]

theorem orderedInsert_AddSprite (d : Nat → Int) (a x : Nat) (l : List Nat) :
    List.orderedInsert (fun p q => d p ≤ d q) a (AddSprite d l x) =
      AddSprite d (List.orderedInsert (fun p q => d p ≤ d q) a l) x := by
  induction l with
  | nil =>
    simp only [AddSprite_nil, List.orderedInsert, AddSprite_cons]
    by_cases h : d a ≤ d x
    · rw [if_pos h, if_neg (not_lt.mpr h)]
      rfl
    · rw [if_neg h, if_pos (not_le.mp h)]
  | cons b l ih =>
    simp only [AddSprite_cons, List.orderedInsert]
    by_cases hxb : d x < d b
    · by_cases hax : d a ≤ d x
      · have hab : d a ≤ d b := by omega
        simp [hxb, hax, hab, List.orderedInsert, AddSprite_cons, not_lt.mpr hax]
      · by_cases hab : d a ≤ d b
        · simp [hxb, hax, hab, List.orderedInsert, AddSprite_cons, not_le.mp hax]
        · simp [hxb, hax, hab, List.orderedInsert, AddSprite_cons]
    · by_cases hab : d a ≤ d b
      · have hxa : ¬ d x < d a := by omega
        simp [hxb, hab, List.orderedInsert, AddSprite_cons, hxa]
      · simp [hxb, hab, List.orderedInsert, AddSprite_cons, ih]

theorem insertionSort_snoc (d : Nat → Int) (l : List Nat) (x : Nat) :
    List.insertionSort (fun p q => d p ≤ d q) (l ++ [x]) =
      AddSprite d (List.insertionSort (fun p q => d p ≤ d q) l) x := by
  induction l with
  | nil => rfl
  | cons a l ih =>
    show List.orderedInsert (fun p q => d p ≤ d q) a
        (List.insertionSort (fun p q => d p ≤ d q) (l ++ [x])) = _
    rw [ih, orderedInsert_AddSprite]
    rfl

theorem registerAll_eq_insertionSort (d : Nat → Int) (seq : List Nat) :
    registerAll d seq = List.insertionSort (fun p q => d p ≤ d q) seq := by
  induction seq using List.reverseRecOn with
  | nil => rfl
  | append_singleton seq x ih => rw [registerAll_snoc, insertionSort_snoc, ih]

/-- C6: the sprite list stays sorted by draw order: for every sorted list, the list
after `AddSprite` of any sprite is sorted, and `RemoveSprite` of any sprite that is
in the list succeeds and leaves a sorted list. -/
theorem sprite_list_stays_sorted (d : Nat → Int) (l : List Nat) (h : DrawSorted d l) :
    (∀ s, DrawSorted d (AddSprite d l s)) ∧
    (∀ s ∈ l, ∃ l2, RemoveSprite l s = some l2 ∧ DrawSorted d l2) := by
  refine ⟨fun s => AddSprite_sorted d l s h, fun s hs => ?_⟩
  exact ⟨_, RemoveSprite_of_mem hs, List.Pairwise.sublist (List.eraseIdx_sublist _ _) h⟩

theorem sprite_list_stays_sorted_witness :
    DrawSorted sampleOrder [1, 2, 0] ∧
    AddSprite sampleOrder [1, 2, 0] 7 = [1, 2, 7, 0] ∧
    DrawSorted sampleOrder (AddSprite sampleOrder [1, 2, 0] 7) ∧
    RemoveSprite [1, 2, 0] 2 = some [1, 0] :=
  ⟨by unfold DrawSorted; decide, by decide,
   (sprite_list_stays_sorted sampleOrder [1, 2, 0] (by unfold DrawSorted; decide)).1 7,
   by decide⟩

/-- C7: `AddSprite` puts the new sprite immediately before the first entry with a
strictly greater draw order (at the end if there is none); so registering a
sequence of sprites into an empty list gives the stable sort of the sequence by
draw order: it equals the insertion sort, is sorted, is a permutation of the
sequence, and keeps sprites of equal draw order in registration order; sprites with
draw orders 5, 1, 3 end up in the order 1, 3, 5 whatever the registration order. -/
theorem AddSprite_stable_sort (d : Nat → Int) :
    (∀ l x, ∃ pre post, l = pre ++ post ∧ AddSprite d l x = pre ++ x :: post ∧
      (∀ s ∈ pre, d s ≤ d x) ∧ (∀ s, post.head? = some s → d x < d s)) ∧
    (∀ seq, registerAll d seq = List.insertionSort (fun p q => d p ≤ d q) seq) ∧
    (∀ seq, DrawSorted d (registerAll d seq) ∧ (registerAll d seq).Perm seq ∧
      ∀ k, (registerAll d seq).filter (fun s => decide (d s = k)) =
        seq.filter (fun s => decide (d s = k))) ∧
    (∀ seq, (seq.map d).Perm [5, 1, 3] → (registerAll d seq).map d = [1, 3, 5]) := by
  refine ⟨AddSprite_split d, registerAll_eq_insertionSort d,
    fun seq => ⟨registerAll_sorted d seq, registerAll_perm d seq, filter_registerAll d seq⟩,
    fun seq hp => ?_⟩
  have hs : ((registerAll d seq).map d).Sorted (· ≤ ·) :=
    List.pairwise_map.mpr (registerAll_sorted d seq)
  have hperm : ((registerAll d seq).map d).Perm [1, 3, 5] :=
    ((registerAll_perm d seq).map d).trans (hp.trans (by decide))
  exact List.eq_of_perm_of_sorted hperm hs (by decide)

theorem AddSprite_stable_sort_witness :
    ([2, 0, 1].map sampleOrder).Perm [5, 1, 3] ∧
    registerAll sampleOrder [2, 0, 1] = [1, 2, 0] ∧
    (registerAll sampleOrder [2, 0, 1]).map sampleOrder = [1, 3, 5] :=
  ⟨by decide, by decide, (AddSprite_stable_sort sampleOrder).2.2.2 [2, 0, 1] (by decide)⟩

/-! ## Lemmas on `Renderer::Draw` -/

theorem extends_issue (r : Renderer) (cs : List RenderCommand) :
    r.Extends (r.issue cs) cs := ⟨rfl, rfl, rfl, rfl⟩

theorem Renderer.Extends.trans {r r2 r3 : Renderer} {cs ds : List RenderCommand}
    (h1 : r.Extends r2 cs) (h2 : r2.Extends r3 ds) : r.Extends r3 (cs ++ ds) := by
  obtain ⟨a1, a2, a3, a4⟩ := h1
  obtain ⟨b1, b2, b3, b4⟩ := h2
  exact ⟨by rw [b1, a1, List.append_assoc], b2.trans a2, b3.trans a3, b4.trans a4⟩

theorem extends_SetCurrentShader (r : Renderer) (name : String) :
    ∃ cs, r.Extends (r.SetCurrentShader name) cs ∧
      (∀ c ∈ cs, ∃ sh, c = RenderCommand.shaderSetActive sh) := by
  unfold Renderer.SetCurrentShader
  cases r.mShaders.lookup name with
  | none => exact ⟨[], ⟨by simp, rfl, rfl, rfl⟩, by simp⟩
  | some sh => exact ⟨[.shaderSetActive sh], ⟨rfl, rfl, rfl, rfl⟩, by simp⟩

theorem extends_meshDraws (mcs : List Nat) (r : Renderer) :
    ∃ cs, r.Extends
        (mcs.foldl (fun r1 mc => r1.issue [.meshDraw mc r1.pCurrentShader]) r) cs ∧
      (∀ c ∈ cs, c.inMeshPhase = true) ∧ meshesDrawn cs = mcs := by
  induction mcs generalizing r with
  | nil => exact ⟨[], ⟨by simp, rfl, rfl, rfl⟩, by simp, rfl⟩
  | cons mc mcs ih =>
    obtain ⟨cs, h1, h2, h3⟩ := ih (r.issue [.meshDraw mc r.pCurrentShader])
    refine ⟨[.meshDraw mc r.pCurrentShader] ++ cs, (extends_issue r _).trans h1, ?_, ?_⟩
    · intro c hc
      rcases List.mem_append.mp hc with hc | hc
      · rw [List.mem_singleton.mp hc]; rfl
      · exact h2 c hc
    · simp [meshesDrawn, h3]

theorem meshesDrawn_append_of_setup (cs ds : List RenderCommand)
    (h : ∀ c ∈ cs, ∃ sh, c = RenderCommand.shaderSetActive sh) :
    meshesDrawn (cs ++ ds) = meshesDrawn ds := by
  induction cs with
  | nil => rfl
  | cons c cs ih =>
    obtain ⟨sh, rfl⟩ := h _ (List.mem_cons_self _ _)
    simp only [List.cons_append, meshesDrawn]
    exact ih (fun c hc => h c (List.mem_cons_of_mem _ hc))

theorem meshesDrawn_append (cs ds : List RenderCommand) :
    meshesDrawn (cs ++ ds) = meshesDrawn cs ++ meshesDrawn ds := by
  induction cs with
  | nil => rfl
  | cons c cs ih =>
    cases c <;> simp [meshesDrawn, ih]

theorem extends_drawPartition (r : Renderer) (p : String × List Nat) :
    ∃ cs, r.Extends (r.drawPartition p) cs ∧
      (∀ c ∈ cs, c.inMeshPhase = true) ∧ meshesDrawn cs = p.2 := by
  obtain ⟨cs, h1, h2⟩ := extends_SetCurrentShader r p.1
  obtain ⟨ds, k1, k2, k3⟩ := extends_meshDraws p.2 (r.SetCurrentShader p.1)
  refine ⟨cs ++ ds, h1.trans k1, ?_, ?_⟩
  · intro c hc
    rcases List.mem_append.mp hc with hc | hc
    · obtain ⟨sh, rfl⟩ := h2 c hc; rfl
    · exact k2 c hc
  · rw [meshesDrawn_append_of_setup cs ds h2, k3]

theorem extends_partitions (ps : List (String × List Nat)) (r : Renderer) :
    ∃ cs, r.Extends (ps.foldl Renderer.drawPartition r) cs ∧
      (∀ c ∈ cs, c.inMeshPhase = true) ∧ meshesDrawn cs = allMeshComps ps := by
  induction ps generalizing r with
  | nil => exact ⟨[], ⟨by simp, rfl, rfl, rfl⟩, by simp, rfl⟩
  | cons p ps ih =>
    obtain ⟨cs, h1, h2, h3⟩ := extends_drawPartition r p
    obtain ⟨ds, k1, k2, k3⟩ := ih (r.drawPartition p)
    refine ⟨cs ++ ds, h1.trans k1, ?_, ?_⟩
    · intro c hc
      rcases List.mem_append.mp hc with hc | hc
      · exact h2 c hc
      · exact k2 c hc
    · rw [meshesDrawn_append, h3, k3]; rfl

theorem extends_spriteDraws (ss : List Nat) (r : Renderer) :
    r.Extends (ss.foldl (fun r9 s => r9.issue [.spriteDraw s r9.pCurrentShader]) r)
      (ss.map (fun s => RenderCommand.spriteDraw s r.pCurrentShader)) ∧
    (ss.foldl (fun r9 s => r9.issue [.spriteDraw s r9.pCurrentShader]) r).pCurrentShader
      = r.pCurrentShader := by
  induction ss generalizing r with
  | nil => exact ⟨⟨by simp, rfl, rfl, rfl⟩, rfl⟩
  | cons s ss ih =>
    obtain ⟨h1, h2⟩ := ih (r.issue [.spriteDraw s r.pCurrentShader])
    exact ⟨(extends_issue r _).trans h1, h2⟩

/-- The frame of `drawCalls`, phase by phase. -/
theorem drawCalls_phases (r : Renderer) :
    ∃ mesh setup, r.drawCalls.commands =
        r.commands ++ framePhases mesh setup r.mSprites r.drawCalls.pCurrentShader ∧
      (∀ c ∈ mesh, c.inMeshPhase = true) ∧
      meshesDrawn mesh = allMeshComps r.mMeshComps ∧
      (∀ c ∈ setup, c.inSpriteSetup = true) := by
  have e1 := extends_issue r
    [.glClearColor, .glClear, .glEnable .depthTest, .glDisable .blend]
  obtain ⟨c2, e2, p2⟩ := extends_SetCurrentShader
    (r.issue [.glClearColor, .glClear, .glEnable .depthTest, .glDisable .blend]) meshShaderName
  generalize hr2 : (r.issue [.glClearColor, .glClear, .glEnable .depthTest,
    .glDisable .blend]).SetCurrentShader meshShaderName = r2 at e2
  have e3 := extends_issue r2 [.setViewProj r2.pCurrentShader, .setLightUniforms r2.pCurrentShader]
  generalize hr3 : r2.issue [.setViewProj r2.pCurrentShader,
    .setLightUniforms r2.pCurrentShader] = r3 at e3
  obtain ⟨c4, e4, p4, q4⟩ := extends_partitions r3.mMeshComps r3
  generalize hr4 : r3.mMeshComps.foldl Renderer.drawPartition r3 = r4 at e4
  have e5 := extends_issue r4
    [.glDisable .depthTest, .glEnable .blend, .glBlendEquationSeparate, .glBlendFuncSeparate]
  generalize hr5 : r4.issue [.glDisable .depthTest, .glEnable .blend,
    .glBlendEquationSeparate, .glBlendFuncSeparate] = r5 at e5
  obtain ⟨c6, e6, p6⟩ := extends_SetCurrentShader r5 spriteShaderName
  generalize hr6 : r5.SetCurrentShader spriteShaderName = r6 at e6
  have e7 := extends_issue r6 [.spriteVertsSetActive]
  generalize hr7 : r6.issue [.spriteVertsSetActive] = r7 at e7
  obtain ⟨e8, s8⟩ := extends_spriteDraws r7.mSprites r7
  generalize hr8 : r7.mSprites.foldl
    (fun r9 s => r9.issue [.spriteDraw s r9.pCurrentShader]) r7 = r8 at e8 s8
  have hD : r.drawCalls = r8.issue [.swapWindow] := by
    unfold Renderer.drawCalls
    simp only [hr2, hr3, hr4, hr5, hr6, hr7, hr8]
  have hsp : r7.mSprites = r.mSprites := by
    rw [e7.2.1, e6.2.1, e5.2.1, e4.2.1, e3.2.1, e2.2.1, e1.2.1]
  have hmc : r3.mMeshComps = r.mMeshComps := by
    rw [e3.2.2.1, e2.2.2.1, e1.2.2.1]
  have hsh : r.drawCalls.pCurrentShader = r7.pCurrentShader := by
    rw [hD]; exact s8
  refine ⟨c2 ++ [.setViewProj r2.pCurrentShader, .setLightUniforms r2.pCurrentShader] ++ c4,
    c6 ++ [.spriteVertsSetActive], ?_, ?_, ?_, ?_⟩
  · rw [hsh, hD]
    show r8.commands ++ [RenderCommand.swapWindow] = _
    rw [e8.1, e7.1, e6.1, e5.1, e4.1, e3.1, e2.1, e1.1, hsp]
    simp [framePhases]
  · intro c hc
    simp only [List.mem_append, List.mem_cons, List.mem_singleton, List.not_mem_nil,
      or_false] at hc
    rcases hc with (hc | hc | hc) | hc
    · obtain ⟨sh, rfl⟩ := p2 c hc; rfl
    · rw [hc]; rfl
    · rw [hc]; rfl
    · exact p4 c hc
  · rw [List.append_assoc, meshesDrawn_append_of_setup _ _ p2]
    show meshesDrawn c4 = _
    rw [q4, hmc]
  · intro c hc
    rcases List.mem_append.mp hc with hc | hc
    · obtain ⟨sh, rfl⟩ := p6 c hc; rfl
    · rw [List.mem_singleton.mp hc]; rfl

theorem split_after_prefix {α : Type} {A B pre post : List α} {x : α} (hx : x ∉ A)
    (h : A ++ B = pre ++ x :: post) : ∃ B1, pre = A ++ B1 ∧ B = B1 ++ x :: post := by
  rcases List.append_eq_append_iff.mp h with ⟨a, h1, h2⟩ | ⟨c, h1, h2⟩
  · exact ⟨a, h1, h2⟩
  · cases c with
    | nil => exact ⟨[], by simpa using h1.symm, by simpa using h2.symm⟩
    | cons y c =>
      simp only [List.cons_append, List.cons.injEq] at h2
      exact absurd (by rw [h1, h2.1]; simp) hx

theorem depthTestAfter_append (b : Bool) (l1 l2 : List RenderCommand) :
    depthTestAfter b (l1 ++ l2) = depthTestAfter (depthTestAfter b l1) l2 := by
  induction l1 generalizing b with
  | nil => rfl
  | cons c l1 ih =>
    cases c with
    | glEnable cap => cases cap <;> simp [depthTestAfter, ih]
    | glDisable cap => cases cap <;> simp [depthTestAfter, ih]
    | _ => simp [depthTestAfter, ih]

theorem depthTestAfter_of_no_toggle (b : Bool) (l : List RenderCommand)
    (h : ∀ c ∈ l, c ≠ .glEnable .depthTest ∧ c ≠ .glDisable .depthTest) :
    depthTestAfter b l = b := by
  induction l with
  | nil => rfl
  | cons c l ih =>
    have hc := h c (List.mem_cons_self _ _)
    have ih2 := ih (fun c hc => h c (List.mem_cons_of_mem _ hc))
    cases c with
    | glEnable cap =>
      cases cap
      · exact absurd rfl hc.1
      · simpa [depthTestAfter] using ih2
    | glDisable cap =>
      cases cap
      · exact absurd rfl hc.2
      · simpa [depthTestAfter] using ih2
    | _ => simpa [depthTestAfter] using ih2

theorem spritesDrawn_append (cs ds : List RenderCommand) :
    spritesDrawn (cs ++ ds) = spritesDrawn cs ++ spritesDrawn ds := by
  induction cs with
  | nil => rfl
  | cons c cs ih => cases c <;> simp [spritesDrawn, ih]

theorem spritesDrawn_of_none (cs : List RenderCommand)
    (h : ∀ c ∈ cs, ∀ s sh, c ≠ RenderCommand.spriteDraw s sh) : spritesDrawn cs = [] := by
  induction cs with
  | nil => rfl
  | cons c cs ih =>
    have hc := h c (List.mem_cons_self _ _)
    have ih2 := ih (fun c hc => h c (List.mem_cons_of_mem _ hc))
    cases c with
    | spriteDraw s sh => exact absurd rfl (hc s sh)
    | _ => simpa [spritesDrawn] using ih2

theorem spritesDrawn_map (ss : List Nat) (sh : Option Nat) :
    spritesDrawn (ss.map (fun s => RenderCommand.spriteDraw s sh)) = ss := by
  induction ss with
  | nil => rfl
  | cons s ss ih => simp [spritesDrawn, ih]

theorem inMeshPhase_props {c : RenderCommand} (h : c.inMeshPhase = true) :
    (∀ s sh, c ≠ .spriteDraw s sh) ∧ c ≠ .glEnable .depthTest ∧ c ≠ .glDisable .depthTest := by
  cases c <;> simp [RenderCommand.inMeshPhase] at h ⊢

theorem inSpriteSetup_props {c : RenderCommand} (h : c.inSpriteSetup = true) :
    (∀ s sh, c ≠ .spriteDraw s sh) ∧ c ≠ .glEnable .depthTest ∧ c ≠ .glDisable .depthTest := by
  cases c <;> simp [RenderCommand.inSpriteSetup] at h ⊢

/-- Where a sprite draw can stand in a frame: after the blend set-up, with the depth
test disabled, and with no mesh draw after it. -/
theorem framePhases_sprite (mesh setup : List RenderCommand) (sprites : List Nat)
    (sh0 : Option Nat) (hm : ∀ c ∈ mesh, c.inMeshPhase = true)
    (hs : ∀ c ∈ setup, c.inSpriteSetup = true)
    (pre post : List RenderCommand) (s : Nat) (sh : Option Nat)
    (h : framePhases mesh setup sprites sh0 = pre ++ .spriteDraw s sh :: post) :
    (∀ b, depthTestAfter b pre = false) ∧ (∀ mc sh2, RenderCommand.meshDraw mc sh2 ∉ post) := by
  have hA : RenderCommand.spriteDraw s sh ∉
      [.glClearColor, .glClear, .glEnable .depthTest, .glDisable .blend] ++ mesh ++
      [.glDisable .depthTest, .glEnable .blend, .glBlendEquationSeparate,
        .glBlendFuncSeparate] ++ setup := by
    intro hin
    simp only [List.mem_append, List.mem_cons, List.mem_singleton, List.not_mem_nil,
      or_false] at hin
    rcases hin with ((hin | hin) | hin) | hin
    · rcases hin with h1 | h1 | h1 | h1 <;> cases h1
    · exact (inMeshPhase_props (hm _ hin)).1 s sh rfl
    · rcases hin with h1 | h1 | h1 | h1 <;> cases h1
    · exact (inSpriteSetup_props (hs _ hin)).1 s sh rfl
  have h2 : ([.glClearColor, .glClear, .glEnable .depthTest, .glDisable .blend] ++ mesh ++
      [.glDisable .depthTest, .glEnable .blend, .glBlendEquationSeparate,
        .glBlendFuncSeparate] ++ setup) ++
      (sprites.map (fun s => RenderCommand.spriteDraw s sh0) ++ [.swapWindow])
      = pre ++ .spriteDraw s sh :: post := by
    rw [← h]; simp [framePhases]
  obtain ⟨B1, hpre, hB⟩ := split_after_prefix hA h2
  have hB1 : ∀ c ∈ B1, c ≠ .glEnable .depthTest ∧ c ≠ .glDisable .depthTest := by
    intro c hc
    have : c ∈ sprites.map (fun s => RenderCommand.spriteDraw s sh0) ++ [.swapWindow] := by
      rw [hB]; exact List.mem_append_left _ hc
    simp only [List.mem_append, List.mem_map, List.mem_singleton] at this
    rcases this with ⟨x, _, rfl⟩ | rfl <;> simp
  have hpost : ∀ c ∈ post, ∀ mc sh2, c ≠ RenderCommand.meshDraw mc sh2 := by
    intro c hc
    have : c ∈ sprites.map (fun s => RenderCommand.spriteDraw s sh0) ++ [.swapWindow] := by
      rw [hB]; exact List.mem_append_right _ (List.mem_cons_of_mem _ hc)
    simp only [List.mem_append, List.mem_map, List.mem_singleton] at this
    rcases this with ⟨x, _, rfl⟩ | rfl <;> simp
  refine ⟨fun b => ?_, fun mc sh2 hin => hpost _ hin mc sh2 rfl⟩
  rw [hpre]
  simp only [depthTestAfter_append]
  rw [depthTestAfter_of_no_toggle _ B1 hB1,
    depthTestAfter_of_no_toggle _ setup (fun c hc => (inSpriteSetup_props (hs c hc)).2)]
  simp only [depthTestAfter]

theorem spritesDrawn_framePhases (mesh setup : List RenderCommand) (sprites : List Nat)
    (sh0 : Option Nat) (hm : ∀ c ∈ mesh, c.inMeshPhase = true)
    (hs : ∀ c ∈ setup, c.inSpriteSetup = true) :
    spritesDrawn (framePhases mesh setup sprites sh0) = sprites := by
  unfold framePhases
  simp only [spritesDrawn_append, spritesDrawn_map]
  rw [spritesDrawn_of_none mesh (fun c hc => (inMeshPhase_props (hm c hc)).1),
    spritesDrawn_of_none setup (fun c hc => (inSpriteSetup_props (hs c hc)).1)]
  simp [spritesDrawn]

theorem SetCurrentShader_pointers (r : Renderer) (name : String) :
    (r.SetCurrentShader name).pSpriteVerts = r.pSpriteVerts ∧
    (r.SetCurrentShader name).pCurrentShader
      = (match r.mShaders.lookup name with
        | some sh => some sh
        | none => r.pCurrentShader) := by
  unfold Renderer.SetCurrentShader
  cases r.mShaders.lookup name <;> exact ⟨rfl, rfl⟩

theorem meshDraws_pSpriteVerts (mcs : List Nat) (r : Renderer) :
    (mcs.foldl (fun r1 mc => r1.issue [.meshDraw mc r1.pCurrentShader]) r).pSpriteVerts
      = r.pSpriteVerts := by
  induction mcs generalizing r with
  | nil => rfl
  | cons mc mcs ih => exact ih _

theorem partitions_pSpriteVerts (ps : List (String × List Nat)) (r : Renderer) :
    (ps.foldl Renderer.drawPartition r).pSpriteVerts = r.pSpriteVerts := by
  induction ps generalizing r with
  | nil => rfl
  | cons p ps ih =>
    simp only [List.foldl_cons]
    rw [ih]
    unfold Renderer.drawPartition
    rw [meshDraws_pSpriteVerts]
    exact (SetCurrentShader_pointers r p.1).1

/-- The current shader at the first dereference of `Draw`: the "Mesh" shader when
it is loaded, the shader that was current otherwise. -/
theorem meshShader_at_deref (r : Renderer) :
    ((r.issue [.glClearColor, .glClear, .glEnable .depthTest,
      .glDisable .blend]).SetCurrentShader meshShaderName).pCurrentShader
      = (match r.mShaders.lookup meshShaderName with
        | some sh => some sh
        | none => r.pCurrentShader) :=
  (SetCurrentShader_pointers _ _).2

/-- When the current shader is set at the first dereference and the sprite vertex
array is set, `Draw` returns; its result is that of `drawCalls`. -/
theorem Draw_of_pointers (r : Renderer) (sh v : Nat)
    (hsh : (match r.mShaders.lookup meshShaderName with
        | some sh => some sh
        | none => r.pCurrentShader) = some sh)
    (hsv : r.pSpriteVerts = some v) : r.Draw = some r.drawCalls := by
  have h2 := (meshShader_at_deref r).trans hsh
  have h6 : ∀ r3 : Renderer, r3.pSpriteVerts = r.pSpriteVerts →
      (((r3.mMeshComps.foldl Renderer.drawPartition r3).issue
        [.glDisable .depthTest, .glEnable .blend, .glBlendEquationSeparate,
          .glBlendFuncSeparate]).SetCurrentShader spriteShaderName).pSpriteVerts = some v := by
    intro r3 h3
    rw [(SetCurrentShader_pointers _ _).1]
    show (r3.mMeshComps.foldl Renderer.drawPartition r3).pSpriteVerts = some v
    rw [partitions_pSpriteVerts, h3, hsv]
  have h3 : ∀ cs, (((r.issue [.glClearColor, .glClear, .glEnable .depthTest,
      .glDisable .blend]).SetCurrentShader meshShaderName).issue cs).pSpriteVerts
      = r.pSpriteVerts := fun cs => (SetCurrentShader_pointers (r.issue _) _).1
  unfold Renderer.Draw Renderer.drawCalls
  simp only [h2, h6 _ (h3 _)]

/-- The method `Draw` fails exactly when no shader is current after
`SetCurrentShader("Mesh")` or the sprite vertex array is null. -/
theorem Draw_eq_none_iff (r : Renderer) :
    r.Draw = none ↔
      (r.mShaders.lookup meshShaderName = none ∧ r.pCurrentShader = none) ∨
      r.pSpriteVerts = none := by
  constructor
  · intro h
    by_contra hc
    rw [not_or] at hc
    obtain ⟨hc1, hc2⟩ := hc
    obtain ⟨v, hv⟩ := Option.ne_none_iff_exists'.mp hc2
    have : ∃ sh, (match r.mShaders.lookup meshShaderName with
        | some sh => some sh
        | none => r.pCurrentShader) = some sh := by
      cases hl : r.mShaders.lookup meshShaderName with
      | some sh => exact ⟨sh, rfl⟩
      | none =>
        cases hp : r.pCurrentShader with
        | some sh => exact ⟨sh, rfl⟩
        | none => exact absurd ⟨hl, hp⟩ hc1
    obtain ⟨sh, hsh⟩ := this
    rw [Draw_of_pointers r sh v hsh hv] at h
    exact Option.noConfusion h
  · rintro (⟨h1, h2⟩ | h)
    · have h3 := meshShader_at_deref r
      rw [h1, h2] at h3
      unfold Renderer.Draw
      simp only [h3]
    · unfold Renderer.Draw
      cases h2 : ((r.issue [.glClearColor, .glClear, .glEnable .depthTest,
          .glDisable .blend]).SetCurrentShader meshShaderName).pCurrentShader with
      | none => simp only [h2]
      | some sh =>
        have h3 : ∀ cs, (((r.issue [.glClearColor, .glClear, .glEnable .depthTest,
            .glDisable .blend]).SetCurrentShader meshShaderName).issue cs).pSpriteVerts
            = r.pSpriteVerts := fun cs => (SetCurrentShader_pointers (r.issue _) _).1
        have h6 : ∀ r3 : Renderer, r3.pSpriteVerts = r.pSpriteVerts →
            (((r3.mMeshComps.foldl Renderer.drawPartition r3).issue
              [.glDisable .depthTest, .glEnable .blend, .glBlendEquationSeparate,
                .glBlendFuncSeparate]).SetCurrentShader spriteShaderName).pSpriteVerts
              = none := by
          intro r3 h3
          rw [(SetCurrentShader_pointers _ _).1]
          show (r3.mMeshComps.foldl Renderer.drawPartition r3).pSpriteVerts = none
          rw [partitions_pSpriteVerts, h3, h]
        simp only [h2, h6 _ (h3 _)]

/-- C8, as worded, fails: in the renderer that the constructor leaves (no shader
loaded, current shader null) `Draw` dereferences the null current shader right
after `SetCurrentShader("Mesh")` and issues no complete frame; and in a renderer
whose sprite list holds sprite 2 twice, `Draw` draws that sprite twice. -/
theorem Draw_null_shader :
    unloadedRenderer.mShaders.lookup meshShaderName = none ∧
    unloadedRenderer.pCurrentShader = none ∧
    unloadedRenderer.Draw = none ∧
    doubledSpriteRenderer.mSprites = [1, 2, 2] ∧
    doubledSpriteRenderer.Draw.map (fun r => spritesDrawn r.commands) = some [1, 2, 2] ∧
    doubledSpriteRenderer.Draw.map (fun r => (spritesDrawn r.commands).count 2) = some 2 := by
  refine ⟨by decide, rfl, rfl, rfl, by decide, by decide⟩

/-- C8, amended: `Renderer::Draw` fails (null dereference) exactly when no shader
is current after `SetCurrentShader("Mesh")` or the sprite vertex array is null.
Otherwise it returns, and the commands it issued are, in this order: clear; depth
test enabled, blending disabled; the mesh phase (only shader activations, uniform
uploads and mesh draws), which draws every mesh component of every partition;
depth test disabled, blending enabled; the sprite set-up; one draw per entry of the
sprite list, in list order (so exactly one per sprite when the list has no
duplicate); the buffer swap.  Hence a sprite draw is issued only with the depth
test disabled, and no mesh draw follows a sprite draw. -/
theorem Draw_frame_order (r : Renderer) :
    (r.Draw = none ↔
      (r.mShaders.lookup meshShaderName = none ∧ r.pCurrentShader = none) ∨
      r.pSpriteVerts = none) ∧
    (¬ (r.mShaders.lookup meshShaderName = none ∧ r.pCurrentShader = none) →
      r.pSpriteVerts ≠ none →
      ∃ r2 mesh setup,
        r.Draw = some r2 ∧
        r2.commands = r.commands ++ framePhases mesh setup r.mSprites r2.pCurrentShader ∧
        (∀ c ∈ mesh, c.inMeshPhase = true) ∧
        meshesDrawn mesh = allMeshComps r.mMeshComps ∧
        (∀ c ∈ setup, c.inSpriteSetup = true) ∧
        spritesDrawn (framePhases mesh setup r.mSprites r2.pCurrentShader) = r.mSprites ∧
        (r.mSprites.Nodup → ∀ s ∈ r.mSprites,
          (spritesDrawn (framePhases mesh setup r.mSprites r2.pCurrentShader)).count s = 1) ∧
        ∀ pre post s sh,
          framePhases mesh setup r.mSprites r2.pCurrentShader
            = pre ++ .spriteDraw s sh :: post →
          (∀ b, depthTestAfter b pre = false) ∧
          (∀ mc sh2, RenderCommand.meshDraw mc sh2 ∉ post)) := by
  refine ⟨Draw_eq_none_iff r, fun h1 h2 => ?_⟩
  have hne : r.Draw ≠ none := fun h => by
    rcases (Draw_eq_none_iff r).mp h with h3 | h3
    · exact h1 h3
    · exact h2 h3
  obtain ⟨v, hv⟩ := Option.ne_none_iff_exists'.mp h2
  have hsome : r.Draw = some r.drawCalls := by
    cases hl : r.mShaders.lookup meshShaderName with
    | some sh => exact Draw_of_pointers r sh v (by rw [hl]) hv
    | none =>
      cases hp : r.pCurrentShader with
      | some sh => exact Draw_of_pointers r sh v (by rw [hl, hp]) hv
      | none => exact absurd ⟨hl, hp⟩ h1
  obtain ⟨mesh, setup, k1, k2, k3, k4⟩ := drawCalls_phases r
  have hsp := spritesDrawn_framePhases mesh setup r.mSprites r.drawCalls.pCurrentShader k2 k4
  refine ⟨r.drawCalls, mesh, setup, hsome, k1, k2, k3, k4, hsp, ?_,
    fun pre post s sh h => framePhases_sprite _ _ _ _ k2 k4 pre post s sh h⟩
  intro hnd s hs
  rw [hsp]
  exact List.count_eq_one_of_mem hnd hs

theorem Draw_frame_order_witness :
    ¬ (sampleRenderer.mShaders.lookup meshShaderName = none ∧
        sampleRenderer.pCurrentShader = none) ∧
    sampleRenderer.pSpriteVerts ≠ none ∧
    sampleRenderer.Draw.map (fun r => r.commands) = some
      [.glClearColor, .glClear, .glEnable .depthTest, .glDisable .blend,
       .shaderSetActive 11, .setViewProj (some 11), .setLightUniforms (some 11),
       .shaderSetActive 11, .meshDraw 20 (some 11), .meshDraw 21 (some 11),
       .meshDraw 22 (some 11),
       .glDisable .depthTest, .glEnable .blend, .glBlendEquationSeparate, .glBlendFuncSeparate,
       .shaderSetActive 10, .spriteVertsSetActive,
       .spriteDraw 1 (some 10), .spriteDraw 2 (some 10), .spriteDraw 0 (some 10),
       .swapWindow] ∧
    ∃ r2 mesh setup, sampleRenderer.Draw = some r2 ∧
      spritesDrawn (framePhases mesh setup sampleRenderer.mSprites r2.pCurrentShader)
        = sampleRenderer.mSprites :=
  ⟨by decide, by decide, by decide,
   let ⟨r2, mesh, setup, h1, _, _, _, _, h6, _⟩ :=
     (Draw_frame_order sampleRenderer).2 (by decide) (by decide)
   ⟨r2, mesh, setup, h1, h6⟩⟩

/-! ## Lemmas on `AIComponent` -/

theorem lookup_mem {k : String} {v : Nat} {l : List (String × Nat)}
    (h : l.lookup k = some v) : (k, v) ∈ l := by
  induction l with
  | nil => simp at h
  | cons p l ih =>
    obtain ⟨k2, v2⟩ := p
    rw [List.lookup_cons] at h
    by_cases hk : k = k2
    · subst hk
      simp at h
      simp [h]
    · have : (k == k2) = false := by simpa using hk
      rw [this] at h
      exact List.mem_cons_of_mem _ (ih h)

theorem lookup_append_of_some {k : String} {v : Nat} {l : List (String × Nat)}
    (l2 : List (String × Nat)) (h : l.lookup k = some v) : (l ++ l2).lookup k = some v := by
  induction l with
  | nil => simp at h
  | cons p l ih =>
    obtain ⟨k2, v2⟩ := p
    rw [List.cons_append, List.lookup_cons] at *
    by_cases hk : (k == k2) = true
    · rw [hk] at h ⊢; exact h
    · have hk2 : (k == k2) = false := by simpa using hk
      rw [hk2] at h ⊢
      exact ih h

theorem wellFormed_of_reachable {getName : Nat → String} {c : AIComponent}
    (h : AIComponent.Reachable getName c) : c.WellFormed getName := by
  induction h with
  | new => exact ⟨by simp [AIComponent.new], by simp [AIComponent.new]⟩
  | @step c op _ ih =>
    obtain ⟨w1, w2⟩ := ih
    have henter : ∀ (d : AIComponent) (name : String), d.mStateMap = c.mStateMap →
        (d.enter name).WellFormed getName := by
      intro d name hd
      unfold AIComponent.enter
      cases hl : d.mStateMap.lookup name with
      | none => exact ⟨fun p hp => w1 p (hd ▸ hp), by simp⟩
      | some s =>
        refine ⟨fun p hp => w1 p (hd ▸ hp), ?_⟩
        intro cur hcur
        simp only [Option.some.injEq] at hcur
        subst hcur
        have hm := lookup_mem hl
        rw [hd] at hm
        have := w1 _ hm
        simp only at this
        rw [this]
        exact hl
    cases op with
    | update =>
      show (c.Update).WellFormed getName
      unfold AIComponent.Update
      cases hc : c.pCurrentState with
      | none => exact ⟨w1, by simp [hc]⟩
      | some s => exact ⟨w1, fun cur h => w2 cur (by simpa [hc] using h)⟩
    | changeState name =>
      show (c.ChangeState getName name).WellFormed getName
      unfold AIComponent.ChangeState
      cases hc : c.pCurrentState with
      | none => exact henter c name rfl
      | some cur =>
        by_cases hn : getName cur = name
        · simp only [hn, if_true]
          exact ⟨w1, w2⟩
        · simp only [hn, if_false]
          exact henter _ name rfl
    | registerState s =>
      show (c.RegisterState getName s).WellFormed getName
      unfold AIComponent.RegisterState
      cases hl : c.mStateMap.lookup (getName s) with
      | some _ => exact ⟨w1, w2⟩
      | none =>
        refine ⟨?_, ?_⟩
        · intro p hp
          rcases List.mem_append.mp hp with hp | hp
          · exact w1 p hp
          · rw [List.mem_singleton.mp hp]
        · intro cur hcur
          exact lookup_append_of_some _ (w2 cur hcur)

/-- C9: in a component produced by the constructor and the public interface, where
the name `X` is registered to state `s` and `s` is not the current state,
`ChangeState(X)` exits the current state (if any) and enters `s`; a second
`ChangeState(X)` finds the current state named `X` and returns the component as it
is: no `OnEnter`, no `OnExit`, same current state.  So the two calls invoke the
`OnEnter` of `s` exactly once. -/
theorem ChangeState_twice (getName : Nat → String) (c : AIComponent)
    (hr : AIComponent.Reachable getName c) (X : String) (s : Nat)
    (hreg : c.mStateMap.lookup X = some s) (hcur : c.pCurrentState ≠ some s) :
    getName s = X ∧
    (c.ChangeState getName X).pCurrentState = some s ∧
    (c.ChangeState getName X).calls = c.calls ++ exitEvents c.pCurrentState ++ [.onEnter s] ∧
    (c.ChangeState getName X).ChangeState getName X = c.ChangeState getName X ∧
    ((c.ChangeState getName X).ChangeState getName X).calls
      = c.calls ++ exitEvents c.pCurrentState ++ [.onEnter s] ∧
    (exitEvents c.pCurrentState ++ [AIEvent.onEnter s]).count (.onEnter s) = 1 := by
  obtain ⟨w1, w2⟩ := wellFormed_of_reachable hr
  have hname : getName s = X := w1 _ (lookup_mem hreg)
  have hfirst : (c.ChangeState getName X).pCurrentState = some s ∧
      (c.ChangeState getName X).calls
        = c.calls ++ exitEvents c.pCurrentState ++ [.onEnter s] := by
    unfold AIComponent.ChangeState
    cases hc : c.pCurrentState with
    | none => simp [AIComponent.enter, hreg, exitEvents]
    | some cur =>
      have hne : getName cur ≠ X := by
        intro h
        have h2 := w2 cur hc
        rw [h, hreg] at h2
        exact hcur (by rw [hc, Option.some.inj h2])
      simp [hne, AIComponent.enter, hreg, exitEvents]
  have hsecond : (c.ChangeState getName X).ChangeState getName X = c.ChangeState getName X := by
    generalize c.ChangeState getName X = c1 at hfirst
    unfold AIComponent.ChangeState
    simp [hfirst.1, hname]
  refine ⟨hname, hfirst.1, hfirst.2, hsecond, by rw [hsecond]; exact hfirst.2, ?_⟩
  cases c.pCurrentState <;> simp [exitEvents]

theorem ChangeState_twice_witness :
    enemyAI.mStateMap.lookup (enemyStateName 2) = some 2 ∧ enemyAI.pCurrentState ≠ some 2 ∧
    ((enemyAI.ChangeState enemyStateName (enemyStateName 2)).ChangeState enemyStateName
      (enemyStateName 2)).calls = [.onEnter 1, .onExit 1, .onEnter 2] :=
  ⟨by decide, by decide,
   (ChangeState_twice enemyStateName enemyAI
      (.step (.changeState (enemyStateName 1))
        (.step (.registerState 2) (.step (.registerState 1) .new)))
      (enemyStateName 2) 2 (by decide) (by decide)).2.2.2.2.1.trans (by decide)⟩

theorem run_without_state (getName : Nat → String) (ops : List AIOp) (c : AIComponent)
    (hc : c.pCurrentState = none) (hv : noValidChange getName c ops = true) :
    (c.run getName ops).pCurrentState = none ∧
    ∃ extra, (c.run getName ops).calls = c.calls ++ extra ∧
      ∀ s, AIEvent.stateUpdate s ∉ extra := by
  induction ops generalizing c with
  | nil => exact ⟨hc, [], by simp [AIComponent.run], by simp⟩
  | cons op ops ih =>
    cases op with
    | update =>
      have e : c.Update = c := by simp [AIComponent.Update, hc]
      simp only [noValidChange, e] at hv
      have := ih c hc hv
      simpa [AIComponent.run, AIComponent.step, e] using this
    | changeState name =>
      simp only [noValidChange, Bool.and_eq_true, Option.isNone_iff_eq_none] at hv
      have e1 : (c.ChangeState getName name).pCurrentState = none := by
        simp [AIComponent.ChangeState, hc, AIComponent.enter, hv.1]
      have e2 : (c.ChangeState getName name).calls = c.calls ++ [.logNotFound name] := by
        simp [AIComponent.ChangeState, hc, AIComponent.enter, hv.1]
      obtain ⟨h1, extra, h2, h3⟩ := ih (c.ChangeState getName name) e1 hv.2
      refine ⟨h1, [.logNotFound name] ++ extra, ?_, ?_⟩
      · show ((c.ChangeState getName name).run getName ops).calls = _
        rw [h2, e2, List.append_assoc]
      · intro s hs
        rcases List.mem_append.mp hs with hs | hs
        · simp at hs
        · exact h3 s hs
    | registerState st =>
      simp only [noValidChange] at hv
      have e1 : (c.RegisterState getName st).pCurrentState = none := by
        unfold AIComponent.RegisterState
        cases c.mStateMap.lookup (getName st) <;> exact hc
      have e2 : (c.RegisterState getName st).calls = c.calls := by
        unfold AIComponent.RegisterState
        cases c.mStateMap.lookup (getName st) <;> rfl
      obtain ⟨h1, extra, h2, h3⟩ := ih (c.RegisterState getName st) e1 hv
      exact ⟨h1, extra, by
        show ((c.RegisterState getName st).run getName ops).calls = _
        rw [h2, e2], h3⟩

/-- C10: in a component produced by the constructor and the public interface,
`ChangeState` to a name that is not registered returns a component with no current
state (after the `OnExit` of the former current state, if any, and the
diagnostic); from then on, as long as no `ChangeState` names a state registered at
the time of the call, the component keeps having no current state and `Update`
calls the `Update` of no state. -/
theorem ChangeState_unregistered (getName : Nat → String) (c : AIComponent)
    (hr : AIComponent.Reachable getName c) (name : String)
    (hn : c.mStateMap.lookup name = none) :
    (c.ChangeState getName name).pCurrentState = none ∧
    (c.ChangeState getName name).calls
      = c.calls ++ exitEvents c.pCurrentState ++ [.logNotFound name] ∧
    (c.ChangeState getName name).Update = c.ChangeState getName name ∧
    ∀ ops, noValidChange getName (c.ChangeState getName name) ops = true →
      ((c.ChangeState getName name).run getName ops).pCurrentState = none ∧
      ∃ extra, ((c.ChangeState getName name).run getName ops).calls
          = (c.ChangeState getName name).calls ++ extra ∧
        ∀ s, AIEvent.stateUpdate s ∉ extra := by
  obtain ⟨_, w2⟩ := wellFormed_of_reachable hr
  have hfirst : (c.ChangeState getName name).pCurrentState = none ∧
      (c.ChangeState getName name).calls
        = c.calls ++ exitEvents c.pCurrentState ++ [.logNotFound name] := by
    unfold AIComponent.ChangeState
    cases hc : c.pCurrentState with
    | none => simp [AIComponent.enter, hn, exitEvents]
    | some cur =>
      have hne : getName cur ≠ name := by
        intro h
        have h2 := w2 cur hc
        rw [h, hn] at h2
        cases h2
      simp [hne, AIComponent.enter, hn, exitEvents]
  refine ⟨hfirst.1, hfirst.2, ?_, fun ops hv => run_without_state getName ops _ hfirst.1 hv⟩
  simp [AIComponent.Update, hfirst.1]

theorem ChangeState_unregistered_witness :
    enemyAI.mStateMap.lookup "Attack" = none ∧
    (enemyAI.ChangeState enemyStateName "Attack").pCurrentState = none ∧
    ((enemyAI.ChangeState enemyStateName "Attack").run enemyStateName
      [.update, .changeState "Flee", .update]).calls
      = [.onEnter 1, .onExit 1, .logNotFound "Attack", .logNotFound "Flee"] :=
  ⟨by decide,
   (ChangeState_unregistered enemyStateName enemyAI
      (.step (.changeState (enemyStateName 1))
        (.step (.registerState 2) (.step (.registerState 1) .new)))
      "Attack" (by decide)).1,
   by decide⟩

/-! ## AIComponent: transitions and registration -/

/-- C11: with a current state `A` and a requested name different from the name of
`A`, `ChangeState` logs the `OnExit` of `A` once, first, and then the outcome of
the lookup: when the name is registered to `B`, the `OnEnter` of `B` once, and `B`
is current; otherwise the diagnostic, and no state is current.  Nothing else is
logged.  With no current state no `OnExit` is logged. -/
theorem ChangeState_hooks (getName : Nat → String) (c : AIComponent) (name : String) :
    (∀ A, c.pCurrentState = some A → getName A ≠ name →
      (c.ChangeState getName name).calls = c.calls ++ [.onExit A] ++ lookupEvents c name ∧
      (c.ChangeState getName name).pCurrentState = c.mStateMap.lookup name ∧
      (∀ B, c.mStateMap.lookup name = some B →
        (c.ChangeState getName name).calls = c.calls ++ [.onExit A, .onEnter B] ∧
        (c.ChangeState getName name).pCurrentState = some B)) ∧
    (c.pCurrentState = none →
      (c.ChangeState getName name).calls = c.calls ++ lookupEvents c name ∧
      (c.ChangeState getName name).pCurrentState = c.mStateMap.lookup name ∧
      ∀ s, AIEvent.onExit s ∉ lookupEvents c name) := by
  refine ⟨fun A hA hne => ?_, fun hnone => ?_⟩
  · have hbase : (c.ChangeState getName name).calls
          = c.calls ++ [.onExit A] ++ lookupEvents c name ∧
        (c.ChangeState getName name).pCurrentState = c.mStateMap.lookup name := by
      unfold AIComponent.ChangeState AIComponent.enter lookupEvents
      simp only [hA, hne, if_false]
      cases c.mStateMap.lookup name <;> simp
    refine ⟨hbase.1, hbase.2, fun B hB => ?_⟩
    rw [hbase.1, hbase.2, hB]
    simp [lookupEvents, hB]
  · have hbase : (c.ChangeState getName name).calls = c.calls ++ lookupEvents c name ∧
        (c.ChangeState getName name).pCurrentState = c.mStateMap.lookup name := by
      unfold AIComponent.ChangeState AIComponent.enter lookupEvents
      simp only [hnone]
      cases c.mStateMap.lookup name <;> simp
    refine ⟨hbase.1, hbase.2, fun s hs => ?_⟩
    unfold lookupEvents at hs
    cases h : c.mStateMap.lookup name <;> simp [h] at hs

theorem ChangeState_hooks_witness :
    enemyAI.pCurrentState = some 1 ∧ enemyStateName 1 ≠ enemyStateName 2 ∧
    enemyAI.mStateMap.lookup (enemyStateName 2) = some 2 ∧
    (enemyAI.ChangeState enemyStateName (enemyStateName 2)).calls
      = enemyAI.calls ++ [.onExit 1, .onEnter 2] ∧
    (enemyAI.ChangeState enemyStateName (enemyStateName 2)).pCurrentState = some 2 :=
  ⟨by decide, by decide, by decide,
   ((ChangeState_hooks enemyStateName enemyAI (enemyStateName 2)).1 1 (by decide)
      (by decide)).2.2 2 (by decide)⟩

theorem lookup_append_of_none {k : String} {l : List (String × Nat)}
    (l2 : List (String × Nat)) (h : l.lookup k = none) : (l ++ l2).lookup k = l2.lookup k := by
  induction l with
  | nil => rfl
  | cons p l ih =>
    obtain ⟨k2, v2⟩ := p
    rw [List.cons_append, List.lookup_cons] at *
    by_cases hk : (k == k2) = true
    · rw [hk] at h; simp at h
    · have hk2 : (k == k2) = false := by simpa using hk
      rw [hk2] at h ⊢
      exact ih h

/-- C12: `RegisterState` is insert-if-absent.  When the name of the new state
already maps to a state, the component is returned unchanged, so a later
`ChangeState` to that name behaves as before and, when it enters a state, enters
the one registered first.  When the name is not yet present, the map gains the
one entry for that name, the lookup of every other name is as before, and nothing
else changes. -/
theorem RegisterState_insert_if_absent (getName : Nat → String) (c : AIComponent)
    (s2 : Nat) :
    (∀ s1, c.mStateMap.lookup (getName s2) = some s1 →
      c.RegisterState getName s2 = c ∧
      (c.RegisterState getName s2).mStateMap.lookup (getName s2) = some s1 ∧
      ((∀ cur, c.pCurrentState = some cur → getName cur ≠ getName s2) →
        ((c.RegisterState getName s2).ChangeState getName (getName s2)).pCurrentState
          = some s1 ∧
        ((c.RegisterState getName s2).ChangeState getName (getName s2)).calls
          = c.calls ++ exitEvents c.pCurrentState ++ [.onEnter s1])) ∧
    (c.mStateMap.lookup (getName s2) = none →
      (c.RegisterState getName s2).mStateMap = c.mStateMap ++ [(getName s2, s2)] ∧
      (c.RegisterState getName s2).mStateMap.lookup (getName s2) = some s2 ∧
      (∀ k, k ≠ getName s2 →
        (c.RegisterState getName s2).mStateMap.lookup k = c.mStateMap.lookup k) ∧
      (c.RegisterState getName s2).pCurrentState = c.pCurrentState ∧
      (c.RegisterState getName s2).calls = c.calls) := by
  refine ⟨fun s1 h1 => ?_, fun hn => ?_⟩
  · have e : c.RegisterState getName s2 = c := by
      simp [AIComponent.RegisterState, h1]
    refine ⟨e, by rw [e]; exact h1, fun hcur => ?_⟩
    rw [e]
    unfold AIComponent.ChangeState AIComponent.enter
    cases hc : c.pCurrentState with
    | none => simp [h1, exitEvents]
    | some cur => simp [hcur cur hc, h1, exitEvents]
  · have e : (c.RegisterState getName s2).mStateMap = c.mStateMap ++ [(getName s2, s2)] := by
      simp [AIComponent.RegisterState, hn]
    refine ⟨e, ?_, fun k hk => ?_, ?_, ?_⟩
    · rw [e, lookup_append_of_none _ hn]
      simp [List.lookup]
    · rw [e]
      cases hl : c.mStateMap.lookup k with
      | some v => exact lookup_append_of_some _ hl
      | none =>
        rw [lookup_append_of_none _ hl]
        have : (k == getName s2) = false := by simpa using hk
        simp [List.lookup, this]
    · simp [AIComponent.RegisterState, hn]
    · simp [AIComponent.RegisterState, hn]

theorem RegisterState_insert_if_absent_witness :
    enemyAI.mStateMap.lookup (enemyStateName3 3) = some 1 ∧
    enemyAI.RegisterState enemyStateName3 3 = enemyAI ∧
    (AIComponent.new.RegisterState enemyStateName3 1).mStateMap.lookup (enemyStateName3 3)
      = some 1 ∧
    AIComponent.new.mStateMap.lookup (enemyStateName3 1) = none ∧
    (AIComponent.new.RegisterState enemyStateName3 1).mStateMap = [("Patrol", 1)] :=
  ⟨by decide,
   ((RegisterState_insert_if_absent enemyStateName3 enemyAI 3).1 1 (by decide)).1,
   by decide, by decide,
   ((RegisterState_insert_if_absent enemyStateName3 AIComponent.new 1).2 (by decide)).1.trans
     (by decide)⟩

/-! ## Game: delta time -/

theorem roundHalfEven_spec (n d : Nat) (hd : 0 < d) :
    2 * n ≤ 2 * (roundHalfEven n d * d) + d ∧ 2 * (roundHalfEven n d * d) ≤ 2 * n + d := by
  have h1 : d * (n / d) + n % d = n := Nat.div_add_mod n d
  have h2 : n % d < d := Nat.mod_lt n hd
  unfold roundHalfEven
  simp only
  generalize n / d = q at h1 ⊢
  generalize n % d = r at h1 h2 ⊢
  have e1 : q * d = d * q := Nat.mul_comm _ _
  have e2 : (q + 1) * d = d * q + d := by ring
  split_ifs <;> constructor <;> (first | rw [e2] | rw [e1]) <;> omega

theorem zpow_two_split (e m : Int) (h : m ≤ e) :
    (2 : ℚ) ^ e = 2 ^ (e - m).toNat * 2 ^ m := by
  have h1 : ((e - m).toNat : Int) = e - m := Int.toNat_of_nonneg (by omega)
  rw [← zpow_natCast, h1, ← zpow_add₀ (by norm_num : (2 : ℚ) ≠ 0)]
  congr 1
  omega

theorem F32.toRat_split (a : F32) (m : Int) (h : m ≤ a.exp) :
    a.toRat = ((a.mant * 2 ^ (a.exp - m).toNat : Nat) : ℚ) * 2 ^ m := by
  unfold F32.toRat
  rw [zpow_two_split a.exp m h]
  push_cast
  ring

/-- The comparison `a > b` of `float` values is the comparison of the numbers they
denote. -/
theorem F32.gt_iff (a b : F32) : a.gt b = true ↔ b.toRat < a.toRat := by
  unfold F32.gt
  simp only [decide_eq_true_eq]
  rw [F32.toRat_split a (min a.exp b.exp) (min_le_left _ _),
    F32.toRat_split b (min a.exp b.exp) (min_le_right _ _)]
  have hp : (0 : ℚ) < 2 ^ (min a.exp b.exp) := zpow_pos (by norm_num) _
  rw [mul_lt_mul_right hp, Nat.cast_lt]

theorem F32.round_core (N D m : Nat) (x r s : ℚ) (hD : 0 < D) (hs : 0 < s)
    (hm1 : 2 * N ≤ 2 * (m * D) + D) (hm2 : 2 * (m * D) ≤ 2 * N + D)
    (hge : 2 ^ 23 * D ≤ N) (hx : x = m * s) (hr : r = (N : ℚ) / D * s) :
    r * (1 - 1 / 2 ^ 24) ≤ x ∧ x ≤ r * (1 + 1 / 2 ^ 24) := by
  have hDq : (0 : ℚ) < D := by exact_mod_cast hD
  have h1 : (2 : ℚ) * N ≤ 2 * (m * D) + D := by exact_mod_cast hm1
  have h2 : (2 : ℚ) * (m * D) ≤ 2 * N + D := by exact_mod_cast hm2
  have h3 : (2 : ℚ) ^ 23 * D ≤ N := by exact_mod_cast hge
  have a1 : (N : ℚ) / D * (1 - 1 / 2 ^ 24) ≤ m := by
    have : ((N : ℚ) / D * (1 - 1 / 2 ^ 24)) * D ≤ m * D := by
      have e : ((N : ℚ) / D * (1 - 1 / 2 ^ 24)) * D = N * (1 - 1 / 2 ^ 24) := by
        field_simp
        ring
      rw [e]
      norm_num at h3 ⊢
      linarith
    exact le_of_mul_le_mul_right this hDq
  have a2 : (m : ℚ) ≤ (N : ℚ) / D * (1 + 1 / 2 ^ 24) := by
    have : (m : ℚ) * D ≤ ((N : ℚ) / D * (1 + 1 / 2 ^ 24)) * D := by
      have e : ((N : ℚ) / D * (1 + 1 / 2 ^ 24)) * D = N * (1 + 1 / 2 ^ 24) := by
        field_simp
        ring
      rw [e]
      norm_num at h3 ⊢
      linarith
    exact le_of_mul_le_mul_right this hDq
  rw [hx, hr]
  constructor
  · calc (N : ℚ) / D * s * (1 - 1 / 2 ^ 24) = ((N : ℚ) / D * (1 - 1 / 2 ^ 24)) * s := by ring
      _ ≤ m * s := mul_le_mul_of_nonneg_right a1 hs.le
  · calc (m : ℚ) * s ≤ ((N : ℚ) / D * (1 + 1 / 2 ^ 24)) * s :=
        mul_le_mul_of_nonneg_right a2 hs.le
      _ = (N : ℚ) / D * s * (1 + 1 / 2 ^ 24) := by ring

/-- Rounding a quotient that lies in the normal range of `float` has a relative
error of at most `2 ^ (-24)`. -/
theorem F32.round_bounds (n d : Nat) (hd : 0 < d)
    (hlo : 2 ^ 24 * d ≤ n * 2 ^ 149) (hhi : n < 2 ^ 24 * (d * 2 ^ 104)) :
    ((n : ℚ) / d) * (1 - 1 / 2 ^ 24) ≤ (F32.round n d).toRat ∧
    (F32.round n d).toRat ≤ ((n : ℚ) / d) * (1 + 1 / 2 ^ 24) := by
  have hdq : (0 : ℚ) < d := by exact_mod_cast hd
  unfold F32.round
  cases hf : (List.range 254).find?
      (fun k => decide (n * 2 ^ (149 - k) < 2 ^ 24 * (d * 2 ^ (k - 149)))) with
  | none =>
    exfalso
    have h := List.find?_range_eq_none.mp hf 253 (by norm_num)
    simp at h
    omega
  | some k =>
    obtain ⟨hk, hmem, hmin⟩ := List.find?_range_eq_some.mp hf
    simp only [decide_eq_true_eq] at hk
    have hk0 : k ≠ 0 := by
      rintro rfl
      simp at hk
      omega
    have hprev := hmin (k - 1) (by omega)
    simp only [Bool.not_eq_true', decide_eq_false_iff_not, not_lt] at hprev
    have hspec := roundHalfEven_spec (n * 2 ^ (149 - k)) (d * 2 ^ (k - 149))
      (by positivity)
    simp only
    generalize roundHalfEven (n * 2 ^ (149 - k)) (d * 2 ^ (k - 149)) = m at hspec ⊢
    have hval : ∀ y : F32, y = (if m = 2 ^ 24 then (⟨2 ^ 23, (k : Int) - 148⟩ : F32)
        else ⟨m, (k : Int) - 149⟩) → y.toRat = m * 2 ^ ((k : Int) - 149) := by
      intro y hy
      by_cases hm : m = 2 ^ 24
      · rw [hy, if_pos hm, hm]
        unfold F32.toRat
        have : (k : Int) - 148 = ((k : Int) - 149) + 1 := by ring
        simp only [this, zpow_add₀ (by norm_num : (2 : ℚ) ≠ 0)]
        push_cast
        ring
      · rw [hy, if_neg hm]
        rfl
    rw [hval _ rfl]
    have hge : 2 ^ 23 * (d * 2 ^ (k - 149)) ≤ n * 2 ^ (149 - k) := by
      rcases Nat.lt_or_ge k 150 with h | h
      · have h1 : k - 149 = 0 := by omega
        have h2 : 149 - (k - 1) = (149 - k) + 1 := by omega
        have h3 : k - 1 - 149 = 0 := by omega
        rw [h2, h3, pow_succ 2 (149 - k)] at hprev
        rw [h1]
        simp only [pow_zero, mul_one] at hprev ⊢
        have : n * (2 ^ (149 - k) * 2) = 2 * (n * 2 ^ (149 - k)) := by ring
        rw [this] at hprev
        omega
      · have h1 : 149 - k = 0 := by omega
        have h2 : 149 - (k - 1) = 0 := by omega
        have h3 : k - 149 = (k - 1 - 149) + 1 := by omega
        rw [h2] at hprev
        rw [h1, h3, pow_succ 2 (k - 1 - 149)]
        simp only [pow_zero, mul_one] at hprev ⊢
        have : 2 ^ 23 * (d * (2 ^ (k - 1 - 149) * 2)) = 2 ^ 24 * (d * 2 ^ (k - 1 - 149)) := by
          ring
        rw [this]
        exact hprev
    have hs : (2 : ℚ) ^ ((k : Int) - 149) = 2 ^ (k - 149) / 2 ^ (149 - k) := by
      rcases Nat.lt_or_ge k 150 with h | h
      · have h1 : k - 149 = 0 := by omega
        have h2 : (k : Int) - 149 = -((149 - k : Nat) : Int) := by omega
        rw [h1, h2, zpow_neg, zpow_natCast]
        simp
      · have h1 : 149 - k = 0 := by omega
        have h2 : (k : Int) - 149 = ((k - 149 : Nat) : Int) := by omega
        rw [h1, h2, zpow_natCast]
        simp
    have hpos : (0 : ℚ) < 2 ^ ((k : Int) - 149) := zpow_pos (by norm_num) _
    refine F32.round_core (n * 2 ^ (149 - k)) (d * 2 ^ (k - 149)) m _ _ _
      (by positivity) hpos hspec.1 hspec.2 hge rfl ?_
    rw [hs]
    push_cast
    field_simp
    ring

theorem float005_eq : float005 = ⟨13421773, -28⟩ := by decide

theorem float1000_eq : float1000 = ⟨16384000, -14⟩ := by decide

theorem float005_toRat : float005.toRat = 13421773 / 268435456 := by
  rw [float005_eq]
  norm_num [F32.toRat]

theorem float1000_toRat : float1000.toRat = 1000 := by
  rw [float1000_eq]
  norm_num [F32.toRat]

theorem elapsedTicks_lt (ticks mTicksCount : Nat) : elapsedTicks ticks mTicksCount < 2 ^ 32 :=
  Nat.mod_lt _ (by norm_num)

/-- The conversion of a positive `Uint32` to `float` has a relative error of at most
`2 ^ (-24)`. -/
theorem F32.ofUInt32_bounds (e : Nat) (h0 : 0 < e) (h32 : e < 2 ^ 32) :
    (e : ℚ) * (1 - 1 / 2 ^ 24) ≤ (F32.ofUInt32 e).toRat ∧
    (F32.ofUInt32 e).toRat ≤ (e : ℚ) * (1 + 1 / 2 ^ 24) := by
  have h := F32.round_bounds e 1 (by norm_num) (by omega) (by omega)
  simpa [F32.ofUInt32] using h

/-- The `float` quotient `a / 1000.0f` has a relative error of at most `2 ^ (-24)`
when `a` is between 1/2 and `2 ^ 33`. -/
theorem F32.div_float1000_bounds (a : F32) (hlo : 1 / 2 ≤ a.toRat) (hhi : a.toRat ≤ 2 ^ 33) :
    (a.toRat / 1000) * (1 - 1 / 2 ^ 24) ≤ (a.div float1000).toRat ∧
    (a.div float1000).toRat ≤ (a.toRat / 1000) * (1 + 1 / 2 ^ 24) := by
  have hb : float1000.mant = 16384000 := by rw [float1000_eq]
  have ha := F32.toRat_split a (min a.exp float1000.exp) (min_le_left _ _)
  have hb2 := F32.toRat_split float1000 (min a.exp float1000.exp) (min_le_right _ _)
  rw [float1000_toRat] at hb2
  have hp : (0 : ℚ) < 2 ^ (min a.exp float1000.exp) := zpow_pos (by norm_num) _
  unfold F32.div
  simp only
  generalize a.mant * 2 ^ (a.exp - min a.exp float1000.exp).toNat = N at ha ⊢
  generalize hDdef : float1000.mant * 2 ^ (float1000.exp - min a.exp float1000.exp).toNat = D
    at hb2 ⊢
  generalize (2 : ℚ) ^ (min a.exp float1000.exp) = s at ha hb2 hp
  have hD : 0 < D := by
    rw [← hDdef, hb]
    positivity
  have hDq : (0 : ℚ) < D := by exact_mod_cast hD
  have hratio : a.toRat / 1000 = (N : ℚ) / D := by
    rw [ha, hb2]
    field_simp
    ring
  have hNq : (N : ℚ) = a.toRat / 1000 * D := by
    rw [hratio]
    field_simp
  have h1000 : (D : ℚ) * s = 1000 := hb2.symm
  have hr1 : (1 : ℚ) / 2000 ≤ a.toRat / 1000 := by linarith
  have hr2 : a.toRat / 1000 ≤ 2 ^ 33 / 1000 := by linarith
  have hlo2 : 2 ^ 24 * D ≤ N * 2 ^ 149 := by
    have h1 : (2 : ℚ) ^ 24 ≤ a.toRat / 1000 * 2 ^ 149 := by
      have : (2 : ℚ) ^ 24 ≤ 1 / 2000 * 2 ^ 149 := by norm_num
      exact this.trans (mul_le_mul_of_nonneg_right hr1 (by positivity))
    have : (2 : ℚ) ^ 24 * (D : ℚ) ≤ (N : ℚ) * 2 ^ 149 := by
      rw [hNq]
      calc (2 : ℚ) ^ 24 * D ≤ (a.toRat / 1000 * 2 ^ 149) * D :=
            mul_le_mul_of_nonneg_right h1 hDq.le
        _ = a.toRat / 1000 * D * 2 ^ 149 := by ring
    exact_mod_cast this
  have hhi2 : N < 2 ^ 24 * (D * 2 ^ 104) := by
    have h1 : a.toRat / 1000 < 2 ^ 24 * 2 ^ 104 := by
      have : (2 : ℚ) ^ 33 / 1000 < 2 ^ 24 * 2 ^ 104 := by norm_num
      exact lt_of_le_of_lt hr2 this
    have : (N : ℚ) < (2 : ℚ) ^ 24 * ((D : ℚ) * 2 ^ 104) := by
      rw [hNq]
      calc a.toRat / 1000 * D < (2 ^ 24 * 2 ^ 104) * D :=
            mul_lt_mul_of_pos_right h1 hDq
        _ = 2 ^ 24 * (D * 2 ^ 104) := by ring
    exact_mod_cast this
  rw [hratio]
  exact F32.round_bounds N D hD hlo2 hhi2

/-- The unclamped delta time `float(elapsed) / 1000.0f` differs from the elapsed
seconds by the two roundings only. -/
theorem quotient_bounds (e : Nat) (h0 : 0 < e) (h32 : e < 2 ^ 32) :
    ((e : ℚ) / 1000) * (1 - 1 / 2 ^ 24) ^ 2 ≤ ((F32.ofUInt32 e).div float1000).toRat ∧
    ((F32.ofUInt32 e).div float1000).toRat ≤ ((e : ℚ) / 1000) * (1 + 1 / 2 ^ 24) ^ 2 := by
  obtain ⟨c1, c2⟩ := F32.ofUInt32_bounds e h0 h32
  have he1 : (1 : ℚ) ≤ e := by exact_mod_cast h0
  have he2 : (e : ℚ) ≤ 2 ^ 32 := by exact_mod_cast h32.le
  obtain ⟨d1, d2⟩ := F32.div_float1000_bounds (F32.ofUInt32 e)
    (by nlinarith) (by nlinarith)
  constructor
  · have : ((e : ℚ) / 1000) * (1 - 1 / 2 ^ 24) ^ 2
        ≤ ((F32.ofUInt32 e).toRat / 1000) * (1 - 1 / 2 ^ 24) := by
      have : (e : ℚ) * (1 - 1 / 2 ^ 24) * (1 - 1 / 2 ^ 24)
          ≤ (F32.ofUInt32 e).toRat * (1 - 1 / 2 ^ 24) :=
        mul_le_mul_of_nonneg_right c1 (by norm_num)
      linarith
    linarith
  · have : ((F32.ofUInt32 e).toRat / 1000) * (1 + 1 / 2 ^ 24)
        ≤ ((e : ℚ) / 1000) * (1 + 1 / 2 ^ 24) ^ 2 := by
      have : (F32.ofUInt32 e).toRat * (1 + 1 / 2 ^ 24)
          ≤ (e : ℚ) * (1 + 1 / 2 ^ 24) * (1 + 1 / 2 ^ 24) :=
        mul_le_mul_of_nonneg_right c2 (by norm_num)
      linarith
    linarith

theorem computeDeltaTime_of_not_gt (ticks mTicksCount : Nat)
    (h : ((F32.ofUInt32 (elapsedTicks ticks mTicksCount)).div float1000).gt float005 = false) :
    computeDeltaTime ticks mTicksCount
      = (F32.ofUInt32 (elapsedTicks ticks mTicksCount)).div float1000 := by
  unfold computeDeltaTime
  simp only [h]
  rfl

theorem computeDeltaTime_of_gt (ticks mTicksCount : Nat)
    (h : ((F32.ofUInt32 (elapsedTicks ticks mTicksCount)).div float1000).gt float005 = true) :
    computeDeltaTime ticks mTicksCount = float005 := by
  unfold computeDeltaTime
  simp only [h]
  rfl

/-- From 50 elapsed milliseconds on, the delta time is the clamp value `0.05f`. -/
theorem computeDeltaTime_clamps (ticks mTicksCount : Nat)
    (h : 50 ≤ elapsedTicks ticks mTicksCount) :
    computeDeltaTime ticks mTicksCount = float005 := by
  rcases Nat.eq_or_lt_of_le h with h50 | h51
  · unfold computeDeltaTime
    rw [← h50]
    decide
  · apply computeDeltaTime_of_gt
    rw [F32.gt_iff, float005_toRat]
    obtain ⟨b1, _⟩ := quotient_bounds (elapsedTicks ticks mTicksCount) (by omega)
      (elapsedTicks_lt ticks mTicksCount)
    have he : (51 : ℚ) ≤ elapsedTicks ticks mTicksCount := by exact_mod_cast h51
    have : (13421773 : ℚ) / 268435456 < (51 / 1000) * (1 - 1 / 2 ^ 24) ^ 2 := by norm_num
    have h2 : ((51 : ℚ) / 1000) * (1 - 1 / 2 ^ 24) ^ 2
        ≤ ((elapsedTicks ticks mTicksCount : ℚ) / 1000) * (1 - 1 / 2 ^ 24) ^ 2 :=
      mul_le_mul_of_nonneg_right (by linarith) (by positivity)
    linarith

/-- Below 50 elapsed milliseconds the delta time is the unclamped `float` quotient,
which differs from the elapsed seconds by the two roundings only. -/
theorem computeDeltaTime_below (ticks mTicksCount : Nat)
    (h : elapsedTicks ticks mTicksCount < 50) :
    computeDeltaTime ticks mTicksCount
      = (F32.ofUInt32 (elapsedTicks ticks mTicksCount)).div float1000 ∧
    ((elapsedTicks ticks mTicksCount : ℚ) / 1000) * (1 - 1 / 2 ^ 24) ^ 2
      ≤ (computeDeltaTime ticks mTicksCount).toRat ∧
    (computeDeltaTime ticks mTicksCount).toRat
      ≤ ((elapsedTicks ticks mTicksCount : ℚ) / 1000) * (1 + 1 / 2 ^ 24) ^ 2 := by
  rcases Nat.eq_zero_or_pos (elapsedTicks ticks mTicksCount) with h0 | hpos
  · have hq : (F32.ofUInt32 (elapsedTicks ticks mTicksCount)).div float1000 = ⟨0, -149⟩ := by
      rw [h0]
      decide
    have hc : computeDeltaTime ticks mTicksCount = ⟨0, -149⟩ := by
      unfold computeDeltaTime
      rw [h0]
      decide
    rw [hc, hq, h0]
    refine ⟨rfl, ?_, ?_⟩ <;> norm_num [F32.toRat]
  · obtain ⟨b1, b2⟩ := quotient_bounds (elapsedTicks ticks mTicksCount) hpos
      (elapsedTicks_lt ticks mTicksCount)
    have hngt : ((F32.ofUInt32 (elapsedTicks ticks mTicksCount)).div float1000).gt float005
        = false := by
      rw [Bool.eq_false_iff]
      intro hgt
      rw [F32.gt_iff, float005_toRat] at hgt
      have he : (elapsedTicks ticks mTicksCount : ℚ) ≤ 49 := by
        have : elapsedTicks ticks mTicksCount ≤ 49 := by omega
        exact_mod_cast this
      have : ((49 : ℚ) / 1000) * (1 + 1 / 2 ^ 24) ^ 2 < 13421773 / 268435456 := by norm_num
      have h2 : ((elapsedTicks ticks mTicksCount : ℚ) / 1000) * (1 + 1 / 2 ^ 24) ^ 2
          ≤ ((49 : ℚ) / 1000) * (1 + 1 / 2 ^ 24) ^ 2 :=
        mul_le_mul_of_nonneg_right (by linarith) (by positivity)
      linarith
    have hc := computeDeltaTime_of_not_gt ticks mTicksCount hngt
    rw [hc]
    exact ⟨rfl, b1, b2⟩

theorem foldl_updateActor_probe (deltaTime : F32) (as : List Nat) (g : Game)
    (hg : g.mUpdatingActors = true) :
    (as.foldl (Game.updateActor (probeUpdate deltaTime)) g).mPendingActors
      = g.mPendingActors ++
        (if deltaTime = float005 then [] else as.map (fun _ => deltaTime.mant)) := by
  induction as generalizing g with
  | nil => simp
  | cons a as ih =>
    have hflag : (Game.updateActor (probeUpdate deltaTime) g a).mUpdatingActors = true :=
      (foldl_act (probeUpdate deltaTime a g) { g with log := g.log ++ [.update a] } hg).2.2
    simp only [List.foldl_cons]
    rw [ih _ hflag]
    by_cases hd : deltaTime = float005
    · simp [hd, Game.updateActor, probeUpdate]
    · simp [hd, Game.updateActor, probeUpdate, Game.act, Game.AddActor, hg]

/-- Samples of the conversion to `float`: an exact value, the two kinds of tie, and
the largest `Uint32`. -/
theorem F32.ofUInt32_samples :
    F32.ofUInt32 200 = ⟨13107200, -16⟩ ∧
    F32.ofUInt32 16777217 = ⟨8388608, 1⟩ ∧
    F32.ofUInt32 16777219 = ⟨8388610, 1⟩ ∧
    F32.ofUInt32 (2 ^ 32 - 1) = ⟨8388608, 9⟩ ∧
    (F32.ofUInt32 200).div float1000 = ⟨13421773, -26⟩ := by
  decide

/-- C13, as worded, fails: for 200 elapsed milliseconds the delta time is `0.05f`,
the `float` 13421773 / 2^28, which is greater than 0.05; and for 30 elapsed
milliseconds it is the `float` 16106127 / 2^29, which is less than 0.03, the
minimum of the elapsed seconds and 0.05. -/
theorem deltaTime_above_clamp :
    elapsedTicks 1200 1000 = 200 ∧
    computeDeltaTime 1200 1000 = ⟨13421773, -28⟩ ∧
    (computeDeltaTime 1200 1000).toRat = 13421773 / 268435456 ∧
    (1 / 20 : ℚ) < (computeDeltaTime 1200 1000).toRat ∧
    elapsedTicks 1030 1000 = 30 ∧
    computeDeltaTime 1030 1000 = ⟨16106127, -29⟩ ∧
    (computeDeltaTime 1030 1000).toRat = 16106127 / 536870912 ∧
    (computeDeltaTime 1030 1000).toRat < min (30 / 1000) (1 / 20) := by
  have h1 : computeDeltaTime 1200 1000 = ⟨13421773, -28⟩ := by decide
  have h2 : computeDeltaTime 1030 1000 = ⟨16106127, -29⟩ := by decide
  refine ⟨by decide, h1, ?_, ?_, by decide, h2, ?_, ?_⟩
  · rw [h1]; norm_num [F32.toRat]
  · rw [h1]; norm_num [F32.toRat]
  · rw [h2]; norm_num [F32.toRat]
  · rw [h2]; norm_num [F32.toRat]

/-- C13, amended: the delta time that `UpdateGame` computes and passes to the
`Update` of every actor of the pass (a probing `Update` records it once per live
actor) is, in `float` arithmetic, the minimum of the quotient
`float(elapsed milliseconds) / 1000.0f` and `0.05f`, where `0.05f` is the `float`
13421773 / 2^28 (above 0.05 by less than 10^-9).  It is never greater than `0.05f`;
it is exactly `0.05f` from 50 elapsed milliseconds on, so for 0.2 s; and below 50
milliseconds it is the quotient, within the two `float` roundings (relative error
`2^-24` each) of the elapsed seconds. -/
theorem deltaTime_clamped (ticks mTicksCount : Nat) :
    (computeDeltaTime ticks mTicksCount).toRat
      = min ((F32.ofUInt32 (elapsedTicks ticks mTicksCount)).div float1000).toRat
          float005.toRat ∧
    (computeDeltaTime ticks mTicksCount).toRat ≤ float005.toRat ∧
    float005.toRat = 13421773 / 268435456 ∧
    (1 / 20 : ℚ) < float005.toRat ∧ float005.toRat < 1 / 20 + 1 / 10 ^ 9 ∧
    (50 ≤ elapsedTicks ticks mTicksCount → computeDeltaTime ticks mTicksCount = float005) ∧
    (elapsedTicks ticks mTicksCount = 200 → computeDeltaTime ticks mTicksCount = float005) ∧
    (elapsedTicks ticks mTicksCount < 50 →
      computeDeltaTime ticks mTicksCount
        = (F32.ofUInt32 (elapsedTicks ticks mTicksCount)).div float1000 ∧
      ((elapsedTicks ticks mTicksCount : ℚ) / 1000) * (1 - 1 / 2 ^ 24) ^ 2
        ≤ (computeDeltaTime ticks mTicksCount).toRat ∧
      (computeDeltaTime ticks mTicksCount).toRat
        ≤ ((elapsedTicks ticks mTicksCount : ℚ) / 1000) * (1 + 1 / 2 ^ 24) ^ 2) ∧
    ∀ (update : F32 → Nat → Game → List HookAction) (g : Game),
      g.UpdateGameAt update ticks mTicksCount
        = g.UpdateGame (update (computeDeltaTime ticks mTicksCount)) ∧
      (g.UpdateGameAt update ticks mTicksCount).log
        = g.log ++ g.mActors.map GameEvent.update ++
          spliceEvents
            (g.tickPass (update (computeDeltaTime ticks mTicksCount))).mPendingActors ++
          ((g.tickPass (update (computeDeltaTime ticks mTicksCount))).splicePending.deadActors).map
            GameEvent.destroy ∧
      (g.tickPass (probeUpdate (computeDeltaTime ticks mTicksCount))).mPendingActors
        = g.mPendingActors ++
          (if computeDeltaTime ticks mTicksCount = float005 then []
           else g.mActors.map (fun _ => (computeDeltaTime ticks mTicksCount).mant)) := by
  have hmin : (computeDeltaTime ticks mTicksCount).toRat
      = min ((F32.ofUInt32 (elapsedTicks ticks mTicksCount)).div float1000).toRat
          float005.toRat := by
    cases hg : ((F32.ofUInt32 (elapsedTicks ticks mTicksCount)).div float1000).gt float005 with
    | true =>
      rw [computeDeltaTime_of_gt ticks mTicksCount hg]
      exact (min_eq_right (le_of_lt ((F32.gt_iff _ _).mp hg))).symm
    | false =>
      rw [computeDeltaTime_of_not_gt ticks mTicksCount hg]
      have : ¬ float005.toRat
          < ((F32.ofUInt32 (elapsedTicks ticks mTicksCount)).div float1000).toRat := by
        intro h
        have := (F32.gt_iff _ _).mpr h
        rw [hg] at this
        exact Bool.noConfusion this
      exact (min_eq_left (not_lt.mp this)).symm
  refine ⟨hmin, ?_, float005_toRat, ?_, ?_, computeDeltaTime_clamps ticks mTicksCount,
    fun h => computeDeltaTime_clamps ticks mTicksCount (by omega),
    computeDeltaTime_below ticks mTicksCount, fun update g => ⟨rfl, UpdateGame_log _ g,
      foldl_updateActor_probe _ g.mActors { g with mUpdatingActors := true } rfl⟩⟩
  · rw [hmin]
    exact min_le_right _ _
  · rw [float005_toRat]; norm_num
  · rw [float005_toRat]; norm_num

theorem deltaTime_clamped_witness :
    elapsedTicks 1200 1000 = 200 ∧ computeDeltaTime 1200 1000 = float005 ∧
    elapsedTicks 1030 1000 < 50 ∧
    computeDeltaTime 1030 1000 = (F32.ofUInt32 (elapsedTicks 1030 1000)).div float1000 ∧
    (sampleGame.UpdateGameAt probeUpdate 1200 1000).mActors = [1, 2, 3] ∧
    (sampleGame.UpdateGameAt probeUpdate 1030 1000).mActors
      = [1, 2, 3, 16106127, 16106127, 16106127] :=
  ⟨by decide, (deltaTime_clamped 1200 1000).2.2.2.2.2.2.1 (by decide),
   by decide, ((deltaTime_clamped 1030 1000).2.2.2.2.2.2.2.1 (by decide)).1,
   by decide, by decide⟩

/-! ## Renderer: resource caches -/

theorem getOrLoad_cached {load : String → Option Nat} {cache : List (String × Nat)}
    {f : String} {h : Nat} (hc : cache.lookup f = some h) :
    getOrLoad load cache f = (some h, cache, []) := by
  simp [getOrLoad, hc]

theorem getOrLoad_loaded {load : String → Option Nat} {cache : List (String × Nat)}
    {f : String} {h : Nat} (hc : cache.lookup f = none) (hl : load f = some h) :
    getOrLoad load cache f = (some h, cache ++ [(f, h)], [f]) := by
  simp [getOrLoad, hc, hl]

theorem getOrLoad_failed {load : String → Option Nat} {cache : List (String × Nat)}
    {f : String} (hc : cache.lookup f = none) (hl : load f = none) :
    getOrLoad load cache f = (none, cache, [f]) := by
  simp [getOrLoad, hc, hl]

theorem lookup_snoc_new {cache : List (String × Nat)} {f : String} (h : Nat)
    (hc : cache.lookup f = none) :
    (cache ++ [(f, h)]).lookup f = some h ∧
    ∀ k, k ≠ f → (cache ++ [(f, h)]).lookup k = cache.lookup k := by
  refine ⟨?_, fun k hk => ?_⟩
  · rw [lookup_append_of_none _ hc]
    simp [List.lookup]
  · cases hl : cache.lookup k with
    | some v => exact lookup_append_of_some _ hl
    | none =>
      rw [lookup_append_of_none _ hl]
      have : (k == f) = false := by simpa using hk
      simp [List.lookup, this]

/-- C14: `GetTexture(f)` calls the loader exactly when `f` is not a key of the
texture map.  A cached `f` gives the cached handle and leaves everything as it
is.  A load that succeeds adds the one entry for `f`, changes the lookup of no
other name, and returns the new handle.  A load that fails returns `nullptr` and
leaves the map as it is.  Once a lookup of `f` has returned a handle, every later
lookup of `f` returns that handle, whatever the loader would do, without calling
it.  The same holds for `GetMesh` and the mesh map. -/
theorem resource_lookup_cached (load : String → Option Nat) (c : ResourceCaches)
    (f : String) :
    ((c.GetTexture load f).2.loads = c.loads ++ [.texture f] ↔ c.mTextures.lookup f = none) ∧
    ((c.GetTexture load f).2.loads = c.loads ↔ c.mTextures.lookup f ≠ none) ∧
    (∀ h, c.mTextures.lookup f = some h → c.GetTexture load f = (some h, c)) ∧
    (∀ h, c.mTextures.lookup f = none → load f = some h →
      (c.GetTexture load f).1 = some h ∧
      (c.GetTexture load f).2.mTextures = c.mTextures ++ [(f, h)] ∧
      (c.GetTexture load f).2.mTextures.lookup f = some h ∧
      (∀ k, k ≠ f → (c.GetTexture load f).2.mTextures.lookup k = c.mTextures.lookup k) ∧
      (c.GetTexture load f).2.mMeshes = c.mMeshes) ∧
    (c.mTextures.lookup f = none → load f = none →
      (c.GetTexture load f).1 = none ∧ (c.GetTexture load f).2.mTextures = c.mTextures ∧
      (c.GetTexture load f).2.mMeshes = c.mMeshes) ∧
    (∀ h, (c.GetTexture load f).1 = some h → ∀ load2,
      (c.GetTexture load f).2.GetTexture load2 f = (some h, (c.GetTexture load f).2)) ∧
    ((c.GetMesh load f).2.loads = c.loads ++ [.mesh f] ↔ c.mMeshes.lookup f = none) ∧
    ((c.GetMesh load f).2.loads = c.loads ↔ c.mMeshes.lookup f ≠ none) ∧
    (∀ h, c.mMeshes.lookup f = some h → c.GetMesh load f = (some h, c)) ∧
    (∀ h, c.mMeshes.lookup f = none → load f = some h →
      (c.GetMesh load f).1 = some h ∧
      (c.GetMesh load f).2.mMeshes = c.mMeshes ++ [(f, h)] ∧
      (c.GetMesh load f).2.mMeshes.lookup f = some h ∧
      (∀ k, k ≠ f → (c.GetMesh load f).2.mMeshes.lookup k = c.mMeshes.lookup k) ∧
      (c.GetMesh load f).2.mTextures = c.mTextures) ∧
    (c.mMeshes.lookup f = none → load f = none →
      (c.GetMesh load f).1 = none ∧ (c.GetMesh load f).2.mMeshes = c.mMeshes ∧
      (c.GetMesh load f).2.mTextures = c.mTextures) ∧
    (∀ h, (c.GetMesh load f).1 = some h → ∀ load2,
      (c.GetMesh load f).2.GetMesh load2 f = (some h, (c.GetMesh load f).2)) := by
  have cachedT : ∀ (d : ResourceCaches) (ld : String → Option Nat) h,
      d.mTextures.lookup f = some h → d.GetTexture ld f = (some h, d) := by
    intro d ld h hc
    simp [ResourceCaches.GetTexture, getOrLoad_cached hc]
  have cachedM : ∀ (d : ResourceCaches) (ld : String → Option Nat) h,
      d.mMeshes.lookup f = some h → d.GetMesh ld f = (some h, d) := by
    intro d ld h hc
    simp [ResourceCaches.GetMesh, getOrLoad_cached hc]
  refine ⟨?_, ?_, cachedT c load, ?_, ?_, ?_, ?_, ?_, cachedM c load, ?_, ?_, ?_⟩
  · cases hc : c.mTextures.lookup f with
    | some h => simp [cachedT c load h hc]
    | none =>
      cases hl : load f with
      | some h => simp [ResourceCaches.GetTexture, getOrLoad_loaded hc hl]
      | none => simp [ResourceCaches.GetTexture, getOrLoad_failed hc hl]
  · cases hc : c.mTextures.lookup f with
    | some h => simp [cachedT c load h hc]
    | none =>
      cases hl : load f with
      | some h => simp [ResourceCaches.GetTexture, getOrLoad_loaded hc hl]
      | none => simp [ResourceCaches.GetTexture, getOrLoad_failed hc hl]
  · intro h hc hl
    have e : (c.GetTexture load f).2.mTextures = c.mTextures ++ [(f, h)] := by
      simp [ResourceCaches.GetTexture, getOrLoad_loaded hc hl]
    refine ⟨by simp [ResourceCaches.GetTexture, getOrLoad_loaded hc hl], e, ?_, ?_, rfl⟩
    · rw [e]; exact (lookup_snoc_new h hc).1
    · intro k hk; rw [e]; exact (lookup_snoc_new h hc).2 k hk
  · intro hc hl
    simp [ResourceCaches.GetTexture, getOrLoad_failed hc hl]
  · intro h hres load2
    apply cachedT
    cases hc : c.mTextures.lookup f with
    | some h2 =>
      rw [cachedT c load h2 hc] at hres ⊢
      simp only [Option.some.injEq] at hres
      rw [← hres]; exact hc
    | none =>
      cases hl : load f with
      | some h2 =>
        have e1 : (c.GetTexture load f).1 = some h2 := by
          simp [ResourceCaches.GetTexture, getOrLoad_loaded hc hl]
        have e2 : (c.GetTexture load f).2.mTextures = c.mTextures ++ [(f, h2)] := by
          simp [ResourceCaches.GetTexture, getOrLoad_loaded hc hl]
        rw [e1] at hres
        simp only [Option.some.injEq] at hres
        rw [e2, ← hres]
        exact (lookup_snoc_new h2 hc).1
      | none =>
        have e1 : (c.GetTexture load f).1 = none := by
          simp [ResourceCaches.GetTexture, getOrLoad_failed hc hl]
        rw [e1] at hres
        cases hres
  · cases hc : c.mMeshes.lookup f with
    | some h => simp [cachedM c load h hc]
    | none =>
      cases hl : load f with
      | some h => simp [ResourceCaches.GetMesh, getOrLoad_loaded hc hl]
      | none => simp [ResourceCaches.GetMesh, getOrLoad_failed hc hl]
  · cases hc : c.mMeshes.lookup f with
    | some h => simp [cachedM c load h hc]
    | none =>
      cases hl : load f with
      | some h => simp [ResourceCaches.GetMesh, getOrLoad_loaded hc hl]
      | none => simp [ResourceCaches.GetMesh, getOrLoad_failed hc hl]
  · intro h hc hl
    have e : (c.GetMesh load f).2.mMeshes = c.mMeshes ++ [(f, h)] := by
      simp [ResourceCaches.GetMesh, getOrLoad_loaded hc hl]
    refine ⟨by simp [ResourceCaches.GetMesh, getOrLoad_loaded hc hl], e, ?_, ?_, rfl⟩
    · rw [e]; exact (lookup_snoc_new h hc).1
    · intro k hk; rw [e]; exact (lookup_snoc_new h hc).2 k hk
  · intro hc hl
    simp [ResourceCaches.GetMesh, getOrLoad_failed hc hl]
  · intro h hres load2
    apply cachedM
    cases hc : c.mMeshes.lookup f with
    | some h2 =>
      rw [cachedM c load h2 hc] at hres ⊢
      simp only [Option.some.injEq] at hres
      rw [← hres]; exact hc
    | none =>
      cases hl : load f with
      | some h2 =>
        have e1 : (c.GetMesh load f).1 = some h2 := by
          simp [ResourceCaches.GetMesh, getOrLoad_loaded hc hl]
        have e2 : (c.GetMesh load f).2.mMeshes = c.mMeshes ++ [(f, h2)] := by
          simp [ResourceCaches.GetMesh, getOrLoad_loaded hc hl]
        rw [e1] at hres
        simp only [Option.some.injEq] at hres
        rw [e2, ← hres]
        exact (lookup_snoc_new h2 hc).1
      | none =>
        have e1 : (c.GetMesh load f).1 = none := by
          simp [ResourceCaches.GetMesh, getOrLoad_failed hc hl]
        rw [e1] at hres
        cases hres

theorem resource_lookup_cached_witness :
    sampleCaches.mTextures.lookup "Assets/HealthBar.png" = none ∧
    sampleLoad "Assets/HealthBar.png" = some 7 ∧
    (sampleCaches.GetTexture sampleLoad "Assets/HealthBar.png").1 = some 7 ∧
    (sampleCaches.GetTexture sampleLoad "Assets/HealthBar.png").2.mTextures
      = [("Assets/Radar.png", 3), ("Assets/HealthBar.png", 7)] ∧
    sampleLoad "Missing.png" = none ∧
    (sampleCaches.GetTexture sampleLoad "Missing.png").1 = none :=
  ⟨by decide, by decide,
   ((resource_lookup_cached sampleLoad sampleCaches "Assets/HealthBar.png").2.2.2.1 7
      (by decide) (by decide)).1,
   ((resource_lookup_cached sampleLoad sampleCaches "Assets/HealthBar.png").2.2.2.1 7
      (by decide) (by decide)).2.1.trans (by decide),
   by decide,
   ((resource_lookup_cached sampleLoad sampleCaches "Missing.png").2.2.2.2.1
      (by decide) (by decide)).1⟩

/-! ## Renderer: mesh components -/

theorem lookup_appendToPartition_self {name : String} {l : List Nat}
    {ps : List (String × List Nat)} (mesh : Nat) (h : ps.lookup name = some l) :
    (appendToPartition name mesh ps).lookup name = some (l ++ [mesh]) := by
  induction ps with
  | nil => simp at h
  | cons p ps ih =>
    obtain ⟨k, v⟩ := p
    rw [List.lookup_cons] at h
    unfold appendToPartition
    by_cases hk : k = name
    · subst hk
      simp only [beq_self_eq_true, Option.some.injEq] at h
      simp [List.lookup_cons, h]
    · have hb : (name == k) = false := by
        simpa using fun e : name = k => hk e.symm
      rw [hb] at h
      simp only [hk, if_false, List.lookup_cons, hb]
      exact ih h

theorem lookup_appendToPartition_of_ne {name k : String} (mesh : Nat)
    (ps : List (String × List Nat)) (hk : k ≠ name) :
    (appendToPartition name mesh ps).lookup k = ps.lookup k := by
  induction ps with
  | nil => rfl
  | cons p ps ih =>
    obtain ⟨k2, v⟩ := p
    unfold appendToPartition
    by_cases h2 : k2 = name
    · subst h2
      have hb : (k == k2) = false := by simpa using hk
      simp [List.lookup_cons, hb]
    · simp only [h2, if_false, List.lookup_cons, ih]

theorem lookup_snoc_partition {ps : List (String × List Nat)} {name : String} (v : List Nat)
    (hc : ps.lookup name = none) :
    (ps ++ [(name, v)]).lookup name = some v ∧
    ∀ k, k ≠ name → (ps ++ [(name, v)]).lookup k = ps.lookup k := by
  have gen : ∀ (k : String) (qs : List (String × List Nat)),
      (qs ++ [(name, v)]).lookup k =
        match qs.lookup k with
        | some w => some w
        | none => if k = name then some v else none := by
    intro k qs
    induction qs with
    | nil =>
      by_cases hk : k = name
      · subst hk; simp [List.lookup]
      · have hb : (k == name) = false := by simpa using hk
        simp [List.lookup, hb, hk]
    | cons q qs ih =>
      obtain ⟨k2, w⟩ := q
      rw [List.cons_append, List.lookup_cons, List.lookup_cons]
      cases hb : (k == k2)
      · exact ih
      · rfl
  refine ⟨?_, fun k hk => ?_⟩
  · rw [gen name ps, hc]; simp
  · rw [gen k ps]
    cases ps.lookup k <;> simp [hk]

/-- C15: the code does not do what the claim says.  `RemoveMeshComp` of a component
that `AddMeshComp` has just registered returns normally with the renderer exactly
as it was: the partition of the component still holds the component. -/
theorem RemoveMeshComp_after_AddMeshComp (shaderName : Nat → String) (r : Renderer)
    (mesh : Nat) :
    (r.AddMeshComp shaderName mesh).RemoveMeshComp shaderName mesh
      = .ok (r.AddMeshComp shaderName mesh) ∧
    ∃ l, (r.AddMeshComp shaderName mesh).mMeshComps.lookup (shaderName mesh) = some l ∧
      mesh ∈ l := by
  have hreg : ∃ l, (r.AddMeshComp shaderName mesh).mMeshComps.lookup (shaderName mesh)
      = some l ∧ mesh ∈ l := by
    unfold Renderer.AddMeshComp
    cases hc : r.mMeshComps.lookup (shaderName mesh) with
    | some l0 => exact ⟨l0 ++ [mesh], lookup_appendToPartition_self mesh hc, by simp⟩
    | none => exact ⟨[mesh], (lookup_snoc_partition [mesh] hc).1, by simp⟩
  refine ⟨?_, hreg⟩
  obtain ⟨l, hl, hm⟩ := hreg
  unfold Renderer.RemoveMeshComp
  rw [hl]
  simp [List.indexOf_lt_length.mpr hm]

/-- C19, as worded, fails: sprite 3 is not in the list `[1, 2]` and `RemoveSprite`
has no defined result; mesh component 30 is not in the partition of its shader
name and mesh component 22 has no partition in the loaded renderer, and
`RemoveMeshComp` fails for both. -/
theorem remove_absent_not_noop :
    3 ∉ [1, 2] ∧ RemoveSprite [1, 2] 3 = none ∧ RemoveSprite [1, 2] 3 ≠ some [1, 2] ∧
    sampleRenderer.mMeshComps.lookup (sampleShaderName 30) = some [20, 21] ∧
    sampleRenderer.RemoveMeshComp sampleShaderName 30 = .error .eraseEnd ∧
    loadedRenderer.mMeshComps.lookup (sampleShaderName 22) = none ∧
    loadedRenderer.RemoveMeshComp sampleShaderName 22 = .error .outOfRange := by
  refine ⟨by decide, by decide, by decide, by decide, rfl, by decide, rfl⟩

/-- C19, amended: removing a component that is not present is not a no-op.
`RemoveSprite` of a sprite that is not in the list has no defined result (it
erases at `end()`); `RemoveMeshComp` of a component whose shader name has no
partition throws `std::out_of_range`, and of a component that is not in its
partition it erases at `end()`. -/
theorem remove_absent_fails (shaderName : Nat → String) (l : List Nat) (s : Nat)
    (r : Renderer) (mesh : Nat) :
    (s ∉ l → RemoveSprite l s = none) ∧
    (r.mMeshComps.lookup (shaderName mesh) = none →
      r.RemoveMeshComp shaderName mesh = .error .outOfRange) ∧
    (∀ part, r.mMeshComps.lookup (shaderName mesh) = some part → mesh ∉ part →
      r.RemoveMeshComp shaderName mesh = .error .eraseEnd) := by
  refine ⟨fun hs => ?_, fun hn => ?_, fun part hp hm => ?_⟩
  · have : ¬ l.indexOf s < l.length := by
      rw [List.indexOf_lt_length]; exact hs
    simp [RemoveSprite, this]
  · simp [Renderer.RemoveMeshComp, hn]
  · have : ¬ part.indexOf mesh < part.length := by
      rw [List.indexOf_lt_length]; exact hm
    simp [Renderer.RemoveMeshComp, hp, this]

theorem remove_absent_fails_witness :
    5 ∉ [1, 2, 0] ∧ RemoveSprite [1, 2, 0] 5 = none ∧
    loadedRenderer.mMeshComps.lookup (sampleShaderName 22) = none ∧
    loadedRenderer.RemoveMeshComp sampleShaderName 22 = .error .outOfRange :=
  ⟨by decide,
   (remove_absent_fails sampleShaderName [1, 2, 0] 5 loadedRenderer 22).1 (by decide),
   by decide,
   (remove_absent_fails sampleShaderName [1, 2, 0] 5 loadedRenderer 22).2.1 (by decide)⟩

/-! ## Renderer: shaders of the mesh phase -/

theorem SetCurrentShader_exact (r : Renderer) (name : String) :
    (r.SetCurrentShader name).commands = r.commands ++ activation r.mShaders name ∧
    (r.SetCurrentShader name).pCurrentShader = shaderAfter r.mShaders r.pCurrentShader name ∧
    (r.SetCurrentShader name).mShaders = r.mShaders ∧
    (r.SetCurrentShader name).mMeshComps = r.mMeshComps ∧
    (r.SetCurrentShader name).mSprites = r.mSprites := by
  unfold Renderer.SetCurrentShader activation shaderAfter
  cases r.mShaders.lookup name <;> simp [Renderer.issue]

theorem meshDraws_exact (mcs : List Nat) (r : Renderer) :
    (mcs.foldl (fun r1 mc => r1.issue [.meshDraw mc r1.pCurrentShader]) r).commands
      = r.commands ++ mcs.map (fun mc => RenderCommand.meshDraw mc r.pCurrentShader) ∧
    (mcs.foldl (fun r1 mc => r1.issue [.meshDraw mc r1.pCurrentShader]) r).pCurrentShader
      = r.pCurrentShader ∧
    (mcs.foldl (fun r1 mc => r1.issue [.meshDraw mc r1.pCurrentShader]) r).mShaders
      = r.mShaders := by
  induction mcs generalizing r with
  | nil => simp
  | cons mc mcs ih =>
    obtain ⟨h1, h2, h3⟩ := ih (r.issue [.meshDraw mc r.pCurrentShader])
    simp only [List.foldl_cons]
    refine ⟨?_, h2, h3⟩
    rw [h1]
    simp [Renderer.issue]

theorem drawPartition_exact (r : Renderer) (p : String × List Nat) :
    (r.drawPartition p).commands = r.commands ++ (activation r.mShaders p.1 ++
      p.2.map (fun mc => RenderCommand.meshDraw mc (shaderAfter r.mShaders r.pCurrentShader p.1))) ∧
    (r.drawPartition p).pCurrentShader = shaderAfter r.mShaders r.pCurrentShader p.1 ∧
    (r.drawPartition p).mShaders = r.mShaders := by
  obtain ⟨s1, s2, s3, _, _⟩ := SetCurrentShader_exact r p.1
  obtain ⟨h1, h2, h3⟩ := meshDraws_exact p.2 (r.SetCurrentShader p.1)
  unfold Renderer.drawPartition
  refine ⟨?_, h2.trans s2, h3.trans s3⟩
  rw [h1, s1, s2, List.append_assoc]

theorem partitions_exact (ps : List (String × List Nat)) (r : Renderer) :
    (ps.foldl Renderer.drawPartition r).commands
      = r.commands ++ partitionsCommands r.mShaders r.pCurrentShader ps ∧
    (ps.foldl Renderer.drawPartition r).pCurrentShader
      = shaderAfterPartitions r.mShaders r.pCurrentShader ps := by
  induction ps generalizing r with
  | nil => simp [partitionsCommands, shaderAfterPartitions]
  | cons p ps ih =>
    obtain ⟨d1, d2, d3⟩ := drawPartition_exact r p
    obtain ⟨h1, h2⟩ := ih (r.drawPartition p)
    simp only [List.foldl_cons]
    refine ⟨?_, ?_⟩
    · rw [h1, d1, d2, d3]
      simp [partitionsCommands]
    · rw [h2, d2, d3]
      rfl

theorem meshCalls_append (cs ds : List RenderCommand) :
    meshCalls (cs ++ ds) = meshCalls cs ++ meshCalls ds := by
  induction cs with
  | nil => rfl
  | cons c cs ih => cases c <;> simp [meshCalls, ih]

theorem meshCalls_of_inSpriteSetup (cs : List RenderCommand)
    (h : ∀ c ∈ cs, c.inSpriteSetup = true) : meshCalls cs = [] := by
  induction cs with
  | nil => rfl
  | cons c cs ih =>
    have hc := h c (List.mem_cons_self _ _)
    have ih2 := ih (fun c hc => h c (List.mem_cons_of_mem _ hc))
    cases c <;> simp [RenderCommand.inSpriteSetup] at hc <;> simpa [meshCalls] using ih2

theorem activation_inSpriteSetup (shaders : List (String × Nat)) (name : String) :
    ∀ c ∈ activation shaders name, c.inSpriteSetup = true := by
  unfold activation
  cases shaders.lookup name <;> simp [RenderCommand.inSpriteSetup]

theorem meshCalls_spriteDraws (ss : List Nat) (sh : Option Nat) :
    meshCalls (ss.map (fun s => RenderCommand.spriteDraw s sh)) = [] := by
  induction ss with
  | nil => rfl
  | cons s ss ih => simpa [meshCalls] using ih

theorem partitionsCommands_own (shaders : List (String × Nat)) (cur : Option Nat)
    (ps : List (String × List Nat)) (h : ∀ p ∈ ps, shaders.lookup p.1 ≠ none) :
    partitionsCommands shaders cur ps = partitionsWithOwnShader shaders ps := by
  induction ps generalizing cur with
  | nil => rfl
  | cons p ps ih =>
    have hp := h p (List.mem_cons_self _ _)
    unfold partitionsCommands partitionsWithOwnShader
    rw [ih _ (fun q hq => h q (List.mem_cons_of_mem _ hq))]
    cases hl : shaders.lookup p.1 with
    | none => exact absurd hl hp
    | some sh => simp [activation, shaderAfter, partitionWithOwnShader, hl]

theorem meshCalls_own (shaderName : Nat → String) (shaders : List (String × Nat))
    (ps : List (String × List Nat)) (h : ∀ p ∈ ps, shaders.lookup p.1 ≠ none)
    (hk : ∀ p ∈ ps, ∀ mc ∈ p.2, shaderName mc = p.1) :
    ∀ call ∈ meshCalls (partitionsWithOwnShader shaders ps),
      call.2 = shaders.lookup (shaderName call.1) ∧ call.2 ≠ none := by
  induction ps with
  | nil => simp [partitionsWithOwnShader, meshCalls]
  | cons p ps ih =>
    intro call hcall
    unfold partitionsWithOwnShader at hcall
    rw [meshCalls_append] at hcall
    rcases List.mem_append.mp hcall with hc | hc
    · have hp := h p (List.mem_cons_self _ _)
      unfold partitionWithOwnShader at hc
      cases hl : shaders.lookup p.1 with
      | none => exact absurd hl hp
      | some sh =>
        rw [hl] at hc
        simp only [meshCalls] at hc
        have hmem : ∀ (mcs : List Nat), call ∈ meshCalls
            (mcs.map (fun mc => RenderCommand.meshDraw mc (some sh))) →
            call.1 ∈ mcs ∧ call.2 = some sh := by
          intro mcs
          induction mcs with
          | nil => simp [meshCalls]
          | cons m mcs ihm =>
            intro hin
            simp only [List.map_cons, meshCalls, List.mem_cons] at hin
            rcases hin with rfl | hin
            · exact ⟨List.mem_cons_self _ _, rfl⟩
            · exact ⟨List.mem_cons_of_mem _ (ihm hin).1, (ihm hin).2⟩
        obtain ⟨m1, m2⟩ := hmem p.2 hc
        rw [hk p (List.mem_cons_self _ _) call.1 m1, hl, m2]
        simp
    · exact ih (fun q hq => h q (List.mem_cons_of_mem _ hq))
        (fun q hq => hk q (List.mem_cons_of_mem _ hq)) call hc

theorem meshesDrawn_partitionsCommands (shaders : List (String × Nat)) (cur : Option Nat)
    (ps : List (String × List Nat)) :
    meshesDrawn (partitionsCommands shaders cur ps) = allMeshComps ps := by
  induction ps generalizing cur with
  | nil => rfl
  | cons p ps ih =>
    unfold partitionsCommands allMeshComps
    rw [meshesDrawn_append, meshesDrawn_append, ih]
    have h1 : meshesDrawn (activation shaders p.1) = [] := by
      unfold activation
      cases shaders.lookup p.1 <;> simp [meshesDrawn]
    have h2 : ∀ (mcs : List Nat) (sh : Option Nat),
        meshesDrawn (mcs.map (fun mc => RenderCommand.meshDraw mc sh)) = mcs := by
      intro mcs sh
      induction mcs with
      | nil => rfl
      | cons m mcs ihm => simp [meshesDrawn, ihm]
    rw [h1, h2]
    rfl

/-- The whole log of `drawCalls`, command by command. -/
theorem drawCalls_exact (r : Renderer) :
    r.drawCalls.commands = r.commands ++
      ([.glClearColor, .glClear, .glEnable .depthTest, .glDisable .blend] ++
        activation r.mShaders meshShaderName ++
        [.setViewProj (shaderAfter r.mShaders r.pCurrentShader meshShaderName),
         .setLightUniforms (shaderAfter r.mShaders r.pCurrentShader meshShaderName)]) ++
      partitionsCommands r.mShaders
        (shaderAfter r.mShaders r.pCurrentShader meshShaderName) r.mMeshComps ++
      ([.glDisable .depthTest, .glEnable .blend, .glBlendEquationSeparate,
          .glBlendFuncSeparate] ++
        activation r.mShaders spriteShaderName ++ [.spriteVertsSetActive] ++
        r.mSprites.map (fun s => RenderCommand.spriteDraw s r.drawCalls.pCurrentShader) ++
        [.swapWindow]) := by
  have a1 := SetCurrentShader_exact
    (r.issue [.glClearColor, .glClear, .glEnable .depthTest, .glDisable .blend]) meshShaderName
  generalize hr2 : (r.issue [.glClearColor, .glClear, .glEnable .depthTest,
    .glDisable .blend]).SetCurrentShader meshShaderName = r2 at a1
  obtain ⟨a11, a12, a13, a14, a15⟩ := a1
  generalize hr3 : r2.issue [.setViewProj r2.pCurrentShader,
    .setLightUniforms r2.pCurrentShader] = r3
  have b1 : r3.commands = r2.commands ++ [.setViewProj r2.pCurrentShader,
      .setLightUniforms r2.pCurrentShader] := by rw [← hr3]; rfl
  have b2 : r3.pCurrentShader = r2.pCurrentShader := by rw [← hr3]; rfl
  have b3 : r3.mShaders = r2.mShaders := by rw [← hr3]; rfl
  have b4 : r3.mMeshComps = r2.mMeshComps := by rw [← hr3]; rfl
  have b5 : r3.mSprites = r2.mSprites := by rw [← hr3]; rfl
  obtain ⟨c1, c2⟩ := partitions_exact r3.mMeshComps r3
  obtain ⟨_, ⟨_, c3, c4, c5⟩, _⟩ := extends_partitions r3.mMeshComps r3
  generalize hr4 : r3.mMeshComps.foldl Renderer.drawPartition r3 = r4 at c1 c2 c3 c4 c5
  generalize hr5 : r4.issue [.glDisable .depthTest, .glEnable .blend,
    .glBlendEquationSeparate, .glBlendFuncSeparate] = r5
  have d1 : r5.commands = r4.commands ++ [.glDisable .depthTest, .glEnable .blend,
      .glBlendEquationSeparate, .glBlendFuncSeparate] := by rw [← hr5]; rfl
  have d3 : r5.mShaders = r4.mShaders := by rw [← hr5]; rfl
  have d5 : r5.mSprites = r4.mSprites := by rw [← hr5]; rfl
  obtain ⟨e1, _, _, _, e5⟩ := SetCurrentShader_exact r5 spriteShaderName
  generalize hr6 : r5.SetCurrentShader spriteShaderName = r6 at e1 e5
  generalize hr7 : r6.issue [.spriteVertsSetActive] = r7
  have f1 : r7.commands = r6.commands ++ [.spriteVertsSetActive] := by rw [← hr7]; rfl
  have f5 : r7.mSprites = r6.mSprites := by rw [← hr7]; rfl
  obtain ⟨g1, g2⟩ := extends_spriteDraws r7.mSprites r7
  generalize hr8 : r7.mSprites.foldl
    (fun r9 s => r9.issue [.spriteDraw s r9.pCurrentShader]) r7 = r8 at g1 g2
  have hD : r.drawCalls = r8.issue [.swapWindow] := by
    unfold Renderer.drawCalls
    simp only [hr2, hr3, hr4, hr5, hr6, hr7, hr8]
  have hsh : r.drawCalls.pCurrentShader = r7.pCurrentShader := by rw [hD]; exact g2
  rw [hsh, hD]
  show r8.commands ++ [RenderCommand.swapWindow] = _
  rw [g1.1, f1, e1, d1, c1, b1, a11, f5, e5, d5, c3, b5, a15, d3, c5, b3, a13, b2, a12, b4, a14]
  simp [Renderer.issue]

/-- C20, as worded, fails in three ways.  The sample renderer has a partition "Glow"
but no shader of that name: `Draw` activates no shader for the partition, and mesh
component 22 is drawn with shader 11, the shader registered under "Mesh".  In a
renderer whose only shader and partition are "Glow" and whose current shader is
null, `Draw` dereferences the null pointer before the loop and draws nothing.
After a second `AddMeshComp` of component 20, `Draw` draws that component twice. -/
theorem Draw_unloaded_shader :
    sampleRenderer.mMeshComps = [("Mesh", [20, 21]), ("Glow", [22])] ∧
    sampleShaderName 22 = "Glow" ∧
    sampleRenderer.mShaders.lookup "Glow" = none ∧
    sampleRenderer.mShaders.lookup "Mesh" = some 11 ∧
    sampleRenderer.Draw.map (fun r => meshCalls r.commands)
      = some [(20, some 11), (21, some 11), (22, some 11)] ∧
    (∀ p ∈ glowOnlyRenderer.mMeshComps, glowOnlyRenderer.mShaders.lookup p.1 ≠ none) ∧
    glowOnlyRenderer.Draw = none ∧
    (loadedRenderer.AddMeshComp sampleShaderName 20).mMeshComps = [("Mesh", [20, 21, 20])] ∧
    (loadedRenderer.AddMeshComp sampleShaderName 20).Draw.map (fun r => meshCalls r.commands)
      = some [(20, some 11), (21, some 11), (20, some 11)] := by
  refine ⟨rfl, by decide, by decide, by decide, by decide, by decide, rfl, by decide, by decide⟩

/-- C20, amended: when a shader is current after `SetCurrentShader("Mesh")` and the
sprite vertex array is set, `Draw` returns and has logged, between commands that
draw no mesh, the commands of the loop over the mesh map, which draw every mesh
component of every partition once per entry, hence exactly once when no component
is registered twice.  When every partition name of the mesh map is the name of a
loaded shader, the loop logs for each partition the activation of the shader of
that name and then one draw per component with that shader; if moreover every
component sits in the partition of its own shader name, every mesh draw receives
the shader registered under the shader name of its component.  (For a partition
whose name is not a loaded shader nothing is activated and the components are
drawn with the shader that was current before.)  `AddMeshComp` puts the component
at the end of the list found under its shader name, or makes that list when the
name has none, and changes the list of no other name. -/
theorem Draw_partition_shaders (shaderName : Nat → String) (r : Renderer) (mesh : Nat) :
    (¬ (r.mShaders.lookup meshShaderName = none ∧ r.pCurrentShader = none) →
      r.pSpriteVerts ≠ none →
      ∃ r2 pre post, r.Draw = some r2 ∧
        r2.commands = r.commands ++ pre ++
          partitionsCommands r.mShaders
            (shaderAfter r.mShaders r.pCurrentShader meshShaderName) r.mMeshComps ++ post ∧
        meshCalls pre = [] ∧ meshCalls post = []) ∧
    (∀ cur, meshesDrawn (partitionsCommands r.mShaders cur r.mMeshComps)
      = allMeshComps r.mMeshComps) ∧
    ((allMeshComps r.mMeshComps).Nodup → ∀ cur, ∀ mc ∈ allMeshComps r.mMeshComps,
      (meshesDrawn (partitionsCommands r.mShaders cur r.mMeshComps)).count mc = 1) ∧
    ((∀ p ∈ r.mMeshComps, r.mShaders.lookup p.1 ≠ none) →
      (∀ cur, partitionsCommands r.mShaders cur r.mMeshComps
        = partitionsWithOwnShader r.mShaders r.mMeshComps) ∧
      ((∀ p ∈ r.mMeshComps, ∀ mc ∈ p.2, shaderName mc = p.1) →
        ∀ call ∈ meshCalls (partitionsWithOwnShader r.mShaders r.mMeshComps),
          call.2 = r.mShaders.lookup (shaderName call.1) ∧ call.2 ≠ none)) ∧
    (∀ l, r.mMeshComps.lookup (shaderName mesh) = some l →
      (r.AddMeshComp shaderName mesh).mMeshComps.lookup (shaderName mesh)
        = some (l ++ [mesh])) ∧
    (r.mMeshComps.lookup (shaderName mesh) = none →
      (r.AddMeshComp shaderName mesh).mMeshComps.lookup (shaderName mesh) = some [mesh]) ∧
    (∀ k, k ≠ shaderName mesh →
      (r.AddMeshComp shaderName mesh).mMeshComps.lookup k = r.mMeshComps.lookup k) ∧
    (r.AddMeshComp shaderName mesh).mShaders = r.mShaders ∧
    (r.AddMeshComp shaderName mesh).mSprites = r.mSprites := by
  refine ⟨fun h1 h2 => ?_, fun cur => meshesDrawn_partitionsCommands _ cur _,
    fun hnd cur mc hmc => ?_,
    fun h => ⟨fun cur => partitionsCommands_own _ cur _ h,
      fun hk => meshCalls_own shaderName _ _ h hk⟩, ?_, ?_, ?_, ?_, ?_⟩
  · obtain ⟨v, hv⟩ := Option.ne_none_iff_exists'.mp h2
    have hsome : r.Draw = some r.drawCalls := by
      cases hl : r.mShaders.lookup meshShaderName with
      | some sh => exact Draw_of_pointers r sh v (by rw [hl]) hv
      | none =>
        cases hp : r.pCurrentShader with
        | some sh => exact Draw_of_pointers r sh v (by rw [hl, hp]) hv
        | none => exact absurd ⟨hl, hp⟩ h1
    refine ⟨r.drawCalls, _, _, hsome, drawCalls_exact r, ?_, ?_⟩
    · rw [meshCalls_append, meshCalls_append,
        meshCalls_of_inSpriteSetup _ (activation_inSpriteSetup _ _)]
      rfl
    · simp only [meshCalls_append, meshCalls_spriteDraws,
        meshCalls_of_inSpriteSetup _ (activation_inSpriteSetup _ _)]
      rfl
  · rw [meshesDrawn_partitionsCommands]
    exact List.count_eq_one_of_mem hnd hmc
  · intro l hl
    simp only [Renderer.AddMeshComp, hl]
    exact lookup_appendToPartition_self mesh hl
  · intro hn
    simp only [Renderer.AddMeshComp, hn]
    exact (lookup_snoc_partition [mesh] hn).1
  · intro k hk
    unfold Renderer.AddMeshComp
    cases hc : r.mMeshComps.lookup (shaderName mesh) with
    | some l => exact lookup_appendToPartition_of_ne mesh _ hk
    | none => exact (lookup_snoc_partition [mesh] hc).2 k hk
  · unfold Renderer.AddMeshComp
    cases r.mMeshComps.lookup (shaderName mesh) <;> rfl
  · unfold Renderer.AddMeshComp
    cases r.mMeshComps.lookup (shaderName mesh) <;> rfl

theorem Draw_partition_shaders_witness :
    ¬ (loadedRenderer.mShaders.lookup meshShaderName = none ∧
        loadedRenderer.pCurrentShader = none) ∧
    loadedRenderer.pSpriteVerts ≠ none ∧
    (∃ r2, loadedRenderer.Draw = some r2) ∧
    (allMeshComps loadedRenderer.mMeshComps).Nodup ∧
    (meshesDrawn (partitionsCommands loadedRenderer.mShaders none
      loadedRenderer.mMeshComps)).count 21 = 1 ∧
    (∀ p ∈ loadedRenderer.mMeshComps, loadedRenderer.mShaders.lookup p.1 ≠ none) ∧
    partitionsCommands loadedRenderer.mShaders none loadedRenderer.mMeshComps
      = [.shaderSetActive 11, .meshDraw 20 (some 11), .meshDraw 21 (some 11)] ∧
    loadedRenderer.mMeshComps.lookup (sampleShaderName 22) = none ∧
    (loadedRenderer.AddMeshComp sampleShaderName 22).mMeshComps.lookup (sampleShaderName 22)
      = some [22] :=
  ⟨by decide, by decide,
   let ⟨r2, _, _, h, _⟩ :=
     (Draw_partition_shaders sampleShaderName loadedRenderer 22).1 (by decide) (by decide)
   ⟨r2, h⟩,
   by decide,
   (Draw_partition_shaders sampleShaderName loadedRenderer 22).2.2.1 (by decide) none 21
     (by decide),
   by decide,
   (((Draw_partition_shaders sampleShaderName loadedRenderer 22).2.2.2.1 (by decide)).1
      none).trans (by decide),
   by decide,
   (Draw_partition_shaders sampleShaderName loadedRenderer 22).2.2.2.2.2.1 (by decide)⟩

/-! ## Sprite removal -/

theorem eraseIdx_indexOf_of_count_one (l : List Nat) (s : Nat) (h : l.count s = 1) :
    l.eraseIdx (l.indexOf s) = l.filter (fun x => decide (x ≠ s)) := by
  induction l with
  | nil => simp at h
  | cons x l ih =>
    by_cases hx : x = s
    · subst hx
      have h0 : l.count x = 0 := by simpa using h
      have hn : x ∉ l := List.count_eq_zero.mp h0
      have hf : l.filter (fun y => decide (y ≠ x)) = l := by
        rw [List.filter_eq_self]
        intro a ha
        simpa using fun e : a = x => hn (e ▸ ha)
      rw [List.filter_cons, hf]
      simp [List.indexOf_cons]
    · have hc : l.count s = 1 := by
        rw [List.count_cons] at h
        have : (x == s) = false := by simpa using hx
        simpa [this] using h
      have hb : (x == s) = false := by simpa using hx
      simp only [List.indexOf_cons, hb, cond_false, List.eraseIdx_cons_succ]
      rw [ih hc, List.filter_cons]
      simp [hx]

/-- C16: `RemoveSprite` of a sprite that occurs exactly once in the list gives the
list without that sprite, every other sprite in its former relative order, one
element shorter; so registering a new sprite with `AddSprite` and then removing
it with `RemoveSprite` gives back the sprite list as it was. -/
theorem RemoveSprite_restores (d : Nat → Int) (l : List Nat) (s : Nat) :
    (l.count s = 1 →
      RemoveSprite l s = some (l.filter (fun x => decide (x ≠ s))) ∧
      s ∉ l.filter (fun x => decide (x ≠ s)) ∧
      (l.filter (fun x => decide (x ≠ s))).length + 1 = l.length ∧
      (l.filter (fun x => decide (x ≠ s))).Sublist l) ∧
    (s ∉ l → RemoveSprite (AddSprite d l s) s = some l) := by
  refine ⟨fun h => ?_, fun hs => ?_⟩
  · have hm : s ∈ l := List.count_pos_iff.mp (by omega)
    refine ⟨?_, by simp, ?_, List.filter_sublist _⟩
    · rw [RemoveSprite_of_mem hm, eraseIdx_indexOf_of_count_one l s h]
    · rw [← eraseIdx_indexOf_of_count_one l s h, List.length_eraseIdx,
        if_pos (List.indexOf_lt_length.mpr hm)]
      have := List.length_pos_of_mem hm
      omega
  · have hc : (AddSprite d l s).count s = 1 := by
      rw [(AddSprite_perm d l s).count_eq, List.count_cons_self, List.count_eq_zero.mpr hs]
    have hm : s ∈ AddSprite d l s := List.count_pos_iff.mp (by omega)
    rw [RemoveSprite_of_mem hm, eraseIdx_indexOf_of_count_one _ s hc]
    obtain ⟨pre, post, h1, h2, _, _⟩ := AddSprite_split d l s
    rw [h2, h1]
    have hpre : s ∉ pre := fun hin => hs (h1 ▸ List.mem_append_left _ hin)
    have hpost : s ∉ post := fun hin => hs (h1 ▸ List.mem_append_right _ hin)
    have keep : ∀ (q : List Nat), s ∉ q → q.filter (fun x => decide (x ≠ s)) = q := by
      intro q hq
      rw [List.filter_eq_self]
      intro a ha
      simpa using fun e : a = s => hq (e ▸ ha)
    rw [List.filter_append, List.filter_cons, keep pre hpre, keep post hpost]
    simp

theorem RemoveSprite_restores_witness :
    [1, 2, 0].count 2 = 1 ∧ RemoveSprite [1, 2, 0] 2 = some [1, 0] ∧
    7 ∉ [1, 2, 0] ∧ RemoveSprite (AddSprite sampleOrder [1, 2, 0] 7) 7 = some [1, 2, 0] :=
  ⟨by decide,
   ((RemoveSprite_restores sampleOrder [1, 2, 0] 2).1 (by decide)).1.trans (by decide),
   by decide,
   (RemoveSprite_restores sampleOrder [1, 2, 0] 7).2 (by decide)⟩

/-! ## MoveComponent and NavComponent -/

/-- C17: for a start node `A` whose parent is `B`, `StartPath(A)` returns with the
next waypoint `B`, the owner's rotation `atan2(-(B.y - p.y), B.x - p.x)` for the
owner's position `p`, and the owner's position, and both speeds, as they were. -/
theorem StartPath_heads_to_parent {F : Type} [Sub F] [Neg F] (atan2 : F → F → F)
    (getParent : Nat → Option Nat) (getPosition : Nat → Vector2 F) (n : NavComponent F)
    (A B : Nat) (hp : getParent A = some B) :
    ∃ n2, NavComponent.StartPath atan2 getParent getPosition n A = some n2 ∧
      n2.pNextNode = some B ∧
      n2.owner.mRotation =
        atan2 (-((getPosition B).y - n.owner.mPosition.y))
          ((getPosition B).x - n.owner.mPosition.x) ∧
      n2.owner.mPosition = n.owner.mPosition ∧
      n2.mAngularSpeed = n.mAngularSpeed ∧ n2.mForwardSpeed = n.mForwardSpeed := by
  refine ⟨NavComponent.TurnTo atan2 { n with pNextNode := some B } (getPosition B), ?_,
    rfl, rfl, rfl, rfl, rfl⟩
  simp only [NavComponent.StartPath, hp]

theorem StartPath_heads_to_parent_witness :
    sampleParent 3 = some 2 ∧
    NavComponent.StartPath sampleAtan2 sampleParent samplePosition sampleNav 3
      = some ⟨⟨⟨⟨1, 1⟩, -181⟩, 2, 3⟩, some 2⟩ ∧
    ∃ n2, NavComponent.StartPath sampleAtan2 sampleParent samplePosition sampleNav 3 = some n2 ∧
      n2.pNextNode = some 2 ∧
      n2.owner.mRotation =
        sampleAtan2 (-((samplePosition 2).y - sampleNav.owner.mPosition.y))
          ((samplePosition 2).x - sampleNav.owner.mPosition.x) ∧
      n2.owner.mPosition = sampleNav.owner.mPosition ∧
      n2.mAngularSpeed = sampleNav.mAngularSpeed ∧ n2.mForwardSpeed = sampleNav.mForwardSpeed :=
  ⟨rfl, by decide,
   StartPath_heads_to_parent sampleAtan2 sampleParent samplePosition sampleNav 3 2 rfl⟩

/-- C18: the 2D `MoveComponent::Update` leaves the rotation as it is when the
angular speed is negligible and otherwise adds `angularSpeed * dt` to it; it
leaves the position as it is when the forward speed is negligible and otherwise
adds `forward * forwardSpeed * dt` to it, `forward` being the forward vector of
the owner read after the rotation step; it never changes the speeds, and with
both speeds negligible it changes nothing. -/
theorem MoveComponent_Update_pose {F : Type} [Add F] [Mul F] (nearZero : F → Bool)
    (getForward : Actor2D F → Vector2 F) (m : MoveComponent F) (deltaTime : F) :
    (nearZero m.mAngularSpeed = true →
      (m.Update nearZero getForward deltaTime).owner.mRotation = m.owner.mRotation) ∧
    (nearZero m.mAngularSpeed = false →
      (m.Update nearZero getForward deltaTime).owner.mRotation
        = m.owner.mRotation + m.mAngularSpeed * deltaTime) ∧
    (nearZero m.mForwardSpeed = true →
      (m.Update nearZero getForward deltaTime).owner.mPosition = m.owner.mPosition) ∧
    (nearZero m.mForwardSpeed = false →
      (m.Update nearZero getForward deltaTime).owner.mPosition
        = m.owner.mPosition.add
          (((getForward ⟨m.owner.mPosition,
              (m.Update nearZero getForward deltaTime).owner.mRotation⟩).scale
            m.mForwardSpeed).scale deltaTime)) ∧
    (m.Update nearZero getForward deltaTime).mAngularSpeed = m.mAngularSpeed ∧
    (m.Update nearZero getForward deltaTime).mForwardSpeed = m.mForwardSpeed ∧
    (nearZero m.mAngularSpeed = true → nearZero m.mForwardSpeed = true →
      m.Update nearZero getForward deltaTime = m) := by
  unfold MoveComponent.Update
  cases h1 : nearZero m.mAngularSpeed <;> cases h2 : nearZero m.mForwardSpeed <;> simp

theorem MoveComponent_Update_pose_witness :
    (sampleNav.mAngularSpeed == 0) = false ∧ (sampleNav.mForwardSpeed == 0) = false ∧
    (sampleNav.toMoveComponent.Update (fun v => v == 0) sampleForward 5).owner.mRotation = 10 ∧
    (sampleNav.toMoveComponent.Update (fun v => v == 0) sampleForward 5).owner.mPosition
      = ⟨151, 16⟩ :=
  ⟨by decide, by decide,
   ((MoveComponent_Update_pose (fun v => v == 0) sampleForward sampleNav.toMoveComponent 5).2.1
      (by decide)).trans (by decide),
   ((MoveComponent_Update_pose (fun v => v == 0) sampleForward sampleNav.toMoveComponent
      5).2.2.2.1 (by decide)).trans (by decide)⟩

/-! ## NavComponent: following the path -/

/-- C21: `NavComponent::Update` with a next waypoint.  When the owner is not within
2 units of it, the update is the base move alone and the next waypoint stays.
When the owner is within 2 units and the waypoint has a parent, the next waypoint
becomes the parent and the owner is turned toward the parent, at its unchanged
position, before the base move.  The update dereferences a null pointer exactly
when the next waypoint is within 2 units and has no parent; `StartPath` does so
exactly when the start node has no parent. -/
theorem NavUpdate_waypoint {F : Type} [Add F] [Mul F] [Sub F] [Neg F] (atan2 : F → F → F)
    (length : Vector2 F → F) (nearTwo : F → Bool) (getParent : Nat → Option Nat)
    (getPosition : Nat → Vector2 F) (nearZero : F → Bool)
    (getForward : Actor2D F → Vector2 F) (n : NavComponent F) (deltaTime : F) :
    (∀ node, n.pNextNode = some node →
      n.atNode length nearTwo getPosition node = false →
      NavComponent.Update atan2 length nearTwo getParent getPosition nearZero getForward n
        deltaTime = some (n.baseUpdate nearZero getForward deltaTime) ∧
      (n.baseUpdate nearZero getForward deltaTime).pNextNode = some node) ∧
    (∀ node parent, n.pNextNode = some node →
      n.atNode length nearTwo getPosition node = true → getParent node = some parent →
      NavComponent.Update atan2 length nearTwo getParent getPosition nearZero getForward n
        deltaTime
        = some ((NavComponent.TurnTo atan2 { n with pNextNode := some parent }
            (getPosition parent)).baseUpdate nearZero getForward deltaTime) ∧
      ((NavComponent.TurnTo atan2 { n with pNextNode := some parent }
          (getPosition parent)).baseUpdate nearZero getForward deltaTime).pNextNode
        = some parent ∧
      (NavComponent.TurnTo atan2 { n with pNextNode := some parent }
          (getPosition parent)).owner.mRotation
        = atan2 (-((getPosition parent).y - n.owner.mPosition.y))
            ((getPosition parent).x - n.owner.mPosition.x) ∧
      (NavComponent.TurnTo atan2 { n with pNextNode := some parent }
          (getPosition parent)).owner.mPosition = n.owner.mPosition) ∧
    (NavComponent.Update atan2 length nearTwo getParent getPosition nearZero getForward n
        deltaTime = none ↔
      ∃ node, n.pNextNode = some node ∧
        n.atNode length nearTwo getPosition node = true ∧ getParent node = none) ∧
    (∀ start, NavComponent.StartPath atan2 getParent getPosition n start = none ↔
      getParent start = none) := by
  refine ⟨fun node hn hfar => ?_, fun node parent hn hat hp => ?_, ?_, fun start => ?_⟩
  · refine ⟨?_, hn⟩
    simp only [NavComponent.Update, hn, hfar]
    rfl
  · refine ⟨?_, rfl, rfl, rfl⟩
    simp only [NavComponent.Update, hn, hat, hp]
    rfl
  · unfold NavComponent.Update
    cases hn : n.pNextNode with
    | none => simp
    | some node =>
      cases hat : n.atNode length nearTwo getPosition node with
      | false => simp [hat]
      | true =>
        cases hp : getParent node with
        | none => simp [hat, hp]
        | some parent => simp [hat, hp]
  · unfold NavComponent.StartPath
    cases getParent start <;> simp

theorem NavUpdate_waypoint_witness :
    navAtOne.pNextNode = some 1 ∧
    navAtOne.atNode sampleLength sampleNearTwo samplePosition 1 = true ∧
    sampleParent 1 = some 0 ∧
    NavComponent.Update sampleAtan2 sampleLength sampleNearTwo sampleParent samplePosition
      (fun v => v == 0) sampleForward navAtOne 5
      = some ⟨⟨⟨⟨-1654, 17⟩, -111⟩, 0, 3⟩, some 0⟩ ∧
    navAtEnd.atNode sampleLength sampleNearTwo samplePosition 0 = true ∧
    sampleParent 0 = none ∧
    NavComponent.Update sampleAtan2 sampleLength sampleNearTwo sampleParent samplePosition
      (fun v => v == 0) sampleForward navAtEnd 5 = none :=
  ⟨rfl, by decide, rfl,
   ((NavUpdate_waypoint sampleAtan2 sampleLength sampleNearTwo sampleParent samplePosition
      (fun v => v == 0) sampleForward navAtOne 5).2.1 1 0 rfl (by decide) rfl).1.trans
     (by decide),
   by decide, rfl,
   (NavUpdate_waypoint sampleAtan2 sampleLength sampleNearTwo sampleParent samplePosition
      (fun v => v == 0) sampleForward navAtEnd 5).2.2.1.mpr ⟨0, rfl, by decide, rfl⟩⟩

/-! ## Game (Chapter 7): the bouncing sphere -/

theorem sphereStep_down {F : Type} [LinearOrderedRing F] (s : SphereState F)
    (hd : s.mDirection = true) (hy : -1000 ≤ s.pos.y) :
    sphereStep s = { s with pos := { s.pos with y := s.pos.y - 5 } } := by
  simp [sphereStep, hd, hy]

theorem sphereStep_up {F : Type} [LinearOrderedRing F] (s : SphereState F)
    (hd : s.mDirection = false) (hy : s.pos.y ≤ 1000) :
    sphereStep s = { s with pos := { s.pos with y := s.pos.y + 5 } } := by
  simp [sphereStep, hd, hy]

theorem sphereStep_flip {F : Type} [LinearOrderedRing F] (s : SphereState F)
    (h1 : ¬ (s.mDirection = true ∧ -1000 ≤ s.pos.y))
    (h2 : ¬ (s.mDirection = false ∧ s.pos.y ≤ 1000)) :
    sphereStep s = { s with mDirection := !s.mDirection } := by
  unfold sphereStep
  cases hd : s.mDirection with
  | true =>
    have : ¬ -1000 ≤ s.pos.y := fun h => h1 ⟨hd, h⟩
    simp [this]
  | false =>
    have : ¬ s.pos.y ≤ 1000 := fun h => h2 ⟨hd, h⟩
    simp [this]

theorem sphereStep_cases {F : Type} [LinearOrderedRing F] (s : SphereState F) :
    (s.mDirection = true ∧ -1000 ≤ s.pos.y ∧
      sphereStep s = { s with pos := { s.pos with y := s.pos.y - 5 } }) ∨
    (s.mDirection = false ∧ s.pos.y ≤ 1000 ∧
      sphereStep s = { s with pos := { s.pos with y := s.pos.y + 5 } }) ∨
    sphereStep s = { s with mDirection := !s.mDirection } := by
  by_cases h1 : s.mDirection = true ∧ -1000 ≤ s.pos.y
  · exact Or.inl ⟨h1.1, h1.2, sphereStep_down s h1.1 h1.2⟩
  · by_cases h2 : s.mDirection = false ∧ s.pos.y ≤ 1000
    · exact Or.inr (Or.inl ⟨h2.1, h2.2, sphereStep_up s h2.1 h2.2⟩)
    · exact Or.inr (Or.inr (sphereStep_flip s h1 h2))

theorem sphereStep_bound {F : Type} [LinearOrderedRing F] (s : SphereState F)
    (hlo : -1005 ≤ s.pos.y) (hhi : s.pos.y ≤ 1005) :
    -1005 ≤ (sphereStep s).pos.y ∧ (sphereStep s).pos.y ≤ 1005 := by
  rcases sphereStep_cases s with ⟨_, hy, e⟩ | ⟨_, hy, e⟩ | e
  · rw [e]
    constructor
    · show (-1005 : F) ≤ s.pos.y - 5
      have h := sub_le_sub_right hy 5
      have e5 : (-1000 : F) - 5 = -1005 := by norm_num
      rw [e5] at h
      exact h
    · show s.pos.y - 5 ≤ 1005
      exact le_trans (sub_le_self _ (by norm_num)) hhi
  · rw [e]
    constructor
    · show (-1005 : F) ≤ s.pos.y + 5
      exact le_trans hlo (le_add_of_nonneg_right (by norm_num))
    · show s.pos.y + 5 ≤ 1005
      have h := add_le_add_right hy 5
      have e5 : (1000 : F) + 5 = 1005 := by norm_num
      rw [e5] at h
      exact h
  · rw [e]
    exact ⟨hlo, hhi⟩

theorem sphereRun_bound {F : Type} [LinearOrderedRing F] (n : Nat) (s : SphereState F)
    (hlo : -1005 ≤ s.pos.y) (hhi : s.pos.y ≤ 1005) :
    -1005 ≤ (sphereRun n s).pos.y ∧ (sphereRun n s).pos.y ≤ 1005 := by
  induction n generalizing s with
  | zero => exact ⟨hlo, hhi⟩
  | succ n ih =>
    have hb := sphereStep_bound s hlo hhi
    exact ih (sphereStep s) hb.1 hb.2

/-- C22: one sphere step of the Chapter 7 `UpdateGame` keeps a `y` between -1005
and 1005 in that range: the step is `y - 5` when moving down with `y >= -1000`,
`y + 5` when moving up with `y <= 1000`, and otherwise leaves `y` and flips the
direction.  So the bound holds after any number of frames; the direction flips
only in a step that leaves the position as it is, and `x` and `z` never change. -/
theorem sphere_bounded {F : Type} [LinearOrderedRing F] (s : SphereState F)
    (hlo : -1005 ≤ s.pos.y) (hhi : s.pos.y ≤ 1005) :
    (-1005 ≤ (sphereStep s).pos.y ∧ (sphereStep s).pos.y ≤ 1005) ∧
    (s.mDirection = true → -1000 ≤ s.pos.y →
      sphereStep s = { s with pos := { s.pos with y := s.pos.y - 5 } }) ∧
    (s.mDirection = false → s.pos.y ≤ 1000 →
      sphereStep s = { s with pos := { s.pos with y := s.pos.y + 5 } }) ∧
    (¬ (s.mDirection = true ∧ -1000 ≤ s.pos.y) → ¬ (s.mDirection = false ∧ s.pos.y ≤ 1000) →
      sphereStep s = { s with mDirection := !s.mDirection }) ∧
    (∀ n, -1005 ≤ (sphereRun n s).pos.y ∧ (sphereRun n s).pos.y ≤ 1005) ∧
    ((sphereStep s).mDirection ≠ s.mDirection → (sphereStep s).pos = s.pos) ∧
    (sphereStep s).pos.x = s.pos.x ∧ (sphereStep s).pos.z = s.pos.z := by
  refine ⟨sphereStep_bound s hlo hhi, sphereStep_down s, sphereStep_up s, sphereStep_flip s,
    fun n => sphereRun_bound n s hlo hhi, ?_, ?_, ?_⟩
  · intro hne
    rcases sphereStep_cases s with ⟨_, _, e⟩ | ⟨_, _, e⟩ | e
    · rw [e] at hne; exact absurd rfl hne
    · rw [e] at hne; exact absurd rfl hne
    · rw [e]
  · rcases sphereStep_cases s with ⟨_, _, e⟩ | ⟨_, _, e⟩ | e <;> rw [e]
  · rcases sphereStep_cases s with ⟨_, _, e⟩ | ⟨_, _, e⟩ | e <;> rw [e]

theorem sphere_bounded_witness :
    (-1005 : Int) ≤ edgeSphere.pos.y ∧ edgeSphere.pos.y ≤ 1005 ∧
    sphereStep sampleSphere = ⟨true, ⟨500, -80, 0⟩⟩ ∧
    sphereRun 1 edgeSphere = ⟨true, ⟨500, -1005, 0⟩⟩ ∧
    sphereRun 2 edgeSphere = ⟨false, ⟨500, -1005, 0⟩⟩ ∧
    sphereRun 3 edgeSphere = ⟨false, ⟨500, -1000, 0⟩⟩ ∧
    (-1005 ≤ (sphereRun 3 edgeSphere).pos.y ∧ (sphereRun 3 edgeSphere).pos.y ≤ 1005) :=
  ⟨by decide, by decide, by decide, by decide, by decide, by decide,
   (sphere_bounded edgeSphere (by decide) (by decide)).2.2.2.2.1 3⟩

end Engine
